import Mathlib

/-!
# Gompose (goui): layout engine, shallow embedding

Embedding of `goui/core` (property bag, node tree, function component),
`goui/layout` (constraints, recursive layout walk) and `goui/render` (tree walk
of the renderer, console target).

Modelling conventions
* `float64` values are rationals (`ℚ`): arithmetic is exact, there is no NaN,
  no infinity and no rounding.  Go `int` values are integers (`ℤ`).
* `len(text)` of a Go string is its number of UTF-8 bytes: `String.utf8ByteSize`.
* `core.Props` (`map[string]interface{}`) is an association list; a lookup takes
  the first binding of a key.
* `map[string]Rect` is an association list with at most one binding per written
  key; `Layout.set` overwrites, as a Go map assignment does.
* `*core.Node` is a finite tree: `Children` is a list of nodes and `Component`
  is an optional function from properties to a node (`Component.Render`).  The
  `Parent` back-reference is never read by the layout walk and is left out.
* The layout walk mutates one map; here every function takes the map and
  returns the new map next to its result.
* `RenderTarget` is an interface; a render pass is the sequence of calls it
  makes on its target (`TargetCall`).
* The console board is a list of rows of characters; an assignment
  `buffer[y][x] = ch` with an index out of range is the result `none`.
  `int(f)` is truncation toward zero; `for i, char := range text` yields the
  characters with their UTF-8 byte offsets.
* `walkConstraints` lists the constraints of the calls of
  `calculateNodeLayout` in one walk; it mirrors the walk and records nothing
  else.
* `Node` holds only trees that are well-founded together with the nodes their
  components return.  `RefNode` and `calculateNodeLayoutFuel` embed the same
  walk with components held by reference and a bound on the call depth;
  `calculateNodeLayout_completes` relates the two.
-/

namespace Gompose

/-! ## core/props.go -/

/-- Dynamic values stored in a property bag (`interface{}`): the variants used
in this repository. -/
inductive Value where
  | str (s : String)
  | float (q : ℚ)
  | int (n : ℤ)
  | bool (b : Bool)
  | func (id : ℕ)
  deriving DecidableEq

/-- Property bag `core.Props`. -/
abbrev Props := List (String × Value)

/-- Go map read `value, exists := p[key]`. -/
def Props.Get (p : Props) (key : String) : Option Value :=
  p.lookup key

/-- `Props.GetString`: the string stored under `key`, else the default. -/
def Props.GetString (p : Props) (key : String) (defaultValue : String) : String :=
  match p.Get key with
  | some (Value.str strValue) => strValue
  | _ => defaultValue

/-- `Props.GetFloat`: the float stored under `key`, or the conversion of the
int stored there, else the default. -/
def Props.GetFloat (p : Props) (key : String) (defaultValue : ℚ) : ℚ :=
  match p.Get key with
  | some (Value.float floatValue) => floatValue
  | some (Value.int intValue) => (intValue : ℚ)
  | _ => defaultValue

/-! ## core/node.go -/

/-- Node kinds are strings in the source (`type NodeType string`). -/
abbrev NodeType := String

def TextNodeType : NodeType := "Text"
def ContainerNodeType : NodeType := "Container"
def RowNodeType : NodeType := "Row"
def ColumnNodeType : NodeType := "Column"
def BoxNodeType : NodeType := "Box"
def CustomNodeType : NodeType := "Custom"

/-- Tree node `core.Node`: kind, key, properties, ordered children, optional
component (its `Render` function). -/
inductive Node where
  | mk (type : NodeType) (key : String) (props : Props) (children : List Node)
      (component : Option (Props → Node))

namespace Node

def Type_ : Node → NodeType
  | mk t _ _ _ _ => t

def Key : Node → String
  | mk _ k _ _ _ => k

def Props : Node → Gompose.Props
  | mk _ _ p _ _ => p

def Children : Node → List Node
  | mk _ _ _ cs _ => cs

def Component : Node → Option (Gompose.Props → Node)
  | mk _ _ _ _ comp => comp

end Node

/-- `core.NewNode`: a node without children and without component. -/
def NewNode (nodeType : NodeType) (key : String) (props : Props) : Node :=
  Node.mk nodeType key props [] none

/-! ## layout/layout.go: geometry -/

structure Size where
  Width : ℚ
  Height : ℚ
  deriving DecidableEq

structure Position where
  X : ℚ
  Y : ℚ
  deriving DecidableEq

structure Rect where
  Position : Position
  Size : Size
  deriving DecidableEq

structure Constraints where
  MinSize : Size
  MaxSize : Size
  deriving DecidableEq

def NewConstraints (minWidth minHeight maxWidth maxHeight : ℚ) : Constraints :=
  { MinSize := { Width := minWidth, Height := minHeight },
    MaxSize := { Width := maxWidth, Height := maxHeight } }

def FixedSize (width height : ℚ) : Constraints :=
  { MinSize := { Width := width, Height := height },
    MaxSize := { Width := width, Height := height } }

def Tight (size : Size) : Constraints :=
  { MinSize := size, MaxSize := size }

def Loose (maxSize : Size) : Constraints :=
  { MinSize := { Width := 0, Height := 0 }, MaxSize := maxSize }

/-- `Constraints.Constrain`: per axis, raise to the minimum first, then lower
to the maximum. -/
def Constraints.Constrain (c : Constraints) (size : Size) : Size :=
  let width := size.Width
  let width := if width < c.MinSize.Width then c.MinSize.Width else width
  let width := if width > c.MaxSize.Width then c.MaxSize.Width else width
  let height := size.Height
  let height := if height < c.MinSize.Height then c.MinSize.Height else height
  let height := if height > c.MaxSize.Height then c.MaxSize.Height else height
  { Width := width, Height := height }

/-! ## layout/layout.go: the result map -/

/-- Result table `map[string]Rect`. -/
abbrev Layout := List (String × Rect)

/-- Map read `rect, exists := layout[key]`. -/
def Layout.get (layout : Layout) (key : String) : Option Rect :=
  layout.lookup key

/-- Map assignment `layout[key] = rect`. -/
def Layout.set (layout : Layout) (key : String) (rect : Rect) : Layout :=
  (key, rect) :: layout.filter (fun e => e.1 != key)

/-! ## layout/layout.go: the layout walk -/

mutual

/-- `LayoutManager.calculateNodeLayout`: intrinsic size by node kind, clamp to
the inbound constraint, record the rectangle under the node's key, return the
size.  The bodies of `calculateRowLayout` and `calculateColumnLayout` (empty
guard, loop, final size) appear in place; the functions of those names are
defined below and `calculateNodeLayout_eq` states the source's shape. -/
def calculateNodeLayout : Node → Constraints → Position → Layout → Size × Layout
  | Node.mk type key props children component, constraints, position, layout =>
    let r : Size × Layout :=
      if type = TextNodeType then
        let text := props.GetString "text" ""
        let fontSize := props.GetFloat "fontSize" 16
        ({ Width := (text.utf8ByteSize : ℚ) * fontSize * (6 / 10),
           Height := fontSize * (12 / 10) }, layout)
      else if type = BoxNodeType then
        let width := props.GetFloat "width" 0
        let height := props.GetFloat "height" 0
        let r : Size × Layout :=
          if width > 0 ∧ height > 0 then
            ({ Width := width, Height := height }, layout)
          else
            childrenLayout children constraints position layout
        let padding := props.GetFloat "padding" 0
        ({ Width := r.1.Width + padding * 2, Height := r.1.Height + padding * 2 }, r.2)
      else if type = RowNodeType then
        if children.length = 0 then
          ({ Width := 0, Height := 0 }, layout)
        else
          let spacing := props.GetFloat "spacing" 0
          let out := rowLoop children spacing constraints position position.X 0 layout
          ({ Width := out.1 - position.X - spacing, Height := out.2.1 }, out.2.2)
      else if type = ColumnNodeType then
        if children.length = 0 then
          ({ Width := 0, Height := 0 }, layout)
        else
          let spacing := props.GetFloat "spacing" 0
          let out := columnLoop children spacing constraints position position.Y 0 layout
          ({ Width := out.2.1, Height := out.1 - position.Y - spacing }, out.2.2)
      else if type = ContainerNodeType then
        match children with
        | child :: _ => calculateNodeLayout child constraints position layout
        | [] => ({ Width := 0, Height := 0 }, layout)
      else
        match component with
        | some render => calculateNodeLayout (render props) constraints position layout
        | none => childrenLayout children constraints position layout
    let size := constraints.Constrain r.1
    (size, r.2.set key { Position := position, Size := size })

/-- Body of `calculateChildrenLayout` on the children list: zero size without
children, else the layout of the first child. -/
def childrenLayout : List Node → Constraints → Position → Layout → Size × Layout
  | [], _, _, layout => ({ Width := 0, Height := 0 }, layout)
  | child :: _, constraints, position, layout =>
    calculateNodeLayout child constraints position layout

/-- Loop of `calculateRowLayout` over the remaining children, with the loop
variables `x`, `maxHeight` and the map; returns their final values. -/
def rowLoop : List Node → ℚ → Constraints → Position → ℚ → ℚ → Layout → ℚ × ℚ × Layout
  | [], _, _, _, x, maxHeight, layout => (x, maxHeight, layout)
  | child :: rest, spacing, constraints, position, x, maxHeight, layout =>
    let childConstraints : Constraints :=
      { MinSize := { Width := 0, Height := 0 },
        MaxSize := { Width := constraints.MaxSize.Width - (x - position.X),
                     Height := constraints.MaxSize.Height } }
    let childPos : Position := { X := x, Y := position.Y }
    let r := calculateNodeLayout child childConstraints childPos layout
    let x := x + (r.1.Width + spacing)
    let maxHeight := if r.1.Height > maxHeight then r.1.Height else maxHeight
    rowLoop rest spacing constraints position x maxHeight r.2

/-- Loop of `calculateColumnLayout` over the remaining children, with the loop
variables `y`, `maxWidth` and the map; returns their final values. -/
def columnLoop : List Node → ℚ → Constraints → Position → ℚ → ℚ → Layout → ℚ × ℚ × Layout
  | [], _, _, _, y, maxWidth, layout => (y, maxWidth, layout)
  | child :: rest, spacing, constraints, position, y, maxWidth, layout =>
    let childConstraints : Constraints :=
      { MinSize := { Width := 0, Height := 0 },
        MaxSize := { Width := constraints.MaxSize.Width,
                     Height := constraints.MaxSize.Height - (y - position.Y) } }
    let childPos : Position := { X := position.X, Y := y }
    let r := calculateNodeLayout child childConstraints childPos layout
    let y := y + (r.1.Height + spacing)
    let maxWidth := if r.1.Width > maxWidth then r.1.Width else maxWidth
    columnLoop rest spacing constraints position y maxWidth r.2

end

/-- `LayoutManager.calculateChildrenLayout`. -/
def calculateChildrenLayout (node : Node) (constraints : Constraints) (position : Position)
    (layout : Layout) : Size × Layout :=
  if node.Children.length = 0 then
    ({ Width := 0, Height := 0 }, layout)
  else
    childrenLayout node.Children constraints position layout

/-- `LayoutManager.calculateRowLayout`. -/
def calculateRowLayout (node : Node) (constraints : Constraints) (position : Position)
    (layout : Layout) : Size × Layout :=
  if node.Children.length = 0 then
    ({ Width := 0, Height := 0 }, layout)
  else
    let spacing := node.Props.GetFloat "spacing" 0
    let out := rowLoop node.Children spacing constraints position position.X 0 layout
    ({ Width := out.1 - position.X - spacing, Height := out.2.1 }, out.2.2)

/-- `LayoutManager.calculateColumnLayout`. -/
def calculateColumnLayout (node : Node) (constraints : Constraints) (position : Position)
    (layout : Layout) : Size × Layout :=
  if node.Children.length = 0 then
    ({ Width := 0, Height := 0 }, layout)
  else
    let spacing := node.Props.GetFloat "spacing" 0
    let out := columnLoop node.Children spacing constraints position position.Y 0 layout
    ({ Width := out.2.1, Height := out.1 - position.Y - spacing }, out.2.2)

/-- `LayoutManager.CalculateLayout`: walk from the root at the origin into an
empty map. -/
def CalculateLayout (root : Node) (constraints : Constraints) : Layout :=
  (calculateNodeLayout root constraints { X := 0, Y := 0 } []).2

/-- The `switch node.Type` of `calculateNodeLayout` as the source writes it:
the size before clamping, and the map after the children were laid out. -/
def intrinsicLayout (node : Node) (constraints : Constraints) (position : Position)
    (layout : Layout) : Size × Layout :=
  if node.Type_ = TextNodeType then
    let text := node.Props.GetString "text" ""
    let fontSize := node.Props.GetFloat "fontSize" 16
    ({ Width := (text.utf8ByteSize : ℚ) * fontSize * (6 / 10),
       Height := fontSize * (12 / 10) }, layout)
  else if node.Type_ = BoxNodeType then
    let width := node.Props.GetFloat "width" 0
    let height := node.Props.GetFloat "height" 0
    let r : Size × Layout :=
      if width > 0 ∧ height > 0 then
        ({ Width := width, Height := height }, layout)
      else
        calculateChildrenLayout node constraints position layout
    let padding := node.Props.GetFloat "padding" 0
    ({ Width := r.1.Width + padding * 2, Height := r.1.Height + padding * 2 }, r.2)
  else if node.Type_ = RowNodeType then
    calculateRowLayout node constraints position layout
  else if node.Type_ = ColumnNodeType then
    calculateColumnLayout node constraints position layout
  else if node.Type_ = ContainerNodeType then
    match node.Children with
    | child :: _ => calculateNodeLayout child constraints position layout
    | [] => ({ Width := 0, Height := 0 }, layout)
  else
    match node.Component with
    | some render => calculateNodeLayout (render node.Props) constraints position layout
    | none => calculateChildrenLayout node constraints position layout

/-! ## Specification vocabulary -/

/-- The node `m` is visited by the layout walk started at `n`: the walk visits
its start node, every child of a Row or Column, the first child of a Container,
of a Box lacking explicit positive width and height and of a component-less
node of another kind, and the node rendered by the component of a node of
another kind. -/
inductive Visits : Node → Node → Prop
  | start (n : Node) : Visits n n
  | row (n c m : Node) : n.Type_ = RowNodeType → c ∈ n.Children → Visits c m → Visits n m
  | column (n c m : Node) : n.Type_ = ColumnNodeType → c ∈ n.Children → Visits c m →
      Visits n m
  | container (n c m : Node) (rest : List Node) : n.Type_ = ContainerNodeType →
      n.Children = c :: rest → Visits c m → Visits n m
  | box (n c m : Node) (rest : List Node) : n.Type_ = BoxNodeType →
      ¬ (n.Props.GetFloat "width" 0 > 0 ∧ n.Props.GetFloat "height" 0 > 0) →
      n.Children = c :: rest → Visits c m → Visits n m
  | rendered (n m : Node) (render : Props → Node) : n.Type_ ≠ TextNodeType →
      n.Type_ ≠ BoxNodeType → n.Type_ ≠ RowNodeType → n.Type_ ≠ ColumnNodeType →
      n.Type_ ≠ ContainerNodeType → n.Component = some render →
      Visits (render n.Props) m → Visits n m
  | other (n c m : Node) (rest : List Node) : n.Type_ ≠ TextNodeType →
      n.Type_ ≠ BoxNodeType → n.Type_ ≠ RowNodeType → n.Type_ ≠ ColumnNodeType →
      n.Type_ ≠ ContainerNodeType → n.Component = none →
      n.Children = c :: rest → Visits c m → Visits n m

/-- The node `m` is reachable from `n` through `Children`. -/
inductive ReachableThroughChildren : Node → Node → Prop
  | self (n : Node) : ReachableThroughChildren n n
  | child (n c m : Node) : c ∈ n.Children → ReachableThroughChildren c m →
      ReachableThroughChildren n m

/-- Laying out `n` never removes a key from the map. -/
def KeepsKeys (n : Node) : Prop :=
  ∀ (c : Constraints) (p : Position) (l : Layout) (k : String),
    (l.get k).isSome → ((calculateNodeLayout n c p l).2.get k).isSome

/-- One call the row or column loop makes for a child: the constraint and the
position the child is laid out at, and the size its layout returns. -/
structure ChildCall where
  constraints : Constraints
  position : Position
  size : Size

/-- The calls of the loop of `calculateRowLayout`, in order, started with the
cursor at `x` and the map `layout`. -/
def rowCalls : List Node → ℚ → Constraints → Position → ℚ → Layout → List ChildCall
  | [], _, _, _, _, _ => []
  | child :: rest, spacing, constraints, position, x, layout =>
    let childConstraints : Constraints :=
      { MinSize := { Width := 0, Height := 0 },
        MaxSize := { Width := constraints.MaxSize.Width - (x - position.X),
                     Height := constraints.MaxSize.Height } }
    let childPos : Position := { X := x, Y := position.Y }
    let r := calculateNodeLayout child childConstraints childPos layout
    { constraints := childConstraints, position := childPos, size := r.1 } ::
      rowCalls rest spacing constraints position (x + (r.1.Width + spacing)) r.2

/-- The calls of the loop of `calculateColumnLayout`, in order, started with
the cursor at `y` and the map `layout`. -/
def columnCalls : List Node → ℚ → Constraints → Position → ℚ → Layout → List ChildCall
  | [], _, _, _, _, _ => []
  | child :: rest, spacing, constraints, position, y, layout =>
    let childConstraints : Constraints :=
      { MinSize := { Width := 0, Height := 0 },
        MaxSize := { Width := constraints.MaxSize.Width,
                     Height := constraints.MaxSize.Height - (y - position.Y) } }
    let childPos : Position := { X := position.X, Y := y }
    let r := calculateNodeLayout child childConstraints childPos layout
    { constraints := childConstraints, position := childPos, size := r.1 } ::
      columnCalls rest spacing constraints position (y + (r.1.Height + spacing)) r.2

/-- The size `n` returns does not depend on the map it is laid out into. -/
def SizeIgnoresMap (n : Node) : Prop :=
  ∀ (c : Constraints) (p : Position) (l l2 : Layout),
    (calculateNodeLayout n c p l).1 = (calculateNodeLayout n c p l2).1

/-! ## Example trees -/

/-- A text of two bytes at font size 10. -/
def textAB : Node :=
  Node.mk TextNodeType "t" [("text", Value.str "AB"), ("fontSize", Value.float 10)] [] none

/-- A row without children whose spacing is 3. -/
def emptyRow : Node :=
  Node.mk RowNodeType "r" [("spacing", Value.float 3)] [] none

/-- A box of explicit size 50 by 30 with padding 5 and one child. -/
def sizedBox : Node :=
  Node.mk BoxNodeType "b"
    [("width", Value.float 50), ("height", Value.float 30), ("padding", Value.float 5)]
    [textAB] none

/-- A container around one text. -/
def containerAB : Node :=
  Node.mk ContainerNodeType "c" [] [textAB] none

/-- A text of one byte at the default font size. -/
def textC : Node :=
  Node.mk TextNodeType "u" [("text", Value.str "C")] [] none

/-- A container around two texts. -/
def containerTwo : Node :=
  Node.mk ContainerNodeType "c" [] [textAB, textC] none

/-- A row around one text. -/
def rowAB : Node :=
  Node.mk RowNodeType "r" [] [textAB] none

/-- A column around one text. -/
def columnAB : Node :=
  Node.mk ColumnNodeType "col" [] [textAB] none

/-- A row of two texts with spacing 2. -/
def rowTwo : Node :=
  Node.mk RowNodeType "r" [("spacing", Value.float 2)] [textAB, textC] none

/-- A column of two texts with spacing 2. -/
def columnTwo : Node :=
  Node.mk ColumnNodeType "col" [("spacing", Value.float 2)] [textAB, textC] none

/-- A text of two bytes at font size 10, keyed "d". -/
def textD : Node :=
  Node.mk TextNodeType "d" [("text", Value.str "AB"), ("fontSize", Value.float 10)] [] none

/-- A column with spacing 5 over a text and a row. -/
def columnOverRow : Node :=
  Node.mk ColumnNodeType "root" [("spacing", Value.float 5)] [textD, rowAB] none

/-- A row with spacing 5 over a text and a column. -/
def rowOverColumn : Node :=
  Node.mk RowNodeType "root" [("spacing", Value.float 5)] [textD, columnAB] none

/-- A row of two texts whose spacing is stored as the int 2. -/
def rowIntSpacing : Node :=
  Node.mk RowNodeType "r" [("spacing", Value.int 2)] [textAB, textC] none

/-- A box with padding 2, no explicit size, around one text. -/
def paddedBox : Node :=
  Node.mk BoxNodeType "b" [("padding", Value.float 2)] [textAB] none

/-- Scenario of the specification: the title text "ABC" at font size 20. -/
def scenarioTitle : Node :=
  Node.mk TextNodeType "title" [("text", Value.str "ABC"), ("fontSize", Value.float 20)] []
    none

/-- Scenario of the specification: the inner text "X" at font size 18. -/
def scenarioText : Node :=
  Node.mk TextNodeType "t" [("text", Value.str "X"), ("fontSize", Value.float 18)] [] none

/-- Scenario of the specification: the box "b" with padding 2 around the inner
text. -/
def scenarioBox : Node :=
  Node.mk BoxNodeType "b" [("padding", Value.float 2)] [scenarioText] none

/-- Scenario of the specification: the root column with spacing 1. -/
def scenarioRoot : Node :=
  Node.mk ColumnNodeType "root" [("spacing", Value.float 1)] [scenarioTitle, scenarioBox]
    none

/-! ## render/renderer.go -/

/-- One call on the `RenderTarget` interface.  A render pass is modelled by the
sequence of calls it makes on its target. -/
inductive TargetCall where
  | Clear
  | DrawRect (rect : Rect) (props : Props)
  | DrawText (text : String) (rect : Rect) (props : Props)
  | Flush

mutual

/-- `Renderer.renderNode`: the calls made for a node and its subtree, given the
rectangle table. -/
def renderNode : Node → Layout → List TargetCall
  | Node.mk type key props children component, layout =>
    let rect := (layout.get key).getD { Position := { X := 0, Y := 0 },
                                         Size := { Width := 0, Height := 0 } }
    let found := (layout.get key).isSome
    if ¬ found then
      []
    else if type = TextNodeType then
      let text := props.GetString "text" ""
      [TargetCall.DrawText text rect props]
    else if type = BoxNodeType then
      TargetCall.DrawRect rect props :: renderChildren children layout
    else if type = RowNodeType ∨ type = ColumnNodeType ∨ type = ContainerNodeType then
      renderChildren children layout
    else if type = CustomNodeType then
      match component with
      | some render => renderNode (render props) layout
      | none => renderChildren children layout
    else
      []

/-- The loop `for _, child := range node.Children { r.renderNode(child, layout) }`. -/
def renderChildren : List Node → Layout → List TargetCall
  | [], _ => []
  | child :: rest, layout => renderNode child layout ++ renderChildren rest layout

end

/-- `Renderer.Render`: lay out, clear the target, render the tree, flush. -/
def Render (root : Node) (constraints : Constraints) : List TargetCall :=
  let layoutResult := CalculateLayout root constraints
  [TargetCall.Clear] ++ renderNode root layoutResult ++ [TargetCall.Flush]

/-- An image widget as `widgets.Image` builds it: a Custom node whose component
returns a Box keyed "img-box" carrying the node's properties. -/
def customImage : Node :=
  Node.mk CustomNodeType "img"
    [("source", Value.str "a.png"), ("width", Value.float 10), ("height", Value.float 5)] []
    (some (fun props => Node.mk BoxNodeType "img-box" props [] none))

/-- Laying out `n` leaves the entry of every key untouched that no node visited
from `n` carries. -/
def FramesKeys (n : Node) : Prop :=
  ∀ (c : Constraints) (p : Position) (l : Layout) (k : String),
    (∀ m, Visits n m → m.Key ≠ k) → (calculateNodeLayout n c p l).2.get k = l.get k

/-- A row with spacing 2 over three texts with distinct keys. -/
def rowThree : Node :=
  Node.mk RowNodeType "r" [("spacing", Value.float 2)] [textAB, textC, textD] none

/-- A text keyed "t", like `textAB`, of one byte. -/
def textT2 : Node :=
  Node.mk TextNodeType "t" [("text", Value.str "Z")] [] none

/-- A row with spacing 2 whose two children share the key "t". -/
def rowDup : Node :=
  Node.mk RowNodeType "r" [("spacing", Value.float 2)] [textAB, textT2] none

/-- The constraint the row loop builds for the child laid out with the cursor
at `x`. -/
def rowChildConstraints (constraints : Constraints) (position : Position) (x : ℚ) :
    Constraints :=
  { MinSize := { Width := 0, Height := 0 },
    MaxSize := { Width := constraints.MaxSize.Width - (x - position.X),
                 Height := constraints.MaxSize.Height } }

/-- The constraint the column loop builds for the child laid out with the
cursor at `y`. -/
def columnChildConstraints (constraints : Constraints) (position : Position) (y : ℚ) :
    Constraints :=
  { MinSize := { Width := 0, Height := 0 },
    MaxSize := { Width := constraints.MaxSize.Width,
                 Height := constraints.MaxSize.Height - (y - position.Y) } }

/-- A row with spacing 5 over two texts of intrinsic width 12. -/
def rowOverflow : Node :=
  Node.mk RowNodeType "root" [("spacing", Value.float 5)] [textD, textAB] none

/-! ## core/props.go: equality, core/component.go -/

/-- The distinct keys of a property bag (the keys of the Go map). -/
def Props.keys (p : Props) : List String :=
  (p.map Prod.fst).eraseDups

/-- Go `len(p)` of a property map. -/
def Props.len (p : Props) : ℕ :=
  p.keys.length

/-- `reflect.DeepEqual` on the modelled values: values of different dynamic
types are not equal, and function values are deeply equal only if both are nil,
which a stored closure is not. -/
def Value.DeepEqual : Value → Value → Bool
  | Value.str a, Value.str b => decide (a = b)
  | Value.float a, Value.float b => decide (a = b)
  | Value.int a, Value.int b => decide (a = b)
  | Value.bool a, Value.bool b => decide (a = b)
  | _, _ => false

/-- `Props.Equal`: same number of entries, and every key of `p` is in `other`
with a deeply equal value. -/
def Props.Equal (p other : Props) : Bool :=
  if p.len ≠ other.len then
    false
  else
    p.keys.all (fun k =>
      match p.Get k, other.Get k with
      | some v1, some v2 => v1.DeepEqual v2
      | _, _ => false)

/-- `core.FunctionComponent`: a wrapper around a render function. -/
structure FunctionComponent where
  renderFunc : Props → Node

/-- `FunctionComponent.Render`. -/
def FunctionComponent.Render (fc : FunctionComponent) (props : Props) : Node :=
  fc.renderFunc props

/-- `FunctionComponent.ShouldUpdate`: `return !oldProps.Equal(newProps)`. -/
def FunctionComponent.ShouldUpdate (_fc : FunctionComponent) (oldProps newProps : Props) :
    Bool :=
  !oldProps.Equal newProps

/-- A function component that renders an empty box. -/
def boxComponent : FunctionComponent :=
  { renderFunc := fun props => NewNode BoxNodeType "b" props }

/-! ## render/renderer.go: the console target -/

/-- Go conversion `int(f)` of a float: truncation toward zero. -/
def truncInt (q : ℚ) : ℤ :=
  Int.tdiv q.num (q.den : ℤ)

/-- `ConsoleRenderTarget`: a character board of `height` rows and `width`
columns.  Go `int` values are integers. -/
structure ConsoleRenderTarget where
  width : ℤ
  height : ℤ
  buffer : List (List Char)
  deriving DecidableEq

/-- `NewConsoleRenderTarget`: a board filled with blanks. -/
def NewConsoleRenderTarget (width height : ℤ) : ConsoleRenderTarget :=
  { width := width, height := height,
    buffer := List.replicate height.toNat (List.replicate width.toNat ' ') }

/-- The assignment `c.buffer[y][x] = ch`; `none` is the run-time panic of an
index out of range. -/
def writeCell (buffer : List (List Char)) (y x : ℤ) (ch : Char) : Option (List (List Char)) :=
  if 0 ≤ y ∧ y < (buffer.length : ℤ) then
    if 0 ≤ x ∧ x < ((buffer.getD y.toNat []).length : ℤ) then
      some (buffer.set y.toNat ((buffer.getD y.toNat []).set x.toNat ch))
    else
      none
  else
    none

/-- The guarded assignment `if cond { c.buffer[y][x] = ch }`. -/
def writeIf (cond : Prop) [Decidable cond] (buffer : List (List Char)) (y x : ℤ) (ch : Char) :
    Option (List (List Char)) :=
  if cond then writeCell buffer y x ch else some buffer

/-- The loop `for x := x0; ...; x++ { body }` run for `n` iterations. -/
def forLoop {α : Type} : ℕ → ℤ → (ℤ → α → Option α) → α → Option α
  | 0, _, _, s => some s
  | n + 1, x, body, s =>
    match body x s with
    | none => none
    | some s2 => forLoop n (x + 1) body s2

/-- The loop `for x := lo; x <= hi; x++ { body }`. -/
def forRange {α : Type} (lo hi : ℤ) (body : ℤ → α → Option α) (s : α) : Option α :=
  forLoop (hi - lo + 1).toNat lo body s

/-- `ConsoleRenderTarget.DrawRect`: the border of the rectangle, clamped to the
board. -/
def ConsoleRenderTarget.DrawRect (c : ConsoleRenderTarget) (rect : Rect) (_props : Props) :
    Option ConsoleRenderTarget :=
  let x1 := truncInt rect.Position.X
  let y1 := truncInt rect.Position.Y
  let x2 := truncInt (rect.Position.X + rect.Size.Width - 1)
  let y2 := truncInt (rect.Position.Y + rect.Size.Height - 1)
  let x1 := if x1 < 0 then 0 else x1
  let y1 := if y1 < 0 then 0 else y1
  let x2 := if x2 ≥ c.width then c.width - 1 else x2
  let y2 := if y2 ≥ c.height then c.height - 1 else y2
  (forRange x1 x2 (fun x buf =>
      (writeIf (y1 ≥ 0 ∧ y1 < c.height) buf y1 x '-').bind fun buf =>
      writeIf (y2 ≥ 0 ∧ y2 < c.height) buf y2 x '-') c.buffer).bind fun buf =>
  (forRange y1 y2 (fun y buf =>
      (writeIf (x1 ≥ 0 ∧ x1 < c.width) buf y x1 '|').bind fun buf =>
      writeIf (x2 ≥ 0 ∧ x2 < c.width) buf y x2 '|') buf).bind fun buf =>
  (writeIf (x1 ≥ 0 ∧ y1 ≥ 0 ∧ x1 < c.width ∧ y1 < c.height) buf y1 x1 '+').bind fun buf =>
  (writeIf (x2 ≥ 0 ∧ y1 ≥ 0 ∧ x2 < c.width ∧ y1 < c.height) buf y1 x2 '+').bind fun buf =>
  (writeIf (x1 ≥ 0 ∧ y2 ≥ 0 ∧ x1 < c.width ∧ y2 < c.height) buf y2 x1 '+').bind fun buf =>
  (writeIf (x2 ≥ 0 ∧ y2 ≥ 0 ∧ x2 < c.width ∧ y2 < c.height) buf y2 x2 '+').bind fun buf =>
  some { c with buffer := buf }

/-- The pairs `i, char` of `for i, char := range text`: each character with
the byte offset at which its UTF-8 encoding starts. -/
def rangeStringFrom : List Char → ℕ → List (ℤ × Char)
  | [], _ => []
  | ch :: rest, offset => ((offset : ℤ), ch) :: rangeStringFrom rest (offset + ch.utf8Size)

def rangeString (text : String) : List (ℤ × Char) :=
  rangeStringFrom text.data 0

/-- The loop of `DrawText` over the remaining pairs of `range text`. -/
def drawChars : List (ℤ × Char) → ℤ → ℤ → ℤ → List (List Char) → Option (List (List Char))
  | [], _, _, _, buffer => some buffer
  | (i, char) :: rest, x, y, width, buffer =>
    let posX := x + i
    if posX < 0 ∨ posX ≥ width then
      drawChars rest x y width buffer
    else
      (writeCell buffer y posX char).bind fun buffer => drawChars rest x y width buffer

/-- `ConsoleRenderTarget.DrawText`. -/
def ConsoleRenderTarget.DrawText (c : ConsoleRenderTarget) (text : String) (rect : Rect)
    (_props : Props) : Option ConsoleRenderTarget :=
  let x := truncInt rect.Position.X
  let y := truncInt rect.Position.Y
  if y < 0 ∨ y ≥ c.height then
    some c
  else
    (drawChars (rangeString text) x y c.width c.buffer).bind fun buf =>
    some { c with buffer := buf }

/-- The board has `height` rows of `width` cells each. -/
def BufferWF (buffer : List (List Char)) (width height : ℤ) : Prop :=
  (buffer.length : ℤ) = height ∧ ∀ row ∈ buffer, (row.length : ℤ) = width

/-! ## The layout walk with components held by reference

A Go component is a closure; the node it returns may carry that same closure
again, which `Node` (well-founded by construction) cannot express.  `RefNode`
names a component by a reference, `render` is what `Component.Render` returns
for a reference, and the walk counts its call depth down from a fuel: `none`
means the depth was exceeded. -/

/-- Tree node whose component is a reference of type `ι`. -/
inductive RefNode (ι : Type) where
  | mk (type : NodeType) (key : String) (props : Props) (children : List (RefNode ι))
      (component : Option ι)

/-- Body of `calculateChildrenLayout` over a given layout of children. -/
def childrenLayoutWith {ι : Type}
    (layoutChild : RefNode ι → Constraints → Position → Layout → Option (Size × Layout)) :
    List (RefNode ι) → Constraints → Position → Layout → Option (Size × Layout)
  | [], _, _, layout => some ({ Width := 0, Height := 0 }, layout)
  | child :: _, constraints, position, layout => layoutChild child constraints position layout

/-- Loop of `calculateRowLayout` over a given layout of children. -/
def rowLoopWith {ι : Type}
    (layoutChild : RefNode ι → Constraints → Position → Layout → Option (Size × Layout)) :
    List (RefNode ι) → ℚ → Constraints → Position → ℚ → ℚ → Layout → Option (ℚ × ℚ × Layout)
  | [], _, _, _, x, maxHeight, layout => some (x, maxHeight, layout)
  | child :: rest, spacing, constraints, position, x, maxHeight, layout =>
    let childConstraints : Constraints :=
      { MinSize := { Width := 0, Height := 0 },
        MaxSize := { Width := constraints.MaxSize.Width - (x - position.X),
                     Height := constraints.MaxSize.Height } }
    let childPos : Position := { X := x, Y := position.Y }
    match layoutChild child childConstraints childPos layout with
    | none => none
    | some r =>
      rowLoopWith layoutChild rest spacing constraints position (x + (r.1.Width + spacing))
        (if r.1.Height > maxHeight then r.1.Height else maxHeight) r.2

/-- Loop of `calculateColumnLayout` over a given layout of children. -/
def columnLoopWith {ι : Type}
    (layoutChild : RefNode ι → Constraints → Position → Layout → Option (Size × Layout)) :
    List (RefNode ι) → ℚ → Constraints → Position → ℚ → ℚ → Layout → Option (ℚ × ℚ × Layout)
  | [], _, _, _, y, maxWidth, layout => some (y, maxWidth, layout)
  | child :: rest, spacing, constraints, position, y, maxWidth, layout =>
    let childConstraints : Constraints :=
      { MinSize := { Width := 0, Height := 0 },
        MaxSize := { Width := constraints.MaxSize.Width,
                     Height := constraints.MaxSize.Height - (y - position.Y) } }
    let childPos : Position := { X := position.X, Y := y }
    match layoutChild child childConstraints childPos layout with
    | none => none
    | some r =>
      columnLoopWith layoutChild rest spacing constraints position (y + (r.1.Height + spacing))
        (if r.1.Width > maxWidth then r.1.Width else maxWidth) r.2

/-- `LayoutManager.calculateNodeLayout` over `RefNode`, with call depth at most
`fuel`. -/
def calculateNodeLayoutFuel {ι : Type} (render : ι → Props → RefNode ι) :
    ℕ → RefNode ι → Constraints → Position → Layout → Option (Size × Layout)
  | 0, _, _, _, _ => none
  | fuel + 1, RefNode.mk type key props children component, constraints, position, layout =>
    let r : Option (Size × Layout) :=
      if type = TextNodeType then
        let text := props.GetString "text" ""
        let fontSize := props.GetFloat "fontSize" 16
        some ({ Width := (text.utf8ByteSize : ℚ) * fontSize * (6 / 10),
                Height := fontSize * (12 / 10) }, layout)
      else if type = BoxNodeType then
        let width := props.GetFloat "width" 0
        let height := props.GetFloat "height" 0
        let r : Option (Size × Layout) :=
          if width > 0 ∧ height > 0 then
            some ({ Width := width, Height := height }, layout)
          else
            childrenLayoutWith (calculateNodeLayoutFuel render fuel) children constraints
              position layout
        let padding := props.GetFloat "padding" 0
        r.map fun r =>
          ({ Width := r.1.Width + padding * 2, Height := r.1.Height + padding * 2 }, r.2)
      else if type = RowNodeType then
        if children.length = 0 then
          some ({ Width := 0, Height := 0 }, layout)
        else
          let spacing := props.GetFloat "spacing" 0
          (rowLoopWith (calculateNodeLayoutFuel render fuel) children spacing constraints
            position position.X 0 layout).map fun out =>
            ({ Width := out.1 - position.X - spacing, Height := out.2.1 }, out.2.2)
      else if type = ColumnNodeType then
        if children.length = 0 then
          some ({ Width := 0, Height := 0 }, layout)
        else
          let spacing := props.GetFloat "spacing" 0
          (columnLoopWith (calculateNodeLayoutFuel render fuel) children spacing constraints
            position position.Y 0 layout).map fun out =>
            ({ Width := out.2.1, Height := out.1 - position.Y - spacing }, out.2.2)
      else if type = ContainerNodeType then
        childrenLayoutWith (calculateNodeLayoutFuel render fuel) children constraints position
          layout
      else
        match component with
        | some ref =>
          calculateNodeLayoutFuel render fuel (render ref props) constraints position layout
        | none =>
          childrenLayoutWith (calculateNodeLayoutFuel render fuel) children constraints
            position layout
    r.map fun r =>
      (constraints.Constrain r.1,
        r.2.set key { Position := position, Size := constraints.Constrain r.1 })

/-- `LayoutManager.CalculateLayout` over `RefNode`, with call depth at most
`fuel`. -/
def CalculateLayoutFuel {ι : Type} (render : ι → Props → RefNode ι) (fuel : ℕ)
    (root : RefNode ι) (constraints : Constraints) : Option Layout :=
  (calculateNodeLayoutFuel render fuel root constraints { X := 0, Y := 0 } []).map
    fun r => r.2

/-- A Custom node without children whose component is the reference `()`. -/
def selfNode : RefNode Unit :=
  RefNode.mk CustomNodeType "loop" [] [] (some ())

/-- The component behind `()` returns the node that carries it. -/
def selfRender : Unit → Props → RefNode Unit :=
  fun _ _ => selfNode

mutual

/-- Number of calls of `calculateNodeLayout` the walk started at a node makes:
the nodes visited, counted with repetition. -/
def visitCount : Node → ℕ
  | Node.mk type _ props children component =>
    1 + (if type = TextNodeType then 0
      else if type = BoxNodeType then
        if props.GetFloat "width" 0 > 0 ∧ props.GetFloat "height" 0 > 0 then 0
        else visitCountFirst children
      else if type = RowNodeType then visitCountAll children
      else if type = ColumnNodeType then visitCountAll children
      else if type = ContainerNodeType then visitCountFirst children
      else
        match component with
        | some render => visitCount (render props)
        | none => visitCountFirst children)

/-- Calls made below `calculateChildrenLayout`: those for the first child. -/
def visitCountFirst : List Node → ℕ
  | [] => 0
  | child :: _ => visitCount child

/-- Calls made below a row or column loop: those for every child. -/
def visitCountAll : List Node → ℕ
  | [] => 0
  | child :: rest => visitCount child + visitCountAll rest

end

mutual

/-- A well-founded node tree as a tree with components by reference: the
render function itself serves as the reference. -/
def Node.toRef : Node → RefNode (Props → Node)
  | Node.mk type key props children component =>
    RefNode.mk type key props (toRefList children) component

def toRefList : List Node → List (RefNode (Props → Node))
  | [] => []
  | child :: rest => child.toRef :: toRefList rest

end

/-- What a render function used as reference returns. -/
def renderRef : (Props → Node) → Props → RefNode (Props → Node) :=
  fun render props => (render props).toRef

/-- The switch of `calculateNodeLayoutFuel` one call deeper than `fuel`. -/
def intrinsicLayoutFuel {ι : Type} (render : ι → Props → RefNode ι) (fuel : ℕ)
    (type : NodeType) (props : Props) (children : List (RefNode ι)) (component : Option ι)
    (constraints : Constraints) (position : Position) (layout : Layout) :
    Option (Size × Layout) :=
  if type = TextNodeType then
    let text := props.GetString "text" ""
    let fontSize := props.GetFloat "fontSize" 16
    some ({ Width := (text.utf8ByteSize : ℚ) * fontSize * (6 / 10),
            Height := fontSize * (12 / 10) }, layout)
  else if type = BoxNodeType then
    let width := props.GetFloat "width" 0
    let height := props.GetFloat "height" 0
    let r : Option (Size × Layout) :=
      if width > 0 ∧ height > 0 then
        some ({ Width := width, Height := height }, layout)
      else
        childrenLayoutWith (calculateNodeLayoutFuel render fuel) children constraints
          position layout
    let padding := props.GetFloat "padding" 0
    r.map fun r =>
      ({ Width := r.1.Width + padding * 2, Height := r.1.Height + padding * 2 }, r.2)
  else if type = RowNodeType then
    if children.length = 0 then
      some ({ Width := 0, Height := 0 }, layout)
    else
      let spacing := props.GetFloat "spacing" 0
      (rowLoopWith (calculateNodeLayoutFuel render fuel) children spacing constraints
        position position.X 0 layout).map fun out =>
        ({ Width := out.1 - position.X - spacing, Height := out.2.1 }, out.2.2)
  else if type = ColumnNodeType then
    if children.length = 0 then
      some ({ Width := 0, Height := 0 }, layout)
    else
      let spacing := props.GetFloat "spacing" 0
      (columnLoopWith (calculateNodeLayoutFuel render fuel) children spacing constraints
        position position.Y 0 layout).map fun out =>
        ({ Width := out.2.1, Height := out.1 - position.Y - spacing }, out.2.2)
  else if type = ContainerNodeType then
    childrenLayoutWith (calculateNodeLayoutFuel render fuel) children constraints position
      layout
  else
    match component with
    | some ref =>
      calculateNodeLayoutFuel render fuel (render ref props) constraints position layout
    | none =>
      childrenLayoutWith (calculateNodeLayoutFuel render fuel) children constraints
        position layout

/-- With fuel at least the number of calls, the walk with fuel returns what
the walk on the well-founded tree returns. -/
def CompletesWithin (n : Node) : Prop :=
  ∀ (fuel : ℕ), visitCount n ≤ fuel → ∀ (c : Constraints) (p : Position) (l : Layout),
    calculateNodeLayoutFuel renderRef fuel n.toRef c p l = some (calculateNodeLayout n c p l)

/-- Laying out `n` adds at most as many entries to the map as it makes calls. -/
def EntriesBounded (n : Node) : Prop :=
  ∀ (c : Constraints) (p : Position) (l : Layout),
    (calculateNodeLayout n c p l).2.length ≤ l.length + visitCount n

/-- The character in row `row`, column `col` of the board, if there is such a
cell. -/
def cellAt (buffer : List (List Char)) (row col : ℤ) : Option Char :=
  if 0 ≤ row ∧ 0 ≤ col then
    (buffer[row.toNat]?).bind fun cells => cells[col.toNat]?
  else
    none

/-! ## Budgets handed down by the walk -/

mutual

/-- The constraints of the calls of `calculateNodeLayout` that the walk started
at a node under a constraint at a position makes, in call order: the node's own
constraint first, then those of the calls its branch of the switch makes.  The
cursor of a row or column loop advances by the size the child's call returns,
which does not depend on the map (`calculateNodeLayout_size_indep`), so the
empty map stands for the map of the run. -/
def walkConstraints : Node → Constraints → Position → List Constraints
  | Node.mk type _ props children component, constraints, position =>
    constraints ::
      (if type = TextNodeType then []
      else if type = BoxNodeType then
        if props.GetFloat "width" 0 > 0 ∧ props.GetFloat "height" 0 > 0 then []
        else firstConstraints children constraints position
      else if type = RowNodeType then
        rowConstraints children (props.GetFloat "spacing" 0) constraints position position.X
      else if type = ColumnNodeType then
        columnConstraints children (props.GetFloat "spacing" 0) constraints position position.Y
      else if type = ContainerNodeType then firstConstraints children constraints position
      else
        match component with
        | some render => walkConstraints (render props) constraints position
        | none => firstConstraints children constraints position)

/-- Constraints handed down below `calculateChildrenLayout`: those of the call
for the first child. -/
def firstConstraints : List Node → Constraints → Position → List Constraints
  | [], _, _ => []
  | child :: _, constraints, position => walkConstraints child constraints position

/-- Constraints handed down by the loop of `calculateRowLayout` over the
remaining children, with the cursor at `x`. -/
def rowConstraints : List Node → ℚ → Constraints → Position → ℚ → List Constraints
  | [], _, _, _, _ => []
  | child :: rest, spacing, constraints, position, x =>
    let childConstraints : Constraints :=
      { MinSize := { Width := 0, Height := 0 },
        MaxSize := { Width := constraints.MaxSize.Width - (x - position.X),
                     Height := constraints.MaxSize.Height } }
    let childPos : Position := { X := x, Y := position.Y }
    let r := calculateNodeLayout child childConstraints childPos []
    walkConstraints child childConstraints childPos ++
      rowConstraints rest spacing constraints position (x + (r.1.Width + spacing))

/-- Constraints handed down by the loop of `calculateColumnLayout` over the
remaining children, with the cursor at `y`. -/
def columnConstraints : List Node → ℚ → Constraints → Position → ℚ → List Constraints
  | [], _, _, _, _ => []
  | child :: rest, spacing, constraints, position, y =>
    let childConstraints : Constraints :=
      { MinSize := { Width := 0, Height := 0 },
        MaxSize := { Width := constraints.MaxSize.Width,
                     Height := constraints.MaxSize.Height - (y - position.Y) } }
    let childPos : Position := { X := position.X, Y := y }
    let r := calculateNodeLayout child childConstraints childPos []
    walkConstraints child childConstraints childPos ++
      columnConstraints rest spacing constraints position (y + (r.1.Height + spacing))

end

/-- Laying out `n` under a constraint with non-negative minimum, without a
budget overrun, into a map whose rectangles have non-negative sizes, returns a
map whose rectangles have non-negative sizes. -/
def NonnegWalk (n : Node) : Prop :=
  ∀ (c : Constraints) (p : Position) (l : Layout),
    (∀ cc ∈ walkConstraints n c p, 0 ≤ cc.MaxSize.Width ∧ 0 ≤ cc.MaxSize.Height) →
    0 ≤ c.MinSize.Width → 0 ≤ c.MinSize.Height →
    (∀ k r, l.get k = some r → 0 ≤ r.Size.Width ∧ 0 ≤ r.Size.Height) →
    ∀ k r, (calculateNodeLayout n c p l).2.get k = some r →
      0 ≤ r.Size.Width ∧ 0 ≤ r.Size.Height

/-! ## widgets/basic.go and main.go: the tree of the counter application -/

/-- `widgets.Text`: a Text node whose properties are "text" overridden by the
given properties. -/
def widgets.Text (key : String) (text : String) (props : Props) : Node :=
  Node.mk TextNodeType key (props ++ [("text", Value.str text)]) [] none

/-- `widgets.Box`. -/
def widgets.Box (key : String) (props : Props) (children : List Node) : Node :=
  Node.mk BoxNodeType key props children none

/-- `widgets.Row`. -/
def widgets.Row (key : String) (props : Props) (children : List Node) : Node :=
  Node.mk RowNodeType key props children none

/-- `widgets.Column`. -/
def widgets.Column (key : String) (props : Props) (children : List Node) : Node :=
  Node.mk ColumnNodeType key props children none

/-- `widgets.Button`: a Custom node whose component returns a Box with padding
8 around a Text of font size 16 showing the label. -/
def widgets.Button (key : String) (label : String) (onClick : ℕ) (props : Props) : Node :=
  Node.mk CustomNodeType key
    (props ++ [("label", Value.str label), ("onClick", Value.func onClick)]) []
    (some (fun props =>
      widgets.Box (key ++ "-box")
        [("padding", Value.float 8), ("borderRadius", Value.float 4),
          ("backgroundColor", Value.str "#2196F3")]
        [widgets.Text (key ++ "-text") (props.GetString "label" "Button")
          [("color", Value.str "#FFFFFF"), ("fontSize", Value.float 16),
            ("textAlign", Value.str "center")]]))

/-- First child of the column of `buildUI` in main.go: the title at font size
20. -/
def buildUI.title : Node :=
  widgets.Text "title" "カウンターアプリ"
    [("fontSize", Value.float 20), ("textAlign", Value.str "center")]

/-- Second child of the column of `buildUI`: the counter box with padding 2
around the counter text at font size 18. -/
def buildUI.counterBox (counterValue : ℤ) : Node :=
  widgets.Box "counter-box"
    [("padding", Value.float 2), ("borderRadius", Value.float 4),
      ("backgroundColor", Value.str "#E0E0E0")]
    [widgets.Text "counter-text" ("カウント: " ++ toString counterValue)
      [("fontSize", Value.float 18), ("textAlign", Value.str "center")]]

/-- Third child of the column of `buildUI`: the row of the two buttons with
spacing 2. -/
def buildUI.buttons : Node :=
  widgets.Row "buttons" [("spacing", Value.float 2)]
    [widgets.Button "decrement" "-" 0 [("backgroundColor", Value.str "#F44336")],
      widgets.Button "increment" "+" 1 [("backgroundColor", Value.str "#4CAF50")]]

/-- `buildUI` of main.go: a column with spacing 1 over the title, the counter
box and the row of buttons.  `renderUI` lays it out under
`NewConstraints(0, 0, 80, 20)`. -/
def buildUI (counterValue : ℤ) : Node :=
  widgets.Column "root" [("spacing", Value.float 1)]
    [buildUI.title, buildUI.counterBox counterValue, buildUI.buttons]

/-! ## Basic facts about the embedding -/

/-- Induction over node trees: children and the nodes a component renders are
smaller than the node. -/
theorem Node.induct {P : Node → Prop}
    (h : ∀ t k p cs comp, (∀ c ∈ cs, P c) → (∀ f, comp = some f → ∀ q, P (f q)) →
      P (Node.mk t k p cs comp)) : ∀ n, P n := by
  intro n
  refine Node.rec (motive_1 := P) (motive_2 := fun cs => ∀ c ∈ cs, P c)
    (motive_3 := fun o => ∀ f, o = some f → ∀ q, P (f q)) ?_ ?_ ?_ ?_ ?_ n
  · intro t k p cs comp h1 h2
    exact h t k p cs comp h1 h2
  · intro c hc
    simp at hc
  · intro hd tl h1 h2 c hc
    rcases List.mem_cons.mp hc with rfl | hc
    · exact h1
    · exact h2 c hc
  · intro f hf
    simp at hf
  · intro f hf g hg q
    cases hg
    exact hf q

/-- Reading a map after an assignment. -/
theorem Layout.get_set (l : Layout) (k k2 : String) (v : Rect) :
    (l.set k v).get k2 = if k2 = k then some v else l.get k2 := by
  unfold Layout.set Layout.get
  by_cases h : k2 = k
  · subst h; simp [List.lookup]
  · simp only [h, if_false]
    have h2 : (k2 == k) = false := by simpa using h
    simp only [List.lookup, h2]
    induction l with
    | nil => rfl
    | cons e l ih =>
      obtain ⟨a, b⟩ := e
      rw [List.filter_cons]
      split_ifs with hc
      · simp only [List.lookup_cons]
        rw [ih]
      · have hak : a = k := by simpa using hc
        subst hak
        simp only [List.lookup_cons, h2]
        exact ih

theorem Layout.get_set_self (l : Layout) (k : String) (v : Rect) :
    (l.set k v).get k = some v := by
  rw [Layout.get_set]; simp

theorem Layout.get_set_of_ne (l : Layout) (k k2 : String) (v : Rect) (h : k2 ≠ k) :
    (l.set k v).get k2 = l.get k2 := by
  rw [Layout.get_set]; simp [h]

theorem childrenLayout_eq (node : Node) (c : Constraints) (p : Position) (l : Layout) :
    childrenLayout node.Children c p l = calculateChildrenLayout node c p l := by
  unfold calculateChildrenLayout
  cases h : node.Children with
  | nil => simp [childrenLayout]
  | cons a as => simp

/-- The body of `calculateNodeLayout` in the shape of the source: switch, clamp,
record, return. -/
theorem calculateNodeLayout_eq (node : Node) (c : Constraints) (p : Position) (l : Layout) :
    calculateNodeLayout node c p l =
      ((c.Constrain (intrinsicLayout node c p l).1),
        (intrinsicLayout node c p l).2.set node.Key
          { Position := p, Size := c.Constrain (intrinsicLayout node c p l).1 }) := by
  cases node with
  | mk t k pr cs comp =>
    cases cs <;> cases comp <;> rfl

theorem rowLoop_nil (s : ℚ) (c : Constraints) (p : Position) (x m : ℚ) (l : Layout) :
    rowLoop [] s c p x m l = (x, m, l) := rfl

theorem rowLoop_cons (child : Node) (rest : List Node) (s : ℚ) (c : Constraints)
    (p : Position) (x m : ℚ) (l : Layout) :
    rowLoop (child :: rest) s c p x m l =
      rowLoop rest s c p
        (x + ((calculateNodeLayout child
          { MinSize := { Width := 0, Height := 0 },
            MaxSize := { Width := c.MaxSize.Width - (x - p.X), Height := c.MaxSize.Height } }
          { X := x, Y := p.Y } l).1.Width + s))
        (if (calculateNodeLayout child
          { MinSize := { Width := 0, Height := 0 },
            MaxSize := { Width := c.MaxSize.Width - (x - p.X), Height := c.MaxSize.Height } }
          { X := x, Y := p.Y } l).1.Height > m then
          (calculateNodeLayout child
          { MinSize := { Width := 0, Height := 0 },
            MaxSize := { Width := c.MaxSize.Width - (x - p.X), Height := c.MaxSize.Height } }
          { X := x, Y := p.Y } l).1.Height else m)
        (calculateNodeLayout child
          { MinSize := { Width := 0, Height := 0 },
            MaxSize := { Width := c.MaxSize.Width - (x - p.X), Height := c.MaxSize.Height } }
          { X := x, Y := p.Y } l).2 := rfl

theorem columnLoop_nil (s : ℚ) (c : Constraints) (p : Position) (y m : ℚ) (l : Layout) :
    columnLoop [] s c p y m l = (y, m, l) := rfl

theorem columnLoop_cons (child : Node) (rest : List Node) (s : ℚ) (c : Constraints)
    (p : Position) (y m : ℚ) (l : Layout) :
    columnLoop (child :: rest) s c p y m l =
      columnLoop rest s c p
        (y + ((calculateNodeLayout child
          { MinSize := { Width := 0, Height := 0 },
            MaxSize := { Width := c.MaxSize.Width, Height := c.MaxSize.Height - (y - p.Y) } }
          { X := p.X, Y := y } l).1.Height + s))
        (if (calculateNodeLayout child
          { MinSize := { Width := 0, Height := 0 },
            MaxSize := { Width := c.MaxSize.Width, Height := c.MaxSize.Height - (y - p.Y) } }
          { X := p.X, Y := y } l).1.Width > m then
          (calculateNodeLayout child
          { MinSize := { Width := 0, Height := 0 },
            MaxSize := { Width := c.MaxSize.Width, Height := c.MaxSize.Height - (y - p.Y) } }
          { X := p.X, Y := y } l).1.Width else m)
        (calculateNodeLayout child
          { MinSize := { Width := 0, Height := 0 },
            MaxSize := { Width := c.MaxSize.Width, Height := c.MaxSize.Height - (y - p.Y) } }
          { X := p.X, Y := y } l).2 := rfl

/-- The size a node returns is the clamp of its intrinsic size. -/
theorem calculateNodeLayout_size (node : Node) (c : Constraints) (p : Position) (l : Layout) :
    (calculateNodeLayout node c p l).1 = c.Constrain (intrinsicLayout node c p l).1 := by
  rw [calculateNodeLayout_eq]

/-- Right after a node is laid out, the map holds its rectangle under its key:
the given position and the returned size. -/
theorem calculateNodeLayout_records (node : Node) (c : Constraints) (p : Position)
    (l : Layout) :
    (calculateNodeLayout node c p l).2.get node.Key =
      some { Position := p, Size := (calculateNodeLayout node c p l).1 } := by
  rw [calculateNodeLayout_eq]
  exact Layout.get_set_self _ _ _

theorem Constrain_width_bounds (c : Constraints) (s : Size)
    (h : c.MinSize.Width ≤ c.MaxSize.Width) :
    c.MinSize.Width ≤ (c.Constrain s).Width ∧ (c.Constrain s).Width ≤ c.MaxSize.Width := by
  simp only [Constraints.Constrain]
  split_ifs <;> constructor <;> linarith

theorem Constrain_height_bounds (c : Constraints) (s : Size)
    (h : c.MinSize.Height ≤ c.MaxSize.Height) :
    c.MinSize.Height ≤ (c.Constrain s).Height ∧ (c.Constrain s).Height ≤ c.MaxSize.Height := by
  simp only [Constraints.Constrain]
  split_ifs <;> constructor <;> linarith

theorem Constrain_idem (c : Constraints) (s : Size) :
    c.Constrain (c.Constrain s) = c.Constrain s := by
  simp only [Constraints.Constrain]
  congr 1 <;> split_ifs <;> rfl

theorem intrinsicLayout_row (node : Node) (c : Constraints) (p : Position) (l : Layout)
    (h : node.Type_ = RowNodeType) :
    intrinsicLayout node c p l = calculateRowLayout node c p l := by
  simp [intrinsicLayout, h, TextNodeType, BoxNodeType, RowNodeType]

theorem intrinsicLayout_column (node : Node) (c : Constraints) (p : Position) (l : Layout)
    (h : node.Type_ = ColumnNodeType) :
    intrinsicLayout node c p l = calculateColumnLayout node c p l := by
  simp [intrinsicLayout, h, TextNodeType, BoxNodeType, RowNodeType, ColumnNodeType]

theorem intrinsicLayout_container (node : Node) (c : Constraints) (p : Position) (l : Layout)
    (h : node.Type_ = ContainerNodeType) :
    intrinsicLayout node c p l =
      match node.Children with
      | child :: _ => calculateNodeLayout child c p l
      | [] => ({ Width := 0, Height := 0 }, l) := by
  simp [intrinsicLayout, h, TextNodeType, BoxNodeType, RowNodeType, ColumnNodeType,
    ContainerNodeType]

theorem intrinsicLayout_box (node : Node) (c : Constraints) (p : Position) (l : Layout)
    (h : node.Type_ = BoxNodeType) :
    intrinsicLayout node c p l =
      ({ Width := (if node.Props.GetFloat "width" 0 > 0 ∧ node.Props.GetFloat "height" 0 > 0
            then (({ Width := node.Props.GetFloat "width" 0,
                     Height := node.Props.GetFloat "height" 0 } : Size), l)
            else calculateChildrenLayout node c p l).1.Width +
            node.Props.GetFloat "padding" 0 * 2,
         Height := (if node.Props.GetFloat "width" 0 > 0 ∧ node.Props.GetFloat "height" 0 > 0
            then (({ Width := node.Props.GetFloat "width" 0,
                     Height := node.Props.GetFloat "height" 0 } : Size), l)
            else calculateChildrenLayout node c p l).1.Height +
            node.Props.GetFloat "padding" 0 * 2 },
       (if node.Props.GetFloat "width" 0 > 0 ∧ node.Props.GetFloat "height" 0 > 0
            then (({ Width := node.Props.GetFloat "width" 0,
                     Height := node.Props.GetFloat "height" 0 } : Size), l)
            else calculateChildrenLayout node c p l).2) := by
  simp [intrinsicLayout, h, TextNodeType, BoxNodeType]

theorem intrinsicLayout_default (node : Node) (c : Constraints) (p : Position) (l : Layout)
    (h1 : node.Type_ ≠ TextNodeType) (h2 : node.Type_ ≠ BoxNodeType)
    (h3 : node.Type_ ≠ RowNodeType) (h4 : node.Type_ ≠ ColumnNodeType)
    (h5 : node.Type_ ≠ ContainerNodeType) :
    intrinsicLayout node c p l =
      match node.Component with
      | some render => calculateNodeLayout (render node.Props) c p l
      | none => calculateChildrenLayout node c p l := by
  simp [intrinsicLayout, h1, h2, h3, h4, h5]

/-- A key present after the switch is present after the node is recorded. -/
theorem recorded_of_intrinsic (node : Node) (c : Constraints) (p : Position) (l : Layout)
    (k : String) (h : ((intrinsicLayout node c p l).2.get k).isSome) :
    ((calculateNodeLayout node c p l).2.get k).isSome := by
  rw [calculateNodeLayout_eq]
  simp only [Layout.get_set]
  split_ifs
  · rfl
  · exact h

theorem rowLoop_keeps (cs : List Node) (hcs : ∀ c ∈ cs, KeepsKeys c) (s : ℚ)
    (c : Constraints) (p : Position) (k : String) :
    ∀ (x m : ℚ) (l : Layout), (l.get k).isSome →
      ((rowLoop cs s c p x m l).2.2.get k).isSome := by
  induction cs with
  | nil => intro x m l h; exact h
  | cons a as ih =>
    intro x m l h
    rw [rowLoop_cons]
    apply ih (fun d hd => hcs d (List.mem_cons_of_mem _ hd))
    exact hcs a (List.mem_cons_self _ _) _ _ _ _ h

theorem columnLoop_keeps (cs : List Node) (hcs : ∀ c ∈ cs, KeepsKeys c) (s : ℚ)
    (c : Constraints) (p : Position) (k : String) :
    ∀ (y m : ℚ) (l : Layout), (l.get k).isSome →
      ((columnLoop cs s c p y m l).2.2.get k).isSome := by
  induction cs with
  | nil => intro y m l h; exact h
  | cons a as ih =>
    intro y m l h
    rw [columnLoop_cons]
    apply ih (fun d hd => hcs d (List.mem_cons_of_mem _ hd))
    exact hcs a (List.mem_cons_self _ _) _ _ _ _ h

theorem calculateChildrenLayout_keeps (node : Node) (hcs : ∀ c ∈ node.Children, KeepsKeys c)
    (c : Constraints) (p : Position) (l : Layout) (k : String) (h : (l.get k).isSome) :
    ((calculateChildrenLayout node c p l).2.get k).isSome := by
  rw [← childrenLayout_eq]
  cases hch : node.Children with
  | nil => exact h
  | cons a as =>
    have ha : a ∈ node.Children := by rw [hch]; exact List.mem_cons_self _ _
    exact hcs a ha _ _ _ _ h

theorem intrinsicLayout_keeps (node : Node) (hcs : ∀ c ∈ node.Children, KeepsKeys c)
    (hcomp : ∀ f, node.Component = some f → ∀ q, KeepsKeys (f q))
    (c : Constraints) (p : Position) (l : Layout) (k : String) (h : (l.get k).isSome) :
    ((intrinsicLayout node c p l).2.get k).isSome := by
  by_cases h1 : node.Type_ = TextNodeType
  · simpa [intrinsicLayout, h1] using h
  by_cases h2 : node.Type_ = BoxNodeType
  · rw [intrinsicLayout_box node c p l h2]
    split_ifs
    · exact h
    · exact calculateChildrenLayout_keeps node hcs c p l k h
  by_cases h3 : node.Type_ = RowNodeType
  · rw [intrinsicLayout_row node c p l h3]
    unfold calculateRowLayout
    split_ifs
    · exact h
    · exact rowLoop_keeps _ hcs _ _ _ _ _ _ _ h
  by_cases h4 : node.Type_ = ColumnNodeType
  · rw [intrinsicLayout_column node c p l h4]
    unfold calculateColumnLayout
    split_ifs
    · exact h
    · exact columnLoop_keeps _ hcs _ _ _ _ _ _ _ h
  by_cases h5 : node.Type_ = ContainerNodeType
  · rw [intrinsicLayout_container node c p l h5]
    cases hch : node.Children with
    | nil => exact h
    | cons a as =>
      have ha : a ∈ node.Children := by rw [hch]; exact List.mem_cons_self _ _
      exact hcs a ha _ _ _ _ h
  · rw [intrinsicLayout_default node c p l h1 h2 h3 h4 h5]
    cases hco : node.Component with
    | none => exact calculateChildrenLayout_keeps node hcs c p l k h
    | some f => exact hcomp f hco _ _ _ _ _ h

/-- The layout walk only adds or overwrites map entries. -/
theorem calculateNodeLayout_keeps : ∀ n : Node, KeepsKeys n := by
  apply Node.induct
  intro t k pr cs comp hcs hcomp c p l k2 h
  exact recorded_of_intrinsic _ c p l k2
    (intrinsicLayout_keeps (Node.mk t k pr cs comp) hcs hcomp c p l k2 h)

theorem rowLoop_visits (k : String) (a : Node)
    (ha : ∀ (c : Constraints) (p : Position) (l : Layout),
      ((calculateNodeLayout a c p l).2.get k).isSome)
    (cs : List Node) (hmem : a ∈ cs) (s : ℚ) (c : Constraints) (p : Position) :
    ∀ (x m : ℚ) (l : Layout), ((rowLoop cs s c p x m l).2.2.get k).isSome := by
  induction cs with
  | nil => simp at hmem
  | cons b bs ih =>
    intro x m l
    rw [rowLoop_cons]
    rcases List.mem_cons.mp hmem with rfl | hmem
    · exact rowLoop_keeps bs (fun d _ => calculateNodeLayout_keeps d) _ _ _ _ _ _ _ (ha _ _ _)
    · exact ih hmem _ _ _

theorem columnLoop_visits (k : String) (a : Node)
    (ha : ∀ (c : Constraints) (p : Position) (l : Layout),
      ((calculateNodeLayout a c p l).2.get k).isSome)
    (cs : List Node) (hmem : a ∈ cs) (s : ℚ) (c : Constraints) (p : Position) :
    ∀ (y m : ℚ) (l : Layout), ((columnLoop cs s c p y m l).2.2.get k).isSome := by
  induction cs with
  | nil => simp at hmem
  | cons b bs ih =>
    intro y m l
    rw [columnLoop_cons]
    rcases List.mem_cons.mp hmem with rfl | hmem
    · exact columnLoop_keeps bs (fun d _ => calculateNodeLayout_keeps d) _ _ _ _ _ _ _
        (ha _ _ _)
    · exact ih hmem _ _ _

/-- Every node the walk visits is under its key in the map the walk returns. -/
theorem calculateNodeLayout_visits (n m : Node) (h : Visits n m) :
    ∀ (c : Constraints) (p : Position) (l : Layout),
      ((calculateNodeLayout n c p l).2.get m.Key).isSome := by
  induction h with
  | start n =>
    intro c p l
    rw [calculateNodeLayout_records]; rfl
  | row n a m ht hmem _ ih =>
    intro c p l
    apply recorded_of_intrinsic
    rw [intrinsicLayout_row n c p l ht]
    unfold calculateRowLayout
    have hne : ¬ n.Children.length = 0 := by
      intro h0
      rw [List.length_eq_zero] at h0
      rw [h0] at hmem
      simp at hmem
    simp only [hne, if_false]
    exact rowLoop_visits m.Key a ih _ hmem _ _ _ _ _ _
  | column n a m ht hmem _ ih =>
    intro c p l
    apply recorded_of_intrinsic
    rw [intrinsicLayout_column n c p l ht]
    unfold calculateColumnLayout
    have hne : ¬ n.Children.length = 0 := by
      intro h0
      rw [List.length_eq_zero] at h0
      rw [h0] at hmem
      simp at hmem
    simp only [hne, if_false]
    exact columnLoop_visits m.Key a ih _ hmem _ _ _ _ _ _
  | container n a m rest ht hch _ ih =>
    intro c p l
    apply recorded_of_intrinsic
    rw [intrinsicLayout_container n c p l ht, hch]
    exact ih c p l
  | box n a m rest ht hsz hch _ ih =>
    intro c p l
    apply recorded_of_intrinsic
    rw [intrinsicLayout_box n c p l ht]
    simp only [hsz, if_false]
    rw [← childrenLayout_eq, hch]
    exact ih c p l
  | rendered n m render h1 h2 h3 h4 h5 hco _ ih =>
    intro c p l
    apply recorded_of_intrinsic
    rw [intrinsicLayout_default n c p l h1 h2 h3 h4 h5, hco]
    exact ih c p l
  | other n a m rest h1 h2 h3 h4 h5 hco hch _ ih =>
    intro c p l
    apply recorded_of_intrinsic
    rw [intrinsicLayout_default n c p l h1 h2 h3 h4 h5, hco]
    show ((calculateChildrenLayout n c p l).2.get m.Key).isSome
    rw [← childrenLayout_eq, hch]
    exact ih c p l

theorem intrinsicLayout_text (node : Node) (c : Constraints) (p : Position) (l : Layout)
    (h : node.Type_ = TextNodeType) :
    intrinsicLayout node c p l =
      ({ Width := ((node.Props.GetString "text" "").utf8ByteSize : ℚ) *
            node.Props.GetFloat "fontSize" 16 * (6 / 10),
         Height := node.Props.GetFloat "fontSize" 16 * (12 / 10) }, l) := by
  simp only [intrinsicLayout, h, if_true]

theorem rowLoop_size_indep (cs : List Node) (hcs : ∀ a ∈ cs, SizeIgnoresMap a) (s : ℚ)
    (c : Constraints) (p : Position) :
    ∀ (x m : ℚ) (l l2 : Layout),
      (rowLoop cs s c p x m l).1 = (rowLoop cs s c p x m l2).1 ∧
      (rowLoop cs s c p x m l).2.1 = (rowLoop cs s c p x m l2).2.1 := by
  induction cs with
  | nil => intro x m l l2; exact ⟨rfl, rfl⟩
  | cons a as ih =>
    intro x m l l2
    rw [rowLoop_cons, rowLoop_cons, hcs a (List.mem_cons_self _ _) _ _ l l2]
    exact ih (fun d hd => hcs d (List.mem_cons_of_mem _ hd)) _ _ _ _

theorem columnLoop_size_indep (cs : List Node) (hcs : ∀ a ∈ cs, SizeIgnoresMap a) (s : ℚ)
    (c : Constraints) (p : Position) :
    ∀ (y m : ℚ) (l l2 : Layout),
      (columnLoop cs s c p y m l).1 = (columnLoop cs s c p y m l2).1 ∧
      (columnLoop cs s c p y m l).2.1 = (columnLoop cs s c p y m l2).2.1 := by
  induction cs with
  | nil => intro y m l l2; exact ⟨rfl, rfl⟩
  | cons a as ih =>
    intro y m l l2
    rw [columnLoop_cons, columnLoop_cons, hcs a (List.mem_cons_self _ _) _ _ l l2]
    exact ih (fun d hd => hcs d (List.mem_cons_of_mem _ hd)) _ _ _ _

theorem calculateChildrenLayout_size_indep (node : Node)
    (hcs : ∀ a ∈ node.Children, SizeIgnoresMap a) (c : Constraints) (p : Position)
    (l l2 : Layout) :
    (calculateChildrenLayout node c p l).1 = (calculateChildrenLayout node c p l2).1 := by
  rw [← childrenLayout_eq, ← childrenLayout_eq]
  cases hch : node.Children with
  | nil => rfl
  | cons a as =>
    have ha : a ∈ node.Children := by rw [hch]; exact List.mem_cons_self _ _
    exact hcs a ha _ _ _ _

theorem intrinsicLayout_size_indep (node : Node)
    (hcs : ∀ a ∈ node.Children, SizeIgnoresMap a)
    (hcomp : ∀ f, node.Component = some f → ∀ q, SizeIgnoresMap (f q))
    (c : Constraints) (p : Position) (l l2 : Layout) :
    (intrinsicLayout node c p l).1 = (intrinsicLayout node c p l2).1 := by
  by_cases h1 : node.Type_ = TextNodeType
  · rw [intrinsicLayout_text node c p l h1, intrinsicLayout_text node c p l2 h1]
  by_cases h2 : node.Type_ = BoxNodeType
  · rw [intrinsicLayout_box node c p l h2, intrinsicLayout_box node c p l2 h2]
    by_cases hsz : node.Props.GetFloat "width" 0 > 0 ∧ node.Props.GetFloat "height" 0 > 0
    · simp only [hsz, and_self, if_true]
    · simp only [hsz, if_false]
      rw [calculateChildrenLayout_size_indep node hcs c p l l2]
  by_cases h3 : node.Type_ = RowNodeType
  · rw [intrinsicLayout_row node c p l h3, intrinsicLayout_row node c p l2 h3]
    unfold calculateRowLayout
    by_cases h0 : node.Children.length = 0
    · simp only [h0, if_true]
    · simp only [h0, if_false]
      rw [(rowLoop_size_indep _ hcs _ c p _ _ l l2).1, (rowLoop_size_indep _ hcs _ c p _ _ l l2).2]
  by_cases h4 : node.Type_ = ColumnNodeType
  · rw [intrinsicLayout_column node c p l h4, intrinsicLayout_column node c p l2 h4]
    unfold calculateColumnLayout
    by_cases h0 : node.Children.length = 0
    · simp only [h0, if_true]
    · simp only [h0, if_false]
      rw [(columnLoop_size_indep _ hcs _ c p _ _ l l2).1,
        (columnLoop_size_indep _ hcs _ c p _ _ l l2).2]
  by_cases h5 : node.Type_ = ContainerNodeType
  · rw [intrinsicLayout_container node c p l h5, intrinsicLayout_container node c p l2 h5]
    cases hch : node.Children with
    | nil => rfl
    | cons a as =>
      have ha : a ∈ node.Children := by rw [hch]; exact List.mem_cons_self _ _
      exact hcs a ha _ _ _ _
  · rw [intrinsicLayout_default node c p l h1 h2 h3 h4 h5,
      intrinsicLayout_default node c p l2 h1 h2 h3 h4 h5]
    cases hco : node.Component with
    | none => exact calculateChildrenLayout_size_indep node hcs c p l l2
    | some f => exact hcomp f hco _ _ _ _ _

/-- The size a layout call returns is a function of the node, the constraint
and the position: the map is only written. -/
theorem calculateNodeLayout_size_indep : ∀ n : Node, SizeIgnoresMap n := by
  apply Node.induct
  intro t k pr cs comp hcs hcomp c p l l2
  rw [calculateNodeLayout_size, calculateNodeLayout_size,
    intrinsicLayout_size_indep (Node.mk t k pr cs comp) hcs hcomp c p l l2]

theorem rowCalls_length (cs : List Node) (s : ℚ) (c : Constraints) (p : Position) :
    ∀ (x : ℚ) (l : Layout), (rowCalls cs s c p x l).length = cs.length := by
  induction cs with
  | nil => intro x l; rfl
  | cons a as ih =>
    intro x l
    simp only [rowCalls, List.length_cons, ih]

theorem columnCalls_length (cs : List Node) (s : ℚ) (c : Constraints) (p : Position) :
    ∀ (y : ℚ) (l : Layout), (columnCalls cs s c p y l).length = cs.length := by
  induction cs with
  | nil => intro y l; rfl
  | cons a as ih =>
    intro y l
    simp only [columnCalls, List.length_cons, ih]

/-- Each entry of `rowCalls` holds the size the layout of the corresponding
child returns under the entry's constraint at the entry's position. -/
theorem rowCalls_sizes (cs : List Node) (s : ℚ) (c : Constraints) (p : Position) :
    ∀ (x : ℚ) (l : Layout),
      List.Forall₂ (fun (child : Node) (call : ChildCall) =>
        ∀ l2 : Layout, call.size =
          (calculateNodeLayout child call.constraints call.position l2).1)
        cs (rowCalls cs s c p x l) := by
  induction cs with
  | nil => intro x l; exact List.Forall₂.nil
  | cons a as ih =>
    intro x l
    simp only [rowCalls]
    exact List.Forall₂.cons (fun l2 => calculateNodeLayout_size_indep a _ _ l l2) (ih _ _)

theorem columnCalls_sizes (cs : List Node) (s : ℚ) (c : Constraints) (p : Position) :
    ∀ (y : ℚ) (l : Layout),
      List.Forall₂ (fun (child : Node) (call : ChildCall) =>
        ∀ l2 : Layout, call.size =
          (calculateNodeLayout child call.constraints call.position l2).1)
        cs (columnCalls cs s c p y l) := by
  induction cs with
  | nil => intro y l; exact List.Forall₂.nil
  | cons a as ih =>
    intro y l
    simp only [columnCalls]
    exact List.Forall₂.cons (fun l2 => calculateNodeLayout_size_indep a _ _ l l2) (ih _ _)

theorem ite_gt_eq_max (h m : ℚ) : (if h > m then h else m) = max m h := by
  rw [max_def]
  split_ifs with h1 h2 h2
  · rfl
  · exfalso; exact h2 (le_of_lt h1)
  · exact le_antisymm h2 (not_lt.mp h1)
  · rfl

/-- Final values of the row loop's cursor and running maximum in terms of the
calls it made. -/
theorem rowLoop_result (cs : List Node) (s : ℚ) (c : Constraints) (p : Position) :
    ∀ (x m : ℚ) (l : Layout),
      (rowLoop cs s c p x m l).1 =
        x + ((rowCalls cs s c p x l).map (fun e => e.size.Width + s)).sum ∧
      (rowLoop cs s c p x m l).2.1 =
        ((rowCalls cs s c p x l).map (fun e => e.size.Height)).foldl max m := by
  induction cs with
  | nil => intro x m l; simp [rowLoop_nil, rowCalls]
  | cons a as ih =>
    intro x m l
    rw [rowLoop_cons]
    simp only [rowCalls, List.map_cons, List.sum_cons, List.foldl_cons]
    constructor
    · rw [(ih _ _ _).1]; ring
    · rw [(ih _ _ _).2]
      rw [ite_gt_eq_max]

theorem columnLoop_result (cs : List Node) (s : ℚ) (c : Constraints) (p : Position) :
    ∀ (y m : ℚ) (l : Layout),
      (columnLoop cs s c p y m l).1 =
        y + ((columnCalls cs s c p y l).map (fun e => e.size.Height + s)).sum ∧
      (columnLoop cs s c p y m l).2.1 =
        ((columnCalls cs s c p y l).map (fun e => e.size.Width)).foldl max m := by
  induction cs with
  | nil => intro y m l; simp [columnLoop_nil, columnCalls]
  | cons a as ih =>
    intro y m l
    rw [columnLoop_cons]
    simp only [columnCalls, List.map_cons, List.sum_cons, List.foldl_cons]
    constructor
    · rw [(ih _ _ _).1]; ring
    · rw [(ih _ _ _).2]
      rw [ite_gt_eq_max]

theorem foldl_max_facts (hs : List ℚ) :
    ∀ m : ℚ, m ≤ hs.foldl max m ∧ (∀ h ∈ hs, h ≤ hs.foldl max m) ∧
      (hs.foldl max m = m ∨ hs.foldl max m ∈ hs) := by
  induction hs with
  | nil => intro m; simp
  | cons a as ih =>
    intro m
    obtain ⟨h1, h2, h3⟩ := ih (max m a)
    simp only [List.foldl_cons]
    refine ⟨le_trans (le_max_left m a) h1, ?_, ?_⟩
    · intro h hh
      rcases List.mem_cons.mp hh with rfl | hh
      · exact le_trans (le_max_right m h) h1
      · exact h2 h hh
    · rcases h3 with h3 | h3
      · rcases max_choice m a with h4 | h4
        · left; rw [h3, h4]
        · right; rw [h3, h4]; exact List.mem_cons_self _ _
      · right; exact List.mem_cons_of_mem _ h3

/-- With non-negative entries, at least one of them, the running maximum
started at 0 is the largest entry. -/
theorem foldl_max_zero_is_max (hs : List ℚ) (hne : hs ≠ []) (hpos : ∀ h ∈ hs, 0 ≤ h) :
    hs.foldl max 0 ∈ hs ∧ ∀ h ∈ hs, h ≤ hs.foldl max 0 := by
  obtain ⟨_, h2, h3⟩ := foldl_max_facts hs 0
  refine ⟨?_, h2⟩
  rcases h3 with h3 | h3
  · cases hs with
    | nil => exact absurd rfl hne
    | cons a as =>
      have ha : a ∈ a :: as := List.mem_cons_self _ _
      have hle := h2 a ha
      rw [h3] at hle
      have h0 : a = 0 := le_antisymm hle (hpos a ha)
      rw [h3, ← h0]
      exact ha
  · exact h3

theorem sum_map_add_const (calls : List ChildCall) (f : ChildCall → ℚ) (s : ℚ) :
    (calls.map (fun e => f e + s)).sum = (calls.map f).sum + s * (calls.length : ℚ) := by
  induction calls with
  | nil => simp
  | cons a as ih =>
    simp only [List.map_cons, List.sum_cons, List.length_cons, ih]
    push_cast
    ring

theorem rowCalls_height_nonneg (cs : List Node) (s : ℚ) (c : Constraints) (p : Position)
    (hc : 0 ≤ c.MaxSize.Height) :
    ∀ (x : ℚ) (l : Layout), ∀ e ∈ rowCalls cs s c p x l, 0 ≤ e.size.Height := by
  induction cs with
  | nil => intro x l e he; simp [rowCalls] at he
  | cons a as ih =>
    intro x l e he
    simp only [rowCalls] at he
    rcases List.mem_cons.mp he with rfl | he
    · show 0 ≤ (calculateNodeLayout a _ _ l).1.Height
      rw [calculateNodeLayout_size]
      exact (Constrain_height_bounds _ _ hc).1
    · exact ih _ _ e he

theorem columnCalls_width_nonneg (cs : List Node) (s : ℚ) (c : Constraints) (p : Position)
    (hc : 0 ≤ c.MaxSize.Width) :
    ∀ (y : ℚ) (l : Layout), ∀ e ∈ columnCalls cs s c p y l, 0 ≤ e.size.Width := by
  induction cs with
  | nil => intro y l e he; simp [columnCalls] at he
  | cons a as ih =>
    intro y l e he
    simp only [columnCalls] at he
    rcases List.mem_cons.mp he with rfl | he
    · show 0 ≤ (calculateNodeLayout a _ _ l).1.Width
      rw [calculateNodeLayout_size]
      exact (Constrain_width_bounds _ _ hc).1
    · exact ih _ _ e he

/-- The constraint and position of the `i`-th call of the column loop: minimum
(0,0), the column's maximum width, the column's maximum height less what the
cursor has advanced, at the column's x and the cursor's y. -/
theorem columnCalls_inputs (cs : List Node) (s : ℚ) (c : Constraints) (p : Position) :
    ∀ (y : ℚ) (l : Layout) (i : ℕ) (call : ChildCall),
      (columnCalls cs s c p y l)[i]? = some call →
      call.constraints.MinSize = { Width := 0, Height := 0 } ∧
      call.constraints.MaxSize.Width = c.MaxSize.Width ∧
      call.constraints.MaxSize.Height = c.MaxSize.Height - ((y - p.Y) +
        (((columnCalls cs s c p y l).take i).map (fun e => e.size.Height + s)).sum) ∧
      call.position.X = p.X ∧
      call.position.Y = y +
        (((columnCalls cs s c p y l).take i).map (fun e => e.size.Height + s)).sum := by
  induction cs with
  | nil => intro y l i call h; simp [columnCalls] at h
  | cons a as ih =>
    intro y l i call h
    cases i with
    | zero =>
      simp only [columnCalls, List.getElem?_cons_zero, Option.some.injEq] at h
      subst h
      simp [columnCalls]
    | succ j =>
      simp only [columnCalls, List.getElem?_cons_succ] at h
      obtain ⟨h1, h2, h3, h4, h5⟩ := ih _ _ j call h
      refine ⟨h1, h2, ?_, h4, ?_⟩
      · rw [h3]
        simp only [columnCalls, List.take_succ_cons, List.map_cons, List.sum_cons]
        ring
      · rw [h5]
        simp only [columnCalls, List.take_succ_cons, List.map_cons, List.sum_cons]
        ring

/-- Size returned by `calculateRowLayout` for a row with children, in terms of
the calls of its loop. -/
theorem calculateRowLayout_size (node : Node) (c : Constraints) (p : Position) (l : Layout)
    (hn : node.Children ≠ []) :
    (calculateRowLayout node c p l).1.Width =
      ((rowCalls node.Children (node.Props.GetFloat "spacing" 0) c p p.X l).map
        (fun e => e.size.Width)).sum +
        node.Props.GetFloat "spacing" 0 * ((node.Children.length : ℚ) - 1) ∧
    (calculateRowLayout node c p l).1.Height =
      ((rowCalls node.Children (node.Props.GetFloat "spacing" 0) c p p.X l).map
        (fun e => e.size.Height)).foldl max 0 := by
  have h0 : ¬ node.Children.length = 0 := by
    rw [List.length_eq_zero]; exact hn
  unfold calculateRowLayout
  simp only [h0, if_false]
  rw [(rowLoop_result _ _ c p _ _ l).1, (rowLoop_result _ _ c p _ _ l).2,
    sum_map_add_const, rowCalls_length]
  constructor
  · ring
  · rfl

/-- Size returned by `calculateColumnLayout` for a column with children, in
terms of the calls of its loop. -/
theorem calculateColumnLayout_size (node : Node) (c : Constraints) (p : Position)
    (l : Layout) (hn : node.Children ≠ []) :
    (calculateColumnLayout node c p l).1.Height =
      ((columnCalls node.Children (node.Props.GetFloat "spacing" 0) c p p.Y l).map
        (fun e => e.size.Height)).sum +
        node.Props.GetFloat "spacing" 0 * ((node.Children.length : ℚ) - 1) ∧
    (calculateColumnLayout node c p l).1.Width =
      ((columnCalls node.Children (node.Props.GetFloat "spacing" 0) c p p.Y l).map
        (fun e => e.size.Width)).foldl max 0 := by
  have h0 : ¬ node.Children.length = 0 := by
    rw [List.length_eq_zero]; exact hn
  unfold calculateColumnLayout
  simp only [h0, if_false]
  rw [(columnLoop_result _ _ c p _ _ l).1, (columnLoop_result _ _ c p _ _ l).2,
    sum_map_add_const, columnCalls_length]
  constructor
  · ring
  · rfl

/-- The example text `textAB` has intrinsic size (12,12). -/
theorem textAB_size (c : Constraints) (p : Position) (l : Layout) :
    (calculateNodeLayout textAB c p l).1 = c.Constrain { Width := 12, Height := 12 } := by
  have h1 : textAB.Props.GetString "text" "" = "AB" := rfl
  have h2 : textAB.Props.GetFloat "fontSize" 16 = 10 := rfl
  have h3 : ("AB" : String).utf8ByteSize = 2 := by decide
  rw [calculateNodeLayout_size, intrinsicLayout_text textAB c p l rfl, h1, h2, h3]
  norm_num

/-- The example text `textD` has intrinsic size (12,12). -/
theorem textD_size (c : Constraints) (p : Position) (l : Layout) :
    (calculateNodeLayout textD c p l).1 = c.Constrain { Width := 12, Height := 12 } := by
  have h1 : textD.Props.GetString "text" "" = "AB" := rfl
  have h2 : textD.Props.GetFloat "fontSize" 16 = 10 := rfl
  have h3 : ("AB" : String).utf8ByteSize = 2 := by decide
  rw [calculateNodeLayout_size, intrinsicLayout_text textD c p l rfl, h1, h2, h3]
  norm_num

theorem GetFloat_of_float (p : Props) (k : String) (d v : ℚ)
    (h : p.Get k = some (Value.float v)) : p.GetFloat k d = v := by
  simp only [Props.GetFloat, h]

theorem GetFloat_of_int (p : Props) (k : String) (d : ℚ) (n : ℤ)
    (h : p.Get k = some (Value.int n)) : p.GetFloat k d = (n : ℚ) := by
  simp only [Props.GetFloat, h]

/-- Laying out a Row reads its properties through `GetFloat("spacing", 0)`
only. -/
theorem row_layout_congr (n1 n2 : Node) (c : Constraints) (p : Position) (l : Layout)
    (h1 : n1.Type_ = RowNodeType) (h2 : n2.Type_ = RowNodeType) (hk : n1.Key = n2.Key)
    (hc : n1.Children = n2.Children)
    (hs : n1.Props.GetFloat "spacing" 0 = n2.Props.GetFloat "spacing" 0) :
    calculateNodeLayout n1 c p l = calculateNodeLayout n2 c p l := by
  have hi : intrinsicLayout n1 c p l = intrinsicLayout n2 c p l := by
    rw [intrinsicLayout_row n1 c p l h1, intrinsicLayout_row n2 c p l h2]
    unfold calculateRowLayout
    rw [hc, hs]
  rw [calculateNodeLayout_eq n1, calculateNodeLayout_eq n2, hi, hk]

/-- Layout of a Text node: clamp of the text metric, recorded under its key. -/
theorem calculateNodeLayout_text (node : Node) (c : Constraints) (p : Position) (l : Layout)
    (h : node.Type_ = TextNodeType) :
    calculateNodeLayout node c p l =
      (c.Constrain
        { Width := ((node.Props.GetString "text" "").utf8ByteSize : ℚ) *
            node.Props.GetFloat "fontSize" 16 * (6 / 10),
          Height := node.Props.GetFloat "fontSize" 16 * (12 / 10) },
       l.set node.Key
        { Position := p,
          Size := c.Constrain
            { Width := ((node.Props.GetString "text" "").utf8ByteSize : ℚ) *
                node.Props.GetFloat "fontSize" 16 * (6 / 10),
              Height := node.Props.GetFloat "fontSize" 16 * (12 / 10) } }) := by
  rw [calculateNodeLayout_eq, intrinsicLayout_text node c p l h]

theorem scenarioTitle_layout (c : Constraints) (p : Position) (l : Layout) :
    calculateNodeLayout scenarioTitle c p l =
      (c.Constrain { Width := 36, Height := 24 },
       l.set "title" { Position := p, Size := c.Constrain { Width := 36, Height := 24 } }) := by
  have h1 : scenarioTitle.Props.GetString "text" "" = "ABC" := rfl
  have h2 : scenarioTitle.Props.GetFloat "fontSize" 16 = 20 := rfl
  have h3 : ("ABC" : String).utf8ByteSize = 3 := by decide
  have h4 : scenarioTitle.Key = "title" := rfl
  rw [calculateNodeLayout_text scenarioTitle c p l rfl, h1, h2, h3, h4]
  norm_num

theorem scenarioText_layout (c : Constraints) (p : Position) (l : Layout) :
    calculateNodeLayout scenarioText c p l =
      (c.Constrain { Width := 54 / 5, Height := 108 / 5 },
       l.set "t"
        { Position := p, Size := c.Constrain { Width := 54 / 5, Height := 108 / 5 } }) := by
  have h1 : scenarioText.Props.GetString "text" "" = "X" := rfl
  have h2 : scenarioText.Props.GetFloat "fontSize" 16 = 18 := rfl
  have h3 : ("X" : String).utf8ByteSize = 1 := by decide
  have h4 : scenarioText.Key = "t" := rfl
  rw [calculateNodeLayout_text scenarioText c p l rfl, h1, h2, h3, h4]
  norm_num

theorem scenarioBox_layout (c : Constraints) (p : Position) (l : Layout) :
    calculateNodeLayout scenarioBox c p l =
      (c.Constrain
        { Width := (c.Constrain { Width := 54 / 5, Height := 108 / 5 }).Width + 4,
          Height := (c.Constrain { Width := 54 / 5, Height := 108 / 5 }).Height + 4 },
       (l.set "t"
          { Position := p, Size := c.Constrain { Width := 54 / 5, Height := 108 / 5 } }).set
        "b"
        { Position := p,
          Size := c.Constrain
            { Width := (c.Constrain { Width := 54 / 5, Height := 108 / 5 }).Width + 4,
              Height := (c.Constrain { Width := 54 / 5, Height := 108 / 5 }).Height + 4 } })
      := by
  have hw : scenarioBox.Props.GetFloat "width" 0 = 0 := rfl
  have hp : scenarioBox.Props.GetFloat "padding" 0 = 2 := rfl
  have hk : scenarioBox.Key = "b" := rfl
  have hch : calculateChildrenLayout scenarioBox c p l = calculateNodeLayout scenarioText c p l
      := by
    rw [← childrenLayout_eq]
    rfl
  rw [calculateNodeLayout_eq, intrinsicLayout_box scenarioBox c p l rfl, hw, hp, hk, hch,
    scenarioText_layout]
  norm_num

/-- The body of `renderNode` in the shape of the source. -/
theorem renderNode_eq (node : Node) (l : Layout) :
    renderNode node l =
      if ¬ (l.get node.Key).isSome then
        []
      else if node.Type_ = TextNodeType then
        [TargetCall.DrawText (node.Props.GetString "text" "")
          ((l.get node.Key).getD { Position := { X := 0, Y := 0 },
                                   Size := { Width := 0, Height := 0 } }) node.Props]
      else if node.Type_ = BoxNodeType then
        TargetCall.DrawRect
          ((l.get node.Key).getD { Position := { X := 0, Y := 0 },
                                   Size := { Width := 0, Height := 0 } }) node.Props ::
          renderChildren node.Children l
      else if node.Type_ = RowNodeType ∨ node.Type_ = ColumnNodeType ∨
          node.Type_ = ContainerNodeType then
        renderChildren node.Children l
      else if node.Type_ = CustomNodeType then
        match node.Component with
        | some render => renderNode (render node.Props) l
        | none => renderChildren node.Children l
      else
        [] := by
  cases node with
  | mk t k pr cs comp =>
    cases comp <;> cases cs <;> rfl

theorem renderChildren_draws (cs : List Node) (l : Layout)
    (hcs : ∀ a ∈ cs, ∀ call ∈ renderNode a l,
      call ≠ TargetCall.Clear ∧ call ≠ TargetCall.Flush) :
    ∀ call ∈ renderChildren cs l, call ≠ TargetCall.Clear ∧ call ≠ TargetCall.Flush := by
  induction cs with
  | nil => intro call h; simp [renderChildren] at h
  | cons a as ih =>
    intro call h
    simp only [renderChildren, List.mem_append] at h
    rcases h with h | h
    · exact hcs a (List.mem_cons_self _ _) call h
    · exact ih (fun b hb => hcs b (List.mem_cons_of_mem _ hb)) call h

/-- The tree walk of the renderer only issues draw calls. -/
theorem renderNode_draws (l : Layout) :
    ∀ n : Node, ∀ call ∈ renderNode n l,
      call ≠ TargetCall.Clear ∧ call ≠ TargetCall.Flush := by
  apply Node.induct
  intro t k pr cs comp hcs hcomp call h
  rw [renderNode_eq] at h
  simp only [Node.Key, Node.Type_, Node.Props, Node.Children, Node.Component] at h
  by_cases hf : ¬ (l.get k).isSome
  · rw [if_pos hf] at h
    exact absurd h (List.not_mem_nil _)
  rw [if_neg hf] at h
  by_cases h1 : t = TextNodeType
  · rw [if_pos h1, List.mem_singleton] at h
    subst h
    exact ⟨by simp, by simp⟩
  rw [if_neg h1] at h
  by_cases h2 : t = BoxNodeType
  · rw [if_pos h2] at h
    rcases List.mem_cons.mp h with h | h
    · subst h
      exact ⟨by simp, by simp⟩
    · exact renderChildren_draws cs l hcs call h
  rw [if_neg h2] at h
  by_cases h3 : t = RowNodeType ∨ t = ColumnNodeType ∨ t = ContainerNodeType
  · rw [if_pos h3] at h
    exact renderChildren_draws cs l hcs call h
  rw [if_neg h3] at h
  by_cases h4 : t = CustomNodeType
  · rw [if_pos h4] at h
    cases comp with
    | none => exact renderChildren_draws cs l hcs call h
    | some f => exact hcomp f rfl pr call h
  · rw [if_neg h4] at h
    exact absurd h (List.not_mem_nil _)

/-- Layout of a Custom node with a component: the rendered node is laid out at
the same position under the same constraint, then the Custom node's own key is
recorded with the same size. -/
theorem custom_layout (node : Node) (render : Props → Node) (c : Constraints) (p : Position)
    (l : Layout) (ht : node.Type_ = CustomNodeType) (hcomp : node.Component = some render) :
    intrinsicLayout node c p l = calculateNodeLayout (render node.Props) c p l ∧
    (calculateNodeLayout node c p l).1 = (calculateNodeLayout (render node.Props) c p l).1 ∧
    (calculateNodeLayout node c p l).2.get node.Key =
      some { Position := p, Size := (calculateNodeLayout (render node.Props) c p l).1 } ∧
    ((render node.Props).Key ≠ node.Key →
      (calculateNodeLayout node c p l).2.get (render node.Props).Key =
        some { Position := p, Size := (calculateNodeLayout (render node.Props) c p l).1 }) := by
  have hi : intrinsicLayout node c p l = calculateNodeLayout (render node.Props) c p l := by
    rw [intrinsicLayout_default node c p l (by rw [ht]; decide) (by rw [ht]; decide)
      (by rw [ht]; decide) (by rw [ht]; decide) (by rw [ht]; decide), hcomp]
  have hs : (calculateNodeLayout node c p l).1 =
      (calculateNodeLayout (render node.Props) c p l).1 := by
    rw [calculateNodeLayout_size node, hi, calculateNodeLayout_size (render node.Props),
      Constrain_idem]
  refine ⟨hi, hs, ?_, ?_⟩
  · rw [calculateNodeLayout_records, hs]
  · intro hk
    rw [calculateNodeLayout_eq node, Layout.get_set_of_ne _ _ _ _ hk, hi]
    exact calculateNodeLayout_records (render node.Props) c p l

theorem rowLoop_frame (cs : List Node) (hcs : ∀ a ∈ cs, FramesKeys a) (s : ℚ)
    (c : Constraints) (p : Position) (k : String)
    (hk : ∀ a ∈ cs, ∀ m, Visits a m → m.Key ≠ k) :
    ∀ (x m : ℚ) (l : Layout), (rowLoop cs s c p x m l).2.2.get k = l.get k := by
  induction cs with
  | nil => intro x m l; rfl
  | cons a as ih =>
    intro x m l
    rw [rowLoop_cons, ih (fun d hd => hcs d (List.mem_cons_of_mem _ hd))
      (fun d hd => hk d (List.mem_cons_of_mem _ hd))]
    exact hcs a (List.mem_cons_self _ _) _ _ _ _ (hk a (List.mem_cons_self _ _))

theorem columnLoop_frame (cs : List Node) (hcs : ∀ a ∈ cs, FramesKeys a) (s : ℚ)
    (c : Constraints) (p : Position) (k : String)
    (hk : ∀ a ∈ cs, ∀ m, Visits a m → m.Key ≠ k) :
    ∀ (y m : ℚ) (l : Layout), (columnLoop cs s c p y m l).2.2.get k = l.get k := by
  induction cs with
  | nil => intro y m l; rfl
  | cons a as ih =>
    intro y m l
    rw [columnLoop_cons, ih (fun d hd => hcs d (List.mem_cons_of_mem _ hd))
      (fun d hd => hk d (List.mem_cons_of_mem _ hd))]
    exact hcs a (List.mem_cons_self _ _) _ _ _ _ (hk a (List.mem_cons_self _ _))

theorem intrinsicLayout_frame (node : Node) (hcs : ∀ a ∈ node.Children, FramesKeys a)
    (hcomp : ∀ f, node.Component = some f → ∀ q, FramesKeys (f q))
    (c : Constraints) (p : Position) (l : Layout) (k : String)
    (hk : ∀ m, Visits node m → m.Key ≠ k) :
    (intrinsicLayout node c p l).2.get k = l.get k := by
  by_cases h1 : node.Type_ = TextNodeType
  · rw [intrinsicLayout_text node c p l h1]
  by_cases h2 : node.Type_ = BoxNodeType
  · rw [intrinsicLayout_box node c p l h2]
    by_cases hsz : node.Props.GetFloat "width" 0 > 0 ∧ node.Props.GetFloat "height" 0 > 0
    · simp only [hsz, and_self, if_true]
    · simp only [hsz, if_false]
      rw [← childrenLayout_eq]
      cases hch : node.Children with
      | nil => rfl
      | cons a as =>
        have ha : a ∈ node.Children := by rw [hch]; exact List.mem_cons_self _ _
        exact hcs a ha _ _ _ _ (fun m hm => hk m (Visits.box node a m as h2 hsz hch hm))
  by_cases h3 : node.Type_ = RowNodeType
  · rw [intrinsicLayout_row node c p l h3]
    unfold calculateRowLayout
    split_ifs
    · rfl
    · exact rowLoop_frame _ hcs _ _ _ _
        (fun a ha m hm => hk m (Visits.row node a m h3 ha hm)) _ _ _
  by_cases h4 : node.Type_ = ColumnNodeType
  · rw [intrinsicLayout_column node c p l h4]
    unfold calculateColumnLayout
    split_ifs
    · rfl
    · exact columnLoop_frame _ hcs _ _ _ _
        (fun a ha m hm => hk m (Visits.column node a m h4 ha hm)) _ _ _
  by_cases h5 : node.Type_ = ContainerNodeType
  · rw [intrinsicLayout_container node c p l h5]
    cases hch : node.Children with
    | nil => rfl
    | cons a as =>
      have ha : a ∈ node.Children := by rw [hch]; exact List.mem_cons_self _ _
      exact hcs a ha _ _ _ _ (fun m hm => hk m (Visits.container node a m as h5 hch hm))
  · rw [intrinsicLayout_default node c p l h1 h2 h3 h4 h5]
    cases hco : node.Component with
    | none =>
      show (calculateChildrenLayout node c p l).2.get k = l.get k
      rw [← childrenLayout_eq]
      cases hch : node.Children with
      | nil => rfl
      | cons a as =>
        have ha : a ∈ node.Children := by rw [hch]; exact List.mem_cons_self _ _
        exact hcs a ha _ _ _ _
          (fun m hm => hk m (Visits.other node a m as h1 h2 h3 h4 h5 hco hch hm))
    | some f =>
      exact hcomp f hco _ _ _ _ _
        (fun m hm => hk m (Visits.rendered node m f h1 h2 h3 h4 h5 hco hm))

/-- The layout walk writes only under keys of nodes it visits. -/
theorem calculateNodeLayout_frame : ∀ n : Node, FramesKeys n := by
  apply Node.induct
  intro t k pr cs comp hcs hcomp c p l k2 hk
  rw [calculateNodeLayout_eq,
    Layout.get_set_of_ne _ _ _ _ (fun h => hk _ (Visits.start _) h.symm)]
  exact intrinsicLayout_frame (Node.mk t k pr cs comp) hcs hcomp c p l k2 hk

/-- After the row loop, the entry under the key of the `j`-th child is the
position and size of the `j`-th call, when no node visited from a later child
carries that key. -/
theorem rowLoop_records (cs : List Node) (s : ℚ) (c : Constraints) (p : Position) :
    ∀ (j : ℕ) (child : Node) (call : ChildCall) (x m : ℚ) (l : Layout),
      cs[j]? = some child → (rowCalls cs s c p x l)[j]? = some call →
      (∀ b ∈ cs.drop (j + 1), ∀ n, Visits b n → n.Key ≠ child.Key) →
      (rowLoop cs s c p x m l).2.2.get child.Key =
        some { Position := call.position, Size := call.size } := by
  induction cs with
  | nil => intro j child call x m l h; simp at h
  | cons a as ih =>
    intro j child call x m l hchild hcall hlater
    rw [rowLoop_cons]
    cases j with
    | zero =>
      simp only [List.getElem?_cons_zero, Option.some.injEq] at hchild
      subst hchild
      simp only [rowCalls, List.getElem?_cons_zero, Option.some.injEq] at hcall
      subst hcall
      rw [rowLoop_frame as (fun d _ => calculateNodeLayout_frame d) _ _ _ _
        (fun b hb => hlater b (by simpa using hb))]
      exact calculateNodeLayout_records a _ _ _
    | succ i =>
      simp only [List.getElem?_cons_succ] at hchild
      simp only [rowCalls, List.getElem?_cons_succ] at hcall
      exact ih i child call _ _ _ hchild hcall (fun b hb => hlater b (by simpa using hb))

theorem columnLoop_records (cs : List Node) (s : ℚ) (c : Constraints) (p : Position) :
    ∀ (j : ℕ) (child : Node) (call : ChildCall) (y m : ℚ) (l : Layout),
      cs[j]? = some child → (columnCalls cs s c p y l)[j]? = some call →
      (∀ b ∈ cs.drop (j + 1), ∀ n, Visits b n → n.Key ≠ child.Key) →
      (columnLoop cs s c p y m l).2.2.get child.Key =
        some { Position := call.position, Size := call.size } := by
  induction cs with
  | nil => intro j child call y m l h; simp at h
  | cons a as ih =>
    intro j child call y m l hchild hcall hlater
    rw [columnLoop_cons]
    cases j with
    | zero =>
      simp only [List.getElem?_cons_zero, Option.some.injEq] at hchild
      subst hchild
      simp only [columnCalls, List.getElem?_cons_zero, Option.some.injEq] at hcall
      subst hcall
      rw [columnLoop_frame as (fun d _ => calculateNodeLayout_frame d) _ _ _ _
        (fun b hb => hlater b (by simpa using hb))]
      exact calculateNodeLayout_records a _ _ _
    | succ i =>
      simp only [List.getElem?_cons_succ] at hchild
      simp only [columnCalls, List.getElem?_cons_succ] at hcall
      exact ih i child call _ _ _ hchild hcall (fun b hb => hlater b (by simpa using hb))

/-- The rectangle a Row node's layout leaves under the key of its `j`-th child. -/
theorem row_child_entry (node : Node) (c : Constraints) (p : Position) (l : Layout)
    (ht : node.Type_ = RowNodeType) (j : ℕ) (child : Node) (call : ChildCall)
    (hchild : node.Children[j]? = some child)
    (hcall : (rowCalls node.Children (node.Props.GetFloat "spacing" 0) c p p.X l)[j]? =
      some call)
    (hlater : ∀ b ∈ node.Children.drop (j + 1), ∀ n, Visits b n → n.Key ≠ child.Key)
    (hself : node.Key ≠ child.Key) :
    (calculateNodeLayout node c p l).2.get child.Key =
      some { Position := call.position, Size := call.size } := by
  have hne : ¬ node.Children.length = 0 := by
    intro h0
    rw [List.length_eq_zero] at h0
    rw [h0] at hchild
    simp at hchild
  rw [calculateNodeLayout_eq, Layout.get_set_of_ne _ _ _ _ (fun h => hself h.symm),
    intrinsicLayout_row node c p l ht]
  unfold calculateRowLayout
  simp only [hne, if_false]
  exact rowLoop_records _ _ _ _ j child call _ _ _ hchild hcall hlater

/-- The rectangle a Column node's layout leaves under the key of its `j`-th
child. -/
theorem column_child_entry (node : Node) (c : Constraints) (p : Position) (l : Layout)
    (ht : node.Type_ = ColumnNodeType) (j : ℕ) (child : Node) (call : ChildCall)
    (hchild : node.Children[j]? = some child)
    (hcall : (columnCalls node.Children (node.Props.GetFloat "spacing" 0) c p p.Y l)[j]? =
      some call)
    (hlater : ∀ b ∈ node.Children.drop (j + 1), ∀ n, Visits b n → n.Key ≠ child.Key)
    (hself : node.Key ≠ child.Key) :
    (calculateNodeLayout node c p l).2.get child.Key =
      some { Position := call.position, Size := call.size } := by
  have hne : ¬ node.Children.length = 0 := by
    intro h0
    rw [List.length_eq_zero] at h0
    rw [h0] at hchild
    simp at hchild
  rw [calculateNodeLayout_eq, Layout.get_set_of_ne _ _ _ _ (fun h => hself h.symm),
    intrinsicLayout_column node c p l ht]
  unfold calculateColumnLayout
  simp only [hne, if_false]
  exact columnLoop_records _ _ _ _ j child call _ _ _ hchild hcall hlater

/-- The constraint and position of the `i`-th call of the row loop: minimum
(0,0), the row's maximum width less what the cursor has advanced, the row's
maximum height, at the cursor's x and the row's y. -/
theorem rowCalls_inputs (cs : List Node) (s : ℚ) (c : Constraints) (p : Position) :
    ∀ (x : ℚ) (l : Layout) (i : ℕ) (call : ChildCall),
      (rowCalls cs s c p x l)[i]? = some call →
      call.constraints.MinSize = { Width := 0, Height := 0 } ∧
      call.constraints.MaxSize.Width = c.MaxSize.Width - (call.position.X - p.X) ∧
      call.constraints.MaxSize.Height = c.MaxSize.Height ∧
      call.position.X = x +
        (((rowCalls cs s c p x l).take i).map (fun e => e.size.Width + s)).sum ∧
      call.position.Y = p.Y := by
  induction cs with
  | nil => intro x l i call h; simp [rowCalls] at h
  | cons a as ih =>
    intro x l i call h
    cases i with
    | zero =>
      simp only [rowCalls, List.getElem?_cons_zero, Option.some.injEq] at h
      subst h
      simp [rowCalls]
    | succ j =>
      simp only [rowCalls, List.getElem?_cons_succ] at h
      obtain ⟨h1, h2, h3, h4, h5⟩ := ih _ _ j call h
      refine ⟨h1, h2, h3, ?_, h5⟩
      rw [h4]
      simp only [rowCalls, List.take_succ_cons, List.map_cons, List.sum_cons]
      ring

theorem rowCalls_size_at (cs : List Node) (s : ℚ) (c : Constraints) (p : Position) :
    ∀ (x : ℚ) (l : Layout) (i : ℕ) (child : Node) (call : ChildCall),
      cs[i]? = some child → (rowCalls cs s c p x l)[i]? = some call →
      ∀ l2 : Layout, call.size =
        (calculateNodeLayout child call.constraints call.position l2).1 := by
  induction cs with
  | nil => intro x l i child call h; simp at h
  | cons a as ih =>
    intro x l i child call hchild hcall l2
    cases i with
    | zero =>
      simp only [List.getElem?_cons_zero, Option.some.injEq] at hchild
      subst hchild
      simp only [rowCalls, List.getElem?_cons_zero, Option.some.injEq] at hcall
      subst hcall
      exact calculateNodeLayout_size_indep a _ _ l l2
    | succ j =>
      simp only [List.getElem?_cons_succ] at hchild
      simp only [rowCalls, List.getElem?_cons_succ] at hcall
      exact ih _ _ j child call hchild hcall l2

/-- In a list where no node visited from a later element carries the key of an
earlier element, this holds for the elements after any index. -/
theorem later_of_pairwise (cs : List Node)
    (hp : cs.Pairwise (fun a b => ∀ n, Visits b n → n.Key ≠ a.Key)) :
    ∀ (j : ℕ) (child : Node), cs[j]? = some child →
      ∀ b ∈ cs.drop (j + 1), ∀ n, Visits b n → n.Key ≠ child.Key := by
  induction cs with
  | nil => intro j child h; simp at h
  | cons a as ih =>
    intro j child hchild b hb
    rw [List.pairwise_cons] at hp
    cases j with
    | zero =>
      simp only [List.getElem?_cons_zero, Option.some.injEq] at hchild
      subst hchild
      exact hp.1 b (by simpa using hb)
    | succ i =>
      simp only [List.getElem?_cons_succ] at hchild
      exact ih hp.2 i child hchild b (by simpa using hb)

theorem Layout.set_keys_nodup (l : Layout) (k : String) (r : Rect)
    (h : (l.map Prod.fst).Nodup) : ((l.set k r).map Prod.fst).Nodup := by
  unfold Layout.set
  rw [List.map_cons, List.nodup_cons]
  constructor
  · intro hmem
    obtain ⟨e, he, hek⟩ := List.mem_map.mp hmem
    have := (List.mem_filter.mp he).2
    simp [hek] at this
  · exact (List.filter_sublist l).map Prod.fst |>.nodup h

theorem rowLoop_preserves (Q : Layout → Prop) (cs : List Node)
    (hcs : ∀ a ∈ cs, ∀ c p l, Q l → Q (calculateNodeLayout a c p l).2) (s : ℚ)
    (c : Constraints) (p : Position) :
    ∀ (x m : ℚ) (l : Layout), Q l → Q (rowLoop cs s c p x m l).2.2 := by
  induction cs with
  | nil => intro x m l h; exact h
  | cons a as ih =>
    intro x m l h
    rw [rowLoop_cons]
    exact ih (fun d hd => hcs d (List.mem_cons_of_mem _ hd)) _ _ _
      (hcs a (List.mem_cons_self _ _) _ _ _ h)

theorem columnLoop_preserves (Q : Layout → Prop) (cs : List Node)
    (hcs : ∀ a ∈ cs, ∀ c p l, Q l → Q (calculateNodeLayout a c p l).2) (s : ℚ)
    (c : Constraints) (p : Position) :
    ∀ (y m : ℚ) (l : Layout), Q l → Q (columnLoop cs s c p y m l).2.2 := by
  induction cs with
  | nil => intro y m l h; exact h
  | cons a as ih =>
    intro y m l h
    rw [columnLoop_cons]
    exact ih (fun d hd => hcs d (List.mem_cons_of_mem _ hd)) _ _ _
      (hcs a (List.mem_cons_self _ _) _ _ _ h)

theorem intrinsicLayout_preserves (Q : Layout → Prop) (node : Node)
    (hcs : ∀ a ∈ node.Children, ∀ c p l, Q l → Q (calculateNodeLayout a c p l).2)
    (hcomp : ∀ f, node.Component = some f → ∀ q, ∀ c p l, Q l →
      Q (calculateNodeLayout (f q) c p l).2)
    (c : Constraints) (p : Position) (l : Layout) (h : Q l) :
    Q (intrinsicLayout node c p l).2 := by
  have hchildren : Q (calculateChildrenLayout node c p l).2 := by
    rw [← childrenLayout_eq]
    cases hch : node.Children with
    | nil => exact h
    | cons a as =>
      have ha : a ∈ node.Children := by rw [hch]; exact List.mem_cons_self _ _
      exact hcs a ha _ _ _ h
  by_cases h1 : node.Type_ = TextNodeType
  · rw [intrinsicLayout_text node c p l h1]; exact h
  by_cases h2 : node.Type_ = BoxNodeType
  · rw [intrinsicLayout_box node c p l h2]
    split_ifs
    · exact h
    · exact hchildren
  by_cases h3 : node.Type_ = RowNodeType
  · rw [intrinsicLayout_row node c p l h3]
    unfold calculateRowLayout
    split_ifs
    · exact h
    · exact rowLoop_preserves Q _ hcs _ _ _ _ _ _ h
  by_cases h4 : node.Type_ = ColumnNodeType
  · rw [intrinsicLayout_column node c p l h4]
    unfold calculateColumnLayout
    split_ifs
    · exact h
    · exact columnLoop_preserves Q _ hcs _ _ _ _ _ _ h
  by_cases h5 : node.Type_ = ContainerNodeType
  · rw [intrinsicLayout_container node c p l h5]
    cases hch : node.Children with
    | nil => exact h
    | cons a as =>
      have ha : a ∈ node.Children := by rw [hch]; exact List.mem_cons_self _ _
      exact hcs a ha _ _ _ h
  · rw [intrinsicLayout_default node c p l h1 h2 h3 h4 h5]
    cases hco : node.Component with
    | none => exact hchildren
    | some f => exact hcomp f hco _ _ _ _ h

/-- A property of the map that every assignment preserves is preserved by the
layout walk. -/
theorem calculateNodeLayout_preserves (Q : Layout → Prop)
    (hset : ∀ (l : Layout) (k : String) (r : Rect), Q l → Q (l.set k r)) :
    ∀ (n : Node) (c : Constraints) (p : Position) (l : Layout),
      Q l → Q (calculateNodeLayout n c p l).2 := by
  apply Node.induct
  intro t k pr cs comp hcs hcomp c p l h
  rw [calculateNodeLayout_eq]
  exact hset _ _ _ (intrinsicLayout_preserves Q (Node.mk t k pr cs comp) hcs hcomp c p l h)

/-- The walk started at a Text node visits that node only. -/
theorem visits_text (a n : Node) (h : a.Type_ = TextNodeType) (hv : Visits a n) : n = a := by
  cases hv
  · rfl
  all_goals simp_all [TextNodeType, RowNodeType, ColumnNodeType, ContainerNodeType, BoxNodeType]

/-- The example text `textC` has intrinsic size (9.6,19.2). -/
theorem textC_size (c : Constraints) (p : Position) (l : Layout) :
    (calculateNodeLayout textC c p l).1 =
      c.Constrain { Width := 48 / 5, Height := 96 / 5 } := by
  have h1 : textC.Props.GetString "text" "" = "C" := rfl
  have h2 : textC.Props.GetFloat "fontSize" 16 = 16 := rfl
  have h3 : ("C" : String).utf8ByteSize = 1 := by decide
  rw [calculateNodeLayout_size, intrinsicLayout_text textC c p l rfl, h1, h2, h3]
  norm_num

/-- The example text `textT2` has intrinsic size (9.6,19.2). -/
theorem textT2_size (c : Constraints) (p : Position) (l : Layout) :
    (calculateNodeLayout textT2 c p l).1 =
      c.Constrain { Width := 48 / 5, Height := 96 / 5 } := by
  have h1 : textT2.Props.GetString "text" "" = "Z" := rfl
  have h2 : textT2.Props.GetFloat "fontSize" 16 = 16 := rfl
  have h3 : ("Z" : String).utf8ByteSize = 1 := by decide
  rw [calculateNodeLayout_size, intrinsicLayout_text textT2 c p l rfl, h1, h2, h3]
  norm_num

theorem rowLoop_cons_child (child : Node) (rest : List Node) (s : ℚ) (c : Constraints)
    (p : Position) (x m : ℚ) (l : Layout) :
    rowLoop (child :: rest) s c p x m l =
      rowLoop rest s c p
        (x + ((calculateNodeLayout child (rowChildConstraints c p x)
          { X := x, Y := p.Y } l).1.Width + s))
        (if (calculateNodeLayout child (rowChildConstraints c p x)
          { X := x, Y := p.Y } l).1.Height > m then
          (calculateNodeLayout child (rowChildConstraints c p x)
          { X := x, Y := p.Y } l).1.Height else m)
        (calculateNodeLayout child (rowChildConstraints c p x) { X := x, Y := p.Y } l).2 :=
  rfl

theorem columnLoop_cons_child (child : Node) (rest : List Node) (s : ℚ) (c : Constraints)
    (p : Position) (y m : ℚ) (l : Layout) :
    columnLoop (child :: rest) s c p y m l =
      columnLoop rest s c p
        (y + ((calculateNodeLayout child (columnChildConstraints c p y)
          { X := p.X, Y := y } l).1.Height + s))
        (if (calculateNodeLayout child (columnChildConstraints c p y)
          { X := p.X, Y := y } l).1.Width > m then
          (calculateNodeLayout child (columnChildConstraints c p y)
          { X := p.X, Y := y } l).1.Width else m)
        (calculateNodeLayout child (columnChildConstraints c p y) { X := p.X, Y := y } l).2 :=
  rfl

theorem Constrain_nonneg (c : Constraints) (s : Size) (h1 : 0 ≤ c.MinSize.Width)
    (h2 : 0 ≤ c.MinSize.Height) (h3 : 0 ≤ c.MaxSize.Width) (h4 : 0 ≤ c.MaxSize.Height) :
    0 ≤ (c.Constrain s).Width ∧ 0 ≤ (c.Constrain s).Height := by
  simp only [Constraints.Constrain]
  constructor <;> split_ifs <;> linarith

theorem Constrain_width_eq_max (c : Constraints) (s : Size)
    (h : c.MaxSize.Width < c.MinSize.Width) : (c.Constrain s).Width = c.MaxSize.Width := by
  simp only [Constraints.Constrain]
  split_ifs <;> first | rfl | (exfalso; linarith)

theorem Constrain_height_eq_max (c : Constraints) (s : Size)
    (h : c.MaxSize.Height < c.MinSize.Height) : (c.Constrain s).Height = c.MaxSize.Height := by
  simp only [Constraints.Constrain]
  split_ifs <;> first | rfl | (exfalso; linarith)

theorem NewConsoleRenderTarget_wf (width height : ℤ) (hw : 0 ≤ width) (hh : 0 ≤ height) :
    BufferWF (NewConsoleRenderTarget width height).buffer width height := by
  constructor
  · simp [NewConsoleRenderTarget, Int.toNat_of_nonneg hh]
  · intro row hrow
    simp only [NewConsoleRenderTarget] at hrow
    rw [List.eq_of_mem_replicate hrow]
    simp [Int.toNat_of_nonneg hw]

/-- A write inside the board succeeds and keeps the board's shape. -/
theorem writeCell_ok (buffer : List (List Char)) (width height y x : ℤ) (ch : Char)
    (hwf : BufferWF buffer width height) (hy0 : 0 ≤ y) (hy : y < height) (hx0 : 0 ≤ x)
    (hx : x < width) :
    ∃ b, writeCell buffer y x ch = some b ∧ BufferWF b width height := by
  obtain ⟨hlen, hrows⟩ := hwf
  have hyn : y.toNat < buffer.length := by
    have : (y.toNat : ℤ) = y := Int.toNat_of_nonneg hy0
    omega
  have hrow : buffer.getD y.toNat [] ∈ buffer := by
    rw [List.getD_eq_getElem _ _ hyn]
    exact List.getElem_mem _
  have hrowlen := hrows _ hrow
  refine ⟨buffer.set y.toNat ((buffer.getD y.toNat []).set x.toNat ch), ?_, ?_, ?_⟩
  · unfold writeCell
    rw [if_pos ⟨hy0, by omega⟩, if_pos ⟨hx0, by omega⟩]
  · rw [List.length_set]; exact hlen
  · intro row hmem
    rcases List.mem_or_eq_of_mem_set hmem with h | h
    · exact hrows row h
    · rw [h, List.length_set]; exact hrowlen

theorem writeIf_ok (cond : Prop) [Decidable cond] (buffer : List (List Char))
    (width height y x : ℤ) (ch : Char) (hwf : BufferWF buffer width height)
    (h : cond → 0 ≤ y ∧ y < height ∧ 0 ≤ x ∧ x < width) :
    ∃ b, writeIf cond buffer y x ch = some b ∧ BufferWF b width height := by
  unfold writeIf
  by_cases hc : cond
  · rw [if_pos hc]
    obtain ⟨h1, h2, h3, h4⟩ := h hc
    exact writeCell_ok buffer width height y x ch hwf h1 h2 h3 h4
  · rw [if_neg hc]
    exact ⟨buffer, rfl, hwf⟩

theorem forLoop_ok {α : Type} (Inv : α → Prop) (body : ℤ → α → Option α) :
    ∀ (n : ℕ) (x : ℤ) (s : α), Inv s →
      (∀ (i : ℤ) (t : α), x ≤ i → i < x + n → Inv t → ∃ t2, body i t = some t2 ∧ Inv t2) →
      ∃ s2, forLoop n x body s = some s2 ∧ Inv s2 := by
  intro n
  induction n with
  | zero => intro x s hs _; exact ⟨s, rfl, hs⟩
  | succ n ih =>
    intro x s hs hbody
    obtain ⟨t2, ht2, hinv⟩ := hbody x s (le_refl _) (by push_cast; omega) hs
    simp only [forLoop, ht2]
    apply ih (x + 1) t2 hinv
    intro i t hi1 hi2 ht
    exact hbody i t (by omega) (by push_cast; omega) ht

theorem forRange_ok {α : Type} (Inv : α → Prop) (body : ℤ → α → Option α) (lo hi : ℤ)
    (s : α) (hs : Inv s)
    (hbody : ∀ (i : ℤ) (t : α), lo ≤ i → i ≤ hi → Inv t →
      ∃ t2, body i t = some t2 ∧ Inv t2) :
    ∃ s2, forRange lo hi body s = some s2 ∧ Inv s2 := by
  unfold forRange
  apply forLoop_ok Inv body _ lo s hs
  intro i t h1 h2 ht
  apply hbody i t h1 _ ht
  omega

/-- Two guarded writes in a row succeed and keep the board's shape. -/
theorem writeIf_pair_ok (c1 c2 : Prop) [Decidable c1] [Decidable c2]
    (buffer : List (List Char)) (width height ya xa yb xb : ℤ) (cha chb : Char)
    (hwf : BufferWF buffer width height)
    (h1 : c1 → 0 ≤ ya ∧ ya < height ∧ 0 ≤ xa ∧ xa < width)
    (h2 : c2 → 0 ≤ yb ∧ yb < height ∧ 0 ≤ xb ∧ xb < width) :
    ∃ b, ((writeIf c1 buffer ya xa cha).bind fun buf => writeIf c2 buf yb xb chb) = some b ∧
      BufferWF b width height := by
  obtain ⟨b1, hb1, hwf1⟩ := writeIf_ok c1 buffer width height ya xa cha hwf h1
  obtain ⟨b2, hb2, hwf2⟩ := writeIf_ok c2 b1 width height yb xb chb hwf1 h2
  exact ⟨b2, by rw [hb1]; exact hb2, hwf2⟩

/-- `DrawRect` never indexes outside the board: on a board of the declared
shape it returns, and the board keeps its shape. -/
theorem DrawRect_ok (c : ConsoleRenderTarget) (rect : Rect) (props : Props)
    (hwf : BufferWF c.buffer c.width c.height) :
    ∃ c2, c.DrawRect rect props = some c2 ∧ c2.width = c.width ∧ c2.height = c.height ∧
      BufferWF c2.buffer c.width c.height := by
  have key : ∀ x1 y1 x2 y2 : ℤ, 0 ≤ x1 → 0 ≤ y1 → x2 ≤ c.width - 1 → y2 ≤ c.height - 1 →
      ∃ c2 : ConsoleRenderTarget,
        ((forRange x1 x2 (fun x buf =>
            (writeIf (y1 ≥ 0 ∧ y1 < c.height) buf y1 x '-').bind fun buf =>
            writeIf (y2 ≥ 0 ∧ y2 < c.height) buf y2 x '-') c.buffer).bind fun buf =>
        (forRange y1 y2 (fun y buf =>
            (writeIf (x1 ≥ 0 ∧ x1 < c.width) buf y x1 '|').bind fun buf =>
            writeIf (x2 ≥ 0 ∧ x2 < c.width) buf y x2 '|') buf).bind fun buf =>
        (writeIf (x1 ≥ 0 ∧ y1 ≥ 0 ∧ x1 < c.width ∧ y1 < c.height) buf y1 x1 '+').bind
          fun buf =>
        (writeIf (x2 ≥ 0 ∧ y1 ≥ 0 ∧ x2 < c.width ∧ y1 < c.height) buf y1 x2 '+').bind
          fun buf =>
        (writeIf (x1 ≥ 0 ∧ y2 ≥ 0 ∧ x1 < c.width ∧ y2 < c.height) buf y2 x1 '+').bind
          fun buf =>
        (writeIf (x2 ≥ 0 ∧ y2 ≥ 0 ∧ x2 < c.width ∧ y2 < c.height) buf y2 x2 '+').bind
          fun buf =>
        some { c with buffer := buf }) = some c2 ∧ c2.width = c.width ∧
          c2.height = c.height ∧ BufferWF c2.buffer c.width c.height := by
    intro x1 y1 x2 y2 hx1 hy1 hx2 hy2
    obtain ⟨b1, e1, w1⟩ := forRange_ok (fun b => BufferWF b c.width c.height)
      (fun x buf =>
        (writeIf (y1 ≥ 0 ∧ y1 < c.height) buf y1 x '-').bind fun buf =>
        writeIf (y2 ≥ 0 ∧ y2 < c.height) buf y2 x '-') x1 x2 c.buffer hwf
      (fun i t hi1 hi2 ht => writeIf_pair_ok _ _ t c.width c.height y1 i y2 i '-' '-' ht
        (fun h => ⟨h.1, h.2, by omega, by omega⟩) (fun h => ⟨h.1, h.2, by omega, by omega⟩))
    obtain ⟨b2, e2, w2⟩ := forRange_ok (fun b => BufferWF b c.width c.height)
      (fun y buf =>
        (writeIf (x1 ≥ 0 ∧ x1 < c.width) buf y x1 '|').bind fun buf =>
        writeIf (x2 ≥ 0 ∧ x2 < c.width) buf y x2 '|') y1 y2 b1 w1
      (fun i t hi1 hi2 ht => writeIf_pair_ok _ _ t c.width c.height i x1 i x2 '|' '|' ht
        (fun h => ⟨by omega, by omega, h.1, h.2⟩) (fun h => ⟨by omega, by omega, h.1, h.2⟩))
    obtain ⟨b3, e3, w3⟩ := writeIf_ok (x1 ≥ 0 ∧ y1 ≥ 0 ∧ x1 < c.width ∧ y1 < c.height) b2
      c.width c.height y1 x1 '+' w2 (fun h => ⟨h.2.1, h.2.2.2, h.1, h.2.2.1⟩)
    obtain ⟨b4, e4, w4⟩ := writeIf_ok (x2 ≥ 0 ∧ y1 ≥ 0 ∧ x2 < c.width ∧ y1 < c.height) b3
      c.width c.height y1 x2 '+' w3 (fun h => ⟨h.2.1, h.2.2.2, h.1, h.2.2.1⟩)
    obtain ⟨b5, e5, w5⟩ := writeIf_ok (x1 ≥ 0 ∧ y2 ≥ 0 ∧ x1 < c.width ∧ y2 < c.height) b4
      c.width c.height y2 x1 '+' w4 (fun h => ⟨h.2.1, h.2.2.2, h.1, h.2.2.1⟩)
    obtain ⟨b6, e6, w6⟩ := writeIf_ok (x2 ≥ 0 ∧ y2 ≥ 0 ∧ x2 < c.width ∧ y2 < c.height) b5
      c.width c.height y2 x2 '+' w5 (fun h => ⟨h.2.1, h.2.2.2, h.1, h.2.2.1⟩)
    refine ⟨{ c with buffer := b6 }, ?_, rfl, rfl, w6⟩
    rw [e1, Option.some_bind, e2, Option.some_bind, e3, Option.some_bind, e4,
      Option.some_bind, e5, Option.some_bind, e6, Option.some_bind]
  exact key _ _ _ _ (by split_ifs <;> omega) (by split_ifs <;> omega)
    (by split_ifs <;> omega) (by split_ifs <;> omega)

theorem calculateNodeLayoutFuel_zero {ι : Type} (render : ι → Props → RefNode ι)
    (n : RefNode ι) (c : Constraints) (p : Position) (l : Layout) :
    calculateNodeLayoutFuel render 0 n c p l = none := by
  cases n; rfl

/-- A Custom node with a component, one call deeper: the layout of the node
its component returns, clamped and recorded again. -/
theorem calculateNodeLayoutFuel_custom {ι : Type} (render : ι → Props → RefNode ι)
    (fuel : ℕ) (key : String) (props : Props) (children : List (RefNode ι)) (ref : ι)
    (c : Constraints) (p : Position) (l : Layout) :
    calculateNodeLayoutFuel render (fuel + 1)
        (RefNode.mk CustomNodeType key props children (some ref)) c p l =
      (calculateNodeLayoutFuel render fuel (render ref props) c p l).map fun r =>
        (c.Constrain r.1, r.2.set key { Position := p, Size := c.Constrain r.1 }) := by
  rfl

theorem selfNode_no_result (c : Constraints) (p : Position) (l : Layout) :
    ∀ fuel : ℕ, calculateNodeLayoutFuel selfRender fuel selfNode c p l = none := by
  intro fuel
  induction fuel with
  | zero => exact calculateNodeLayoutFuel_zero _ _ _ _ _
  | succ n ih =>
    have h := calculateNodeLayoutFuel_custom selfRender n "loop" [] [] () c p l
    have hs : selfRender () [] = selfNode := rfl
    rw [hs, ih] at h
    exact h

theorem calculateNodeLayoutFuel_succ {ι : Type} (render : ι → Props → RefNode ι)
    (fuel : ℕ) (type : NodeType) (key : String) (props : Props)
    (children : List (RefNode ι)) (component : Option ι)
    (c : Constraints) (p : Position) (l : Layout) :
    calculateNodeLayoutFuel render (fuel + 1) (RefNode.mk type key props children component)
        c p l =
      (intrinsicLayoutFuel render fuel type props children component c p l).map fun r =>
        (c.Constrain r.1, r.2.set key { Position := p, Size := c.Constrain r.1 }) := by
  rfl

theorem visitCount_mk (type : NodeType) (key : String) (props : Props)
    (children : List Node) (component : Option (Props → Node)) :
    visitCount (Node.mk type key props children component) =
      1 + (if type = TextNodeType then 0
        else if type = BoxNodeType then
          if props.GetFloat "width" 0 > 0 ∧ props.GetFloat "height" 0 > 0 then 0
          else visitCountFirst children
        else if type = RowNodeType then visitCountAll children
        else if type = ColumnNodeType then visitCountAll children
        else if type = ContainerNodeType then visitCountFirst children
        else
          match component with
          | some render => visitCount (render props)
          | none => visitCountFirst children) := by
  cases children <;> cases component <;> rfl

theorem toRef_mk (type : NodeType) (key : String) (props : Props)
    (children : List Node) (component : Option (Props → Node)) :
    (Node.mk type key props children component).toRef =
      RefNode.mk type key props (toRefList children) component := by
  cases children <;> rfl

theorem toRefList_length (cs : List Node) : (toRefList cs).length = cs.length := by
  induction cs with
  | nil => rfl
  | cons a as ih => simp only [toRefList, List.length_cons, ih]

theorem visitCount_le_all (cs : List Node) : ∀ a ∈ cs, visitCount a ≤ visitCountAll cs := by
  induction cs with
  | nil => intro a ha; simp at ha
  | cons b bs ih =>
    intro a ha
    simp only [visitCountAll]
    rcases List.mem_cons.mp ha with rfl | h
    · omega
    · have := ih a h
      omega

theorem childrenLayoutWith_eq
    (g : RefNode (Props → Node) → Constraints → Position → Layout → Option (Size × Layout))
    (cs : List Node)
    (hg : ∀ a rest, cs = a :: rest → ∀ c p l, g a.toRef c p l =
      some (calculateNodeLayout a c p l))
    (c : Constraints) (p : Position) (l : Layout) :
    childrenLayoutWith g (toRefList cs) c p l = some (childrenLayout cs c p l) := by
  cases cs with
  | nil => rfl
  | cons a as =>
    show g a.toRef c p l = some (calculateNodeLayout a c p l)
    exact hg a as rfl c p l

theorem rowLoopWith_eq
    (g : RefNode (Props → Node) → Constraints → Position → Layout → Option (Size × Layout))
    (cs : List Node)
    (hg : ∀ a ∈ cs, ∀ c p l, g a.toRef c p l = some (calculateNodeLayout a c p l))
    (s : ℚ) (c : Constraints) (p : Position) :
    ∀ (x m : ℚ) (l : Layout),
      rowLoopWith g (toRefList cs) s c p x m l = some (rowLoop cs s c p x m l) := by
  induction cs with
  | nil => intro x m l; rfl
  | cons a as ih =>
    intro x m l
    simp only [toRefList, rowLoopWith, hg a (List.mem_cons_self _ _)]
    rw [rowLoop_cons]
    exact ih (fun d hd => hg d (List.mem_cons_of_mem _ hd)) _ _ _

theorem columnLoopWith_eq
    (g : RefNode (Props → Node) → Constraints → Position → Layout → Option (Size × Layout))
    (cs : List Node)
    (hg : ∀ a ∈ cs, ∀ c p l, g a.toRef c p l = some (calculateNodeLayout a c p l))
    (s : ℚ) (c : Constraints) (p : Position) :
    ∀ (y m : ℚ) (l : Layout),
      columnLoopWith g (toRefList cs) s c p y m l = some (columnLoop cs s c p y m l) := by
  induction cs with
  | nil => intro y m l; rfl
  | cons a as ih =>
    intro y m l
    simp only [toRefList, columnLoopWith, hg a (List.mem_cons_self _ _)]
    rw [columnLoop_cons]
    exact ih (fun d hd => hg d (List.mem_cons_of_mem _ hd)) _ _ _

theorem intrinsicLayoutFuel_eq (t : NodeType) (k : String) (pr : Props) (cs : List Node)
    (comp : Option (Props → Node)) (hcs : ∀ a ∈ cs, CompletesWithin a)
    (hcomp : ∀ f, comp = some f → ∀ q, CompletesWithin (f q)) (j : ℕ)
    (hfuel : visitCount (Node.mk t k pr cs comp) ≤ j + 1)
    (c : Constraints) (p : Position) (l : Layout) :
    intrinsicLayoutFuel renderRef j t pr (toRefList cs) comp c p l =
      some (intrinsicLayout (Node.mk t k pr cs comp) c p l) := by
  rw [visitCount_mk] at hfuel
  have hfirst : visitCountFirst cs ≤ j →
      childrenLayoutWith (calculateNodeLayoutFuel renderRef j) (toRefList cs) c p l =
        some (calculateChildrenLayout (Node.mk t k pr cs comp) c p l) := by
    intro hle
    rw [← childrenLayout_eq]
    apply childrenLayoutWith_eq
    intro a rest hcons c2 p2 l2
    subst hcons
    exact hcs a (List.mem_cons_self _ _) j hle c2 p2 l2
  have hall : visitCountAll cs ≤ j → ∀ a ∈ cs, ∀ c2 p2 l2,
      calculateNodeLayoutFuel renderRef j a.toRef c2 p2 l2 =
        some (calculateNodeLayout a c2 p2 l2) := by
    intro hle a ha c2 p2 l2
    exact hcs a ha j (le_trans (visitCount_le_all cs a ha) hle) c2 p2 l2
  unfold intrinsicLayoutFuel
  by_cases h1 : t = TextNodeType
  · rw [intrinsicLayout_text (Node.mk t k pr cs comp) c p l h1, if_pos h1]
    rfl
  rw [if_neg h1] at hfuel ⊢
  by_cases h2 : t = BoxNodeType
  · rw [intrinsicLayout_box (Node.mk t k pr cs comp) c p l h2, if_pos h2]
    rw [if_pos h2] at hfuel
    by_cases hsz : pr.GetFloat "width" 0 > 0 ∧ pr.GetFloat "height" 0 > 0
    · simp only [Node.Props, hsz, and_self, if_true, Option.map_some']
    · rw [if_neg hsz] at hfuel
      simp only [Node.Props, hsz, if_false, hfirst (by omega), Option.map_some']
  rw [if_neg h2] at hfuel ⊢
  by_cases h3 : t = RowNodeType
  · rw [intrinsicLayout_row (Node.mk t k pr cs comp) c p l h3, if_pos h3]
    rw [if_pos h3] at hfuel
    unfold calculateRowLayout
    simp only [Node.Children, Node.Props, toRefList_length]
    by_cases h0 : cs.length = 0
    · simp only [h0, if_true]
    · simp only [h0, if_false, rowLoopWith_eq _ cs (hall (by omega)), Option.map_some']
  rw [if_neg h3] at hfuel ⊢
  by_cases h4 : t = ColumnNodeType
  · rw [intrinsicLayout_column (Node.mk t k pr cs comp) c p l h4, if_pos h4]
    rw [if_pos h4] at hfuel
    unfold calculateColumnLayout
    simp only [Node.Children, Node.Props, toRefList_length]
    by_cases h0 : cs.length = 0
    · simp only [h0, if_true]
    · simp only [h0, if_false, columnLoopWith_eq _ cs (hall (by omega)), Option.map_some']
  rw [if_neg h4] at hfuel ⊢
  by_cases h5 : t = ContainerNodeType
  · rw [intrinsicLayout_container (Node.mk t k pr cs comp) c p l h5, if_pos h5]
    rw [if_pos h5] at hfuel
    have := hfirst (by omega)
    rw [← childrenLayout_eq] at this
    rw [this]
    cases cs <;> rfl
  rw [if_neg h5] at hfuel ⊢
  rw [intrinsicLayout_default (Node.mk t k pr cs comp) c p l h1 h2 h3 h4 h5]
  cases comp with
  | none =>
    simp only at hfuel
    exact hfirst (by omega)
  | some f =>
    simp only at hfuel
    exact hcomp f rfl pr j (by omega) c p l

/-- On a well-founded tree the walk with fuel returns the result of the walk,
for every fuel from the number of calls on. -/
theorem calculateNodeLayout_completes : ∀ n : Node, CompletesWithin n := by
  apply Node.induct
  intro t k pr cs comp hcs hcomp fuel hfuel c p l
  have hpos : 1 ≤ visitCount (Node.mk t k pr cs comp) := by
    rw [visitCount_mk]; exact Nat.le_add_right 1 _
  cases fuel with
  | zero => omega
  | succ j =>
    rw [toRef_mk, calculateNodeLayoutFuel_succ,
      intrinsicLayoutFuel_eq t k pr cs comp hcs hcomp j hfuel c p l, calculateNodeLayout_eq]
    rfl

theorem Layout.set_length_le (l : Layout) (k : String) (r : Rect) :
    (l.set k r).length ≤ l.length + 1 := by
  unfold Layout.set
  rw [List.length_cons]
  exact Nat.succ_le_succ (List.length_filter_le _ _)

theorem rowLoop_length (cs : List Node) (hcs : ∀ a ∈ cs, EntriesBounded a) (s : ℚ)
    (c : Constraints) (p : Position) :
    ∀ (x m : ℚ) (l : Layout),
      (rowLoop cs s c p x m l).2.2.length ≤ l.length + visitCountAll cs := by
  induction cs with
  | nil => intro x m l; exact Nat.le_add_right _ _
  | cons a as ih =>
    intro x m l
    rw [rowLoop_cons]
    have h1 := ih (fun d hd => hcs d (List.mem_cons_of_mem _ hd))
      (x + ((calculateNodeLayout a
          { MinSize := { Width := 0, Height := 0 },
            MaxSize := { Width := c.MaxSize.Width - (x - p.X), Height := c.MaxSize.Height } }
          { X := x, Y := p.Y } l).1.Width + s))
      (if (calculateNodeLayout a
          { MinSize := { Width := 0, Height := 0 },
            MaxSize := { Width := c.MaxSize.Width - (x - p.X), Height := c.MaxSize.Height } }
          { X := x, Y := p.Y } l).1.Height > m then
          (calculateNodeLayout a
          { MinSize := { Width := 0, Height := 0 },
            MaxSize := { Width := c.MaxSize.Width - (x - p.X), Height := c.MaxSize.Height } }
          { X := x, Y := p.Y } l).1.Height else m)
      (calculateNodeLayout a
          { MinSize := { Width := 0, Height := 0 },
            MaxSize := { Width := c.MaxSize.Width - (x - p.X), Height := c.MaxSize.Height } }
          { X := x, Y := p.Y } l).2
    have h2 := hcs a (List.mem_cons_self _ _)
      { MinSize := { Width := 0, Height := 0 },
        MaxSize := { Width := c.MaxSize.Width - (x - p.X), Height := c.MaxSize.Height } }
      { X := x, Y := p.Y } l
    simp only [visitCountAll]
    omega

theorem columnLoop_length (cs : List Node) (hcs : ∀ a ∈ cs, EntriesBounded a) (s : ℚ)
    (c : Constraints) (p : Position) :
    ∀ (y m : ℚ) (l : Layout),
      (columnLoop cs s c p y m l).2.2.length ≤ l.length + visitCountAll cs := by
  induction cs with
  | nil => intro y m l; exact Nat.le_add_right _ _
  | cons a as ih =>
    intro y m l
    rw [columnLoop_cons]
    have h1 := ih (fun d hd => hcs d (List.mem_cons_of_mem _ hd))
      (y + ((calculateNodeLayout a
          { MinSize := { Width := 0, Height := 0 },
            MaxSize := { Width := c.MaxSize.Width, Height := c.MaxSize.Height - (y - p.Y) } }
          { X := p.X, Y := y } l).1.Height + s))
      (if (calculateNodeLayout a
          { MinSize := { Width := 0, Height := 0 },
            MaxSize := { Width := c.MaxSize.Width, Height := c.MaxSize.Height - (y - p.Y) } }
          { X := p.X, Y := y } l).1.Width > m then
          (calculateNodeLayout a
          { MinSize := { Width := 0, Height := 0 },
            MaxSize := { Width := c.MaxSize.Width, Height := c.MaxSize.Height - (y - p.Y) } }
          { X := p.X, Y := y } l).1.Width else m)
      (calculateNodeLayout a
          { MinSize := { Width := 0, Height := 0 },
            MaxSize := { Width := c.MaxSize.Width, Height := c.MaxSize.Height - (y - p.Y) } }
          { X := p.X, Y := y } l).2
    have h2 := hcs a (List.mem_cons_self _ _)
      { MinSize := { Width := 0, Height := 0 },
        MaxSize := { Width := c.MaxSize.Width, Height := c.MaxSize.Height - (y - p.Y) } }
      { X := p.X, Y := y } l
    simp only [visitCountAll]
    omega

theorem intrinsicLayout_length (t : NodeType) (k : String) (pr : Props) (cs : List Node)
    (comp : Option (Props → Node)) (hcs : ∀ a ∈ cs, EntriesBounded a)
    (hcomp : ∀ f, comp = some f → ∀ q, EntriesBounded (f q))
    (c : Constraints) (p : Position) (l : Layout) :
    (intrinsicLayout (Node.mk t k pr cs comp) c p l).2.length + 1 ≤
      l.length + visitCount (Node.mk t k pr cs comp) := by
  have hfirst : (calculateChildrenLayout (Node.mk t k pr cs comp) c p l).2.length ≤
      l.length + visitCountFirst cs := by
    rw [← childrenLayout_eq]
    cases cs with
    | nil => exact Nat.le_add_right _ _
    | cons a as => exact hcs a (List.mem_cons_self _ _) c p l
  rw [visitCount_mk]
  by_cases h1 : t = TextNodeType
  · rw [intrinsicLayout_text (Node.mk t k pr cs comp) c p l h1, if_pos h1]
  rw [if_neg h1]
  by_cases h2 : t = BoxNodeType
  · rw [intrinsicLayout_box (Node.mk t k pr cs comp) c p l h2, if_pos h2]
    by_cases hsz : pr.GetFloat "width" 0 > 0 ∧ pr.GetFloat "height" 0 > 0
    · simp only [Node.Props, hsz, and_self, if_true]
      omega
    · simp only [Node.Props, hsz, if_false]
      omega
  rw [if_neg h2]
  by_cases h3 : t = RowNodeType
  · rw [intrinsicLayout_row (Node.mk t k pr cs comp) c p l h3, if_pos h3]
    unfold calculateRowLayout
    split_ifs
    · show l.length + 1 ≤ l.length + (1 + visitCountAll cs)
      omega
    · have := rowLoop_length cs hcs (pr.GetFloat "spacing" 0) c p p.X 0 l
      show (rowLoop cs (pr.GetFloat "spacing" 0) c p p.X 0 l).2.2.length + 1 ≤
        l.length + (1 + visitCountAll cs)
      omega
  rw [if_neg h3]
  by_cases h4 : t = ColumnNodeType
  · rw [intrinsicLayout_column (Node.mk t k pr cs comp) c p l h4, if_pos h4]
    unfold calculateColumnLayout
    split_ifs
    · show l.length + 1 ≤ l.length + (1 + visitCountAll cs)
      omega
    · have := columnLoop_length cs hcs (pr.GetFloat "spacing" 0) c p p.Y 0 l
      show (columnLoop cs (pr.GetFloat "spacing" 0) c p p.Y 0 l).2.2.length + 1 ≤
        l.length + (1 + visitCountAll cs)
      omega
  rw [if_neg h4]
  by_cases h5 : t = ContainerNodeType
  · rw [intrinsicLayout_container (Node.mk t k pr cs comp) c p l h5, if_pos h5]
    cases cs with
    | nil =>
      show l.length + 1 ≤ l.length + (1 + visitCountFirst [])
      omega
    | cons a as =>
      have := hcs a (List.mem_cons_self _ _) c p l
      show (calculateNodeLayout a c p l).2.length + 1 ≤ l.length + (1 + visitCount a)
      omega
  rw [if_neg h5, intrinsicLayout_default (Node.mk t k pr cs comp) c p l h1 h2 h3 h4 h5]
  cases comp with
  | none =>
    show (calculateChildrenLayout (Node.mk t k pr cs none) c p l).2.length + 1 ≤
      l.length + (1 + visitCountFirst cs)
    omega
  | some f =>
    have := hcomp f rfl pr c p l
    show (calculateNodeLayout (f pr) c p l).2.length + 1 ≤ l.length + (1 + visitCount (f pr))
    omega

/-- The walk adds at most one entry per call. -/
theorem calculateNodeLayout_length : ∀ n : Node, EntriesBounded n := by
  apply Node.induct
  intro t k pr cs comp hcs hcomp c p l
  rw [calculateNodeLayout_eq]
  have h1 := intrinsicLayout_length t k pr cs comp hcs hcomp c p l
  have h2 := Layout.set_length_le (intrinsicLayout (Node.mk t k pr cs comp) c p l).2
    (Node.mk t k pr cs comp).Key
    { Position := p, Size := c.Constrain (intrinsicLayout (Node.mk t k pr cs comp) c p l).1 }
  show (Layout.set _ _ _).length ≤ _
  omega

/-- Reading the board after a successful write. -/
theorem writeCell_cellAt (buffer b : List (List Char)) (y x : ℤ) (ch : Char)
    (h : writeCell buffer y x ch = some b) (r col : ℤ) :
    cellAt b r col = if r = y ∧ col = x then some ch else cellAt buffer r col := by
  unfold writeCell at h
  by_cases hy : 0 ≤ y ∧ y < (buffer.length : ℤ)
  · rw [if_pos hy] at h
    by_cases hx : 0 ≤ x ∧ x < ((buffer.getD y.toNat []).length : ℤ)
    · rw [if_pos hx] at h
      have hb := (Option.some.inj h).symm
      have hyt : (y.toNat : ℤ) = y := Int.toNat_of_nonneg hy.1
      have hxt : (x.toNat : ℤ) = x := Int.toNat_of_nonneg hx.1
      have hyn : y.toNat < buffer.length := by omega
      have hrow : buffer.getD y.toNat [] = buffer[y.toNat] := List.getD_eq_getElem _ _ hyn
      have hxn : x.toNat < (buffer[y.toNat]).length := by rw [← hrow]; omega
      rw [hrow] at hb
      unfold cellAt
      by_cases hrc : 0 ≤ r ∧ 0 ≤ col
      · have hrt : (r.toNat : ℤ) = r := Int.toNat_of_nonneg hrc.1
        have hct : (col.toNat : ℤ) = col := Int.toNat_of_nonneg hrc.2
        rw [if_pos hrc, if_pos hrc, hb, List.getElem?_set]
        by_cases hry : r = y
        · subst hry
          simp only [true_and, if_true, hyn, Option.some_bind, List.getElem?_set,
            List.getElem?_eq_getElem hyn]
          by_cases hcx : col = x
          · subst hcx
            simp only [if_true, hxn]
          · have hne : ¬ x.toNat = col.toNat := by omega
            simp only [hne, hcx, if_false]
        · have hne : ¬ y.toNat = r.toNat := by omega
          simp only [hne, if_false, hry, false_and]
      · rw [if_neg hrc, if_neg hrc, if_neg]
        intro hh
        exact hrc ⟨by rw [hh.1]; exact hy.1, by rw [hh.2]; exact hx.1⟩
    · rw [if_neg hx] at h
      cases h
  · rw [if_neg hy] at h
    cases h

/-- The loop of `DrawText`: it returns on a board of the declared shape, every
pair whose column is on the board is in its cell afterwards (the offsets being
pairwise different), and the other cells are unchanged. -/
theorem drawChars_cells (pairs : List (ℤ × Char)) (x y width height : ℤ) (hy0 : 0 ≤ y)
    (hy : y < height) :
    ∀ buffer : List (List Char), BufferWF buffer width height →
      pairs.Pairwise (fun a b => a.1 ≠ b.1) →
      ∃ b, drawChars pairs x y width buffer = some b ∧ BufferWF b width height ∧
        (∀ i ch, (i, ch) ∈ pairs → 0 ≤ x + i → x + i < width →
          cellAt b y (x + i) = some ch) ∧
        (∀ r col, (r ≠ y ∨ ∀ i ch, (i, ch) ∈ pairs → col ≠ x + i) →
          cellAt b r col = cellAt buffer r col) := by
  induction pairs with
  | nil =>
    intro buffer hwf _
    exact ⟨buffer, rfl, hwf, fun i ch h => absurd h (List.not_mem_nil _), fun _ _ _ => rfl⟩
  | cons e rest ih =>
    obtain ⟨i0, ch0⟩ := e
    intro buffer hwf hpw
    rw [List.pairwise_cons] at hpw
    by_cases hout : x + i0 < 0 ∨ x + i0 ≥ width
    · obtain ⟨b, hb, hwfb, hcells, hother⟩ := ih buffer hwf hpw.2
      refine ⟨b, ?_, hwfb, ?_, ?_⟩
      · simp only [drawChars, hout, if_true]
        exact hb
      · intro i ch hmem h0 hw
        rcases List.mem_cons.mp hmem with heq | hmem
        · have hi : i = i0 := (Prod.mk.injEq _ _ _ _ ▸ heq : i = i0 ∧ ch = ch0).1
          subst hi
          rcases hout with h | h <;> omega
        · exact hcells i ch hmem h0 hw
      · intro r col hrc
        apply hother r col
        rcases hrc with h | h
        · exact Or.inl h
        · exact Or.inr (fun i ch hmem => h i ch (List.mem_cons_of_mem _ hmem))
    · have hin : 0 ≤ x + i0 ∧ x + i0 < width := by
        constructor
        · by_contra hneg; exact hout (Or.inl (by omega))
        · by_contra hneg; exact hout (Or.inr (by omega))
      obtain ⟨b1, hb1, hwf1⟩ := writeCell_ok buffer width height y (x + i0) ch0 hwf hy0 hy
        hin.1 hin.2
      obtain ⟨b, hb, hwfb, hcells, hother⟩ := ih b1 hwf1 hpw.2
      refine ⟨b, ?_, hwfb, ?_, ?_⟩
      · simp only [drawChars, hout, if_false, hb1, Option.some_bind]
        exact hb
      · intro i ch hmem h0 hw
        rcases List.mem_cons.mp hmem with heq | hmem
        · have hic : i = i0 ∧ ch = ch0 := by
            rw [Prod.mk.injEq] at heq
            exact heq
          rw [hic.1, hic.2]
          rw [hother y (x + i0) (Or.inr (fun j cj hj hcol => hpw.1 (j, cj) hj (by
            show i0 = j
            omega))),
            writeCell_cellAt buffer b1 y (x + i0) ch0 hb1, if_pos ⟨rfl, rfl⟩]
        · exact hcells i ch hmem h0 hw
      · intro r col hrc
        have hrest : r ≠ y ∨ ∀ i ch, (i, ch) ∈ rest → col ≠ x + i := by
          rcases hrc with h | h
          · exact Or.inl h
          · exact Or.inr (fun i ch hmem => h i ch (List.mem_cons_of_mem _ hmem))
        rw [hother r col hrest, writeCell_cellAt buffer b1 y (x + i0) ch0 hb1, if_neg]
        intro hh
        rcases hrc with h | h
        · exact h hh.1
        · exact h i0 ch0 (List.mem_cons_self _ _) hh.2

/-- The byte offsets of `range text` start at the given offset and increase
strictly. -/
theorem rangeStringFrom_offsets (cs : List Char) :
    ∀ off : ℕ, (∀ e ∈ rangeStringFrom cs off, (off : ℤ) ≤ e.1) ∧
      (rangeStringFrom cs off).Pairwise (fun a b => a.1 < b.1) := by
  induction cs with
  | nil => intro off; exact ⟨fun e h => absurd h (List.not_mem_nil _), List.Pairwise.nil⟩
  | cons ch rest ih =>
    intro off
    obtain ⟨h1, h2⟩ := ih (off + ch.utf8Size)
    have hpos := Char.utf8Size_pos ch
    constructor
    · intro e he
      simp only [rangeStringFrom] at he
      rcases List.mem_cons.mp he with rfl | he
      · exact le_refl _
      · have := h1 e he
        push_cast at this
        omega
    · simp only [rangeStringFrom]
      rw [List.pairwise_cons]
      refine ⟨?_, h2⟩
      intro e he
      have := h1 e he
      push_cast at this
      show (off : ℤ) < e.1
      omega

theorem rangeString_offsets_ne (text : String) :
    (rangeString text).Pairwise (fun a b => a.1 ≠ b.1) :=
  ((rangeStringFrom_offsets text.data 0).2).imp (fun h => ne_of_lt h)

/-- What `DrawText` does on a board of the declared shape when the truncated y
is a row of the board: every character of `range text` whose column x + (byte
offset) is on the board is in that cell afterwards, and every other cell is
unchanged. -/
theorem DrawText_cells (c : ConsoleRenderTarget) (text : String) (rect : Rect)
    (props : Props) (hwf : BufferWF c.buffer c.width c.height)
    (hy0 : 0 ≤ truncInt rect.Position.Y) (hy : truncInt rect.Position.Y < c.height) :
    ∃ c2, c.DrawText text rect props = some c2 ∧ c2.width = c.width ∧
      c2.height = c.height ∧ BufferWF c2.buffer c.width c.height ∧
      (∀ i ch, (i, ch) ∈ rangeString text → 0 ≤ truncInt rect.Position.X + i →
        truncInt rect.Position.X + i < c.width →
        cellAt c2.buffer (truncInt rect.Position.Y) (truncInt rect.Position.X + i) =
          some ch) ∧
      (∀ r col, (r ≠ truncInt rect.Position.Y ∨
          ∀ i ch, (i, ch) ∈ rangeString text → col ≠ truncInt rect.Position.X + i) →
        cellAt c2.buffer r col = cellAt c.buffer r col) := by
  obtain ⟨b, hb, hwfb, hcells, hother⟩ := drawChars_cells (rangeString text)
    (truncInt rect.Position.X) (truncInt rect.Position.Y) c.width c.height hy0 hy c.buffer hwf
    (rangeString_offsets_ne text)
  refine ⟨{ c with buffer := b }, ?_, rfl, rfl, hwfb, hcells, hother⟩
  unfold ConsoleRenderTarget.DrawText
  have hcond : ¬ (truncInt rect.Position.Y < 0 ∨ truncInt rect.Position.Y ≥ c.height) := by
    intro h
    rcases h with h | h <;> omega
  simp only [hcond, if_false, hb, Option.some_bind]

theorem rangeStringFrom_single (cs : List Char) (h1 : ∀ ch ∈ cs, ch.utf8Size = 1) :
    ∀ (off : ℕ) (i : ℤ) (ch : Char),
      (i, ch) ∈ rangeStringFrom cs off ↔ ∃ n : ℕ, cs[n]? = some ch ∧ i = (off : ℤ) + n := by
  induction cs with
  | nil => intro off i ch; simp [rangeStringFrom]
  | cons a rest ih =>
    intro off i ch
    have ha : a.utf8Size = 1 := h1 a (List.mem_cons_self _ _)
    have ih2 := ih (fun d hd => h1 d (List.mem_cons_of_mem _ hd)) (off + 1) i ch
    simp only [rangeStringFrom, ha, List.mem_cons, Prod.mk.injEq]
    rw [ih2]
    constructor
    · rintro (⟨hi, hc⟩ | ⟨n, hn, hi⟩)
      · exact ⟨0, by simp [hc], by simp [hi]⟩
      · exact ⟨n + 1, by simpa using hn, by push_cast at hi ⊢; omega⟩
    · rintro ⟨n, hn, hi⟩
      cases n with
      | zero =>
        left
        simp only [List.getElem?_cons_zero, Option.some.injEq] at hn
        exact ⟨by simpa using hi, hn.symm⟩
      | succ m =>
        right
        simp only [List.getElem?_cons_succ] at hn
        exact ⟨m, hn, by push_cast at hi ⊢; omega⟩

/-- For a text of single-byte characters c_0 .. c_(n-1), `DrawText` puts c_i
into the cell (y, x+i) for every i with 0 <= x+i < W and leaves every other
cell unchanged. -/
theorem DrawText_single_byte (c : ConsoleRenderTarget) (text : String) (rect : Rect)
    (props : Props) (hwf : BufferWF c.buffer c.width c.height)
    (hy0 : 0 ≤ truncInt rect.Position.Y) (hy : truncInt rect.Position.Y < c.height)
    (hbytes : ∀ ch ∈ text.data, ch.utf8Size = 1) :
    ∃ c2, c.DrawText text rect props = some c2 ∧ c2.width = c.width ∧
      c2.height = c.height ∧
      (∀ (i : ℕ) (ch : Char), text.data[i]? = some ch →
        0 ≤ truncInt rect.Position.X + i → truncInt rect.Position.X + i < c.width →
        cellAt c2.buffer (truncInt rect.Position.Y) (truncInt rect.Position.X + i) =
          some ch) ∧
      (∀ r col, (r ≠ truncInt rect.Position.Y ∨
          ∀ i : ℕ, i < text.data.length → col ≠ truncInt rect.Position.X + i) →
        cellAt c2.buffer r col = cellAt c.buffer r col) := by
  obtain ⟨c2, h1, h2, h3, _, hcells, hother⟩ := DrawText_cells c text rect props hwf hy0 hy
  refine ⟨c2, h1, h2, h3, ?_, ?_⟩
  · intro i ch hi h0 hw
    apply hcells (i : ℤ) ch _ h0 hw
    exact (rangeStringFrom_single text.data hbytes 0 i ch).mpr ⟨i, hi, by simp⟩
  · intro r col hrc
    apply hother r col
    rcases hrc with h | h
    · exact Or.inl h
    · right
      intro j ch hmem
      obtain ⟨n, hn, hj⟩ := (rangeStringFrom_single text.data hbytes 0 j ch).mp hmem
      have hlt : n < text.data.length := by
        rcases List.getElem?_eq_some.mp hn with ⟨hlt, _⟩
        exact hlt
      have := h n hlt
      rw [hj]
      simpa using this

theorem walkConstraints_eq (node : Node) (c : Constraints) (p : Position) :
    walkConstraints node c p =
      c :: (if node.Type_ = TextNodeType then []
      else if node.Type_ = BoxNodeType then
        if node.Props.GetFloat "width" 0 > 0 ∧ node.Props.GetFloat "height" 0 > 0 then []
        else firstConstraints node.Children c p
      else if node.Type_ = RowNodeType then
        rowConstraints node.Children (node.Props.GetFloat "spacing" 0) c p p.X
      else if node.Type_ = ColumnNodeType then
        columnConstraints node.Children (node.Props.GetFloat "spacing" 0) c p p.Y
      else if node.Type_ = ContainerNodeType then firstConstraints node.Children c p
      else
        match node.Component with
        | some render => walkConstraints (render node.Props) c p
        | none => firstConstraints node.Children c p) := by
  cases node with
  | mk t k pr cs comp =>
    cases cs <;> cases comp <;> rfl

theorem rowConstraints_cons (child : Node) (rest : List Node) (s : ℚ) (c : Constraints)
    (p : Position) (x : ℚ) :
    rowConstraints (child :: rest) s c p x =
      walkConstraints child (rowChildConstraints c p x) { X := x, Y := p.Y } ++
        rowConstraints rest s c p
          (x + ((calculateNodeLayout child (rowChildConstraints c p x)
            { X := x, Y := p.Y } []).1.Width + s)) := rfl

theorem columnConstraints_cons (child : Node) (rest : List Node) (s : ℚ) (c : Constraints)
    (p : Position) (y : ℚ) :
    columnConstraints (child :: rest) s c p y =
      walkConstraints child (columnChildConstraints c p y) { X := p.X, Y := y } ++
        columnConstraints rest s c p
          (y + ((calculateNodeLayout child (columnChildConstraints c p y)
            { X := p.X, Y := y } []).1.Height + s)) := rfl

theorem firstConstraints_cons (child : Node) (rest : List Node) (c : Constraints)
    (p : Position) :
    firstConstraints (child :: rest) c p = walkConstraints child c p := rfl

theorem rowLoop_nonneg (cs : List Node) (hcs : ∀ a ∈ cs, NonnegWalk a) (s : ℚ)
    (c : Constraints) (p : Position) :
    ∀ (x m : ℚ) (l : Layout),
      (∀ cc ∈ rowConstraints cs s c p x, 0 ≤ cc.MaxSize.Width ∧ 0 ≤ cc.MaxSize.Height) →
      (∀ k r, l.get k = some r → 0 ≤ r.Size.Width ∧ 0 ≤ r.Size.Height) →
      ∀ k r, (rowLoop cs s c p x m l).2.2.get k = some r →
        0 ≤ r.Size.Width ∧ 0 ≤ r.Size.Height := by
  induction cs with
  | nil => intro x m l _ hl k r h; exact hl k r h
  | cons a as ih =>
    intro x m l hb hl
    rw [rowLoop_cons_child]
    rw [rowConstraints_cons] at hb
    apply ih (fun d hd => hcs d (List.mem_cons_of_mem _ hd))
    · intro cc hcc
      apply hb cc
      rw [calculateNodeLayout_size_indep a _ _ l []] at hcc
      exact List.mem_append_right _ hcc
    · exact hcs a (List.mem_cons_self _ _) _ _ _
        (fun cc hcc => hb cc (List.mem_append_left _ hcc)) (le_refl _) (le_refl _) hl

theorem columnLoop_nonneg (cs : List Node) (hcs : ∀ a ∈ cs, NonnegWalk a) (s : ℚ)
    (c : Constraints) (p : Position) :
    ∀ (y m : ℚ) (l : Layout),
      (∀ cc ∈ columnConstraints cs s c p y, 0 ≤ cc.MaxSize.Width ∧ 0 ≤ cc.MaxSize.Height) →
      (∀ k r, l.get k = some r → 0 ≤ r.Size.Width ∧ 0 ≤ r.Size.Height) →
      ∀ k r, (columnLoop cs s c p y m l).2.2.get k = some r →
        0 ≤ r.Size.Width ∧ 0 ≤ r.Size.Height := by
  induction cs with
  | nil => intro y m l _ hl k r h; exact hl k r h
  | cons a as ih =>
    intro y m l hb hl
    rw [columnLoop_cons_child]
    rw [columnConstraints_cons] at hb
    apply ih (fun d hd => hcs d (List.mem_cons_of_mem _ hd))
    · intro cc hcc
      apply hb cc
      rw [calculateNodeLayout_size_indep a _ _ l []] at hcc
      exact List.mem_append_right _ hcc
    · exact hcs a (List.mem_cons_self _ _) _ _ _
        (fun cc hcc => hb cc (List.mem_append_left _ hcc)) (le_refl _) (le_refl _) hl

theorem intrinsicLayout_nonneg (node : Node) (hcs : ∀ a ∈ node.Children, NonnegWalk a)
    (hcomp : ∀ f, node.Component = some f → ∀ q, NonnegWalk (f q))
    (c : Constraints) (p : Position) (l : Layout)
    (hb : ∀ cc ∈ walkConstraints node c p, 0 ≤ cc.MaxSize.Width ∧ 0 ≤ cc.MaxSize.Height)
    (h1 : 0 ≤ c.MinSize.Width) (h2 : 0 ≤ c.MinSize.Height)
    (hl : ∀ k r, l.get k = some r → 0 ≤ r.Size.Width ∧ 0 ≤ r.Size.Height) :
    ∀ k r, (intrinsicLayout node c p l).2.get k = some r →
      0 ≤ r.Size.Width ∧ 0 ≤ r.Size.Height := by
  rw [walkConstraints_eq] at hb
  have hfirst : (∀ cc ∈ firstConstraints node.Children c p,
        0 ≤ cc.MaxSize.Width ∧ 0 ≤ cc.MaxSize.Height) →
      ∀ k r, (calculateChildrenLayout node c p l).2.get k = some r →
        0 ≤ r.Size.Width ∧ 0 ≤ r.Size.Height := by
    intro hf
    rw [← childrenLayout_eq]
    cases hch : node.Children with
    | nil => exact hl
    | cons a as =>
      have ha : a ∈ node.Children := by rw [hch]; exact List.mem_cons_self _ _
      rw [hch, firstConstraints_cons] at hf
      exact hcs a ha c p l hf h1 h2 hl
  by_cases t1 : node.Type_ = TextNodeType
  · rw [intrinsicLayout_text node c p l t1]; exact hl
  by_cases t2 : node.Type_ = BoxNodeType
  · rw [intrinsicLayout_box node c p l t2]
    by_cases hsz : node.Props.GetFloat "width" 0 > 0 ∧ node.Props.GetFloat "height" 0 > 0
    · simp only [hsz, and_self, if_true]; exact hl
    · simp only [hsz, if_false]
      simp only [t1, t2, hsz, if_false, if_true] at hb
      exact hfirst (fun cc hcc => hb cc (List.mem_cons_of_mem _ hcc))
  by_cases t3 : node.Type_ = RowNodeType
  · rw [intrinsicLayout_row node c p l t3]
    simp only [t1, t2, t3, if_false, if_true] at hb
    unfold calculateRowLayout
    split_ifs
    · exact hl
    · exact rowLoop_nonneg _ hcs _ c p _ _ l
        (fun cc hcc => hb cc (List.mem_cons_of_mem _ hcc)) hl
  by_cases t4 : node.Type_ = ColumnNodeType
  · rw [intrinsicLayout_column node c p l t4]
    simp only [t1, t2, t3, t4, if_false, if_true] at hb
    unfold calculateColumnLayout
    split_ifs
    · exact hl
    · exact columnLoop_nonneg _ hcs _ c p _ _ l
        (fun cc hcc => hb cc (List.mem_cons_of_mem _ hcc)) hl
  by_cases t5 : node.Type_ = ContainerNodeType
  · rw [intrinsicLayout_container node c p l t5]
    simp only [t1, t2, t3, t4, t5, if_false, if_true] at hb
    cases hch : node.Children with
    | nil => exact hl
    | cons a as =>
      have ha : a ∈ node.Children := by rw [hch]; exact List.mem_cons_self _ _
      rw [hch, firstConstraints_cons] at hb
      exact hcs a ha c p l (fun cc hcc => hb cc (List.mem_cons_of_mem _ hcc)) h1 h2 hl
  · rw [intrinsicLayout_default node c p l t1 t2 t3 t4 t5]
    simp only [t1, t2, t3, t4, t5, if_false] at hb
    cases hco : node.Component with
    | none =>
      rw [hco] at hb
      exact hfirst (fun cc hcc => hb cc (List.mem_cons_of_mem _ hcc))
    | some f =>
      rw [hco] at hb
      exact hcomp f hco _ c p l (fun cc hcc => hb cc (List.mem_cons_of_mem _ hcc)) h1 h2 hl

/-- Without a budget overrun, every rectangle the walk records has a
non-negative size. -/
theorem calculateNodeLayout_nonneg : ∀ n : Node, NonnegWalk n := by
  apply Node.induct
  intro t k pr cs comp hcs hcomp c p l hb h1 h2 hl k2 r h
  rw [calculateNodeLayout_eq, Layout.get_set] at h
  split_ifs at h
  · rw [← Option.some.inj h]
    have hc := hb c (by rw [walkConstraints_eq]; exact List.mem_cons_self _ _)
    exact Constrain_nonneg c _ h1 h2 hc.1 hc.2
  · exact intrinsicLayout_nonneg (Node.mk t k pr cs comp) hcs hcomp c p l hb h1 h2 hl k2 r h

/-- A call whose constraint has a negative maximum width (height) over a
non-negative minimum records the node with that negative width (height): the
maximum wins in `Constrain`. -/
theorem negative_budget_recorded (node : Node) (c : Constraints) (p : Position)
    (l : Layout) :
    (0 ≤ c.MinSize.Width → c.MaxSize.Width < 0 →
      ∃ r : Rect, (calculateNodeLayout node c p l).2.get node.Key = some r ∧
        r.Position = p ∧ r.Size.Width = c.MaxSize.Width) ∧
    (0 ≤ c.MinSize.Height → c.MaxSize.Height < 0 →
      ∃ r : Rect, (calculateNodeLayout node c p l).2.get node.Key = some r ∧
        r.Position = p ∧ r.Size.Height = c.MaxSize.Height) := by
  constructor
  · intro h1 h2
    refine ⟨_, calculateNodeLayout_records node c p l, rfl, ?_⟩
    rw [calculateNodeLayout_size]
    exact Constrain_width_eq_max c _ (lt_of_lt_of_le h2 h1)
  · intro h1 h2
    refine ⟨_, calculateNodeLayout_records node c p l, rfl, ?_⟩
    rw [calculateNodeLayout_size]
    exact Constrain_height_eq_max c _ (lt_of_lt_of_le h2 h1)

/-- A Text node hands down its own constraint only. -/
theorem walkConstraints_text (node : Node) (c : Constraints) (p : Position)
    (h : node.Type_ = TextNodeType) : walkConstraints node c p = [c] := by
  rw [walkConstraints_eq]
  simp only [h, if_true]

/-- The constraints handed down in the scenario of the specification under
maximum (100,100): the root's, the title's, and (100,75) for the box and its
text. -/
theorem scenario_walkConstraints :
    walkConstraints scenarioRoot (NewConstraints 0 0 100 100) { X := 0, Y := 0 } =
      [NewConstraints 0 0 100 100, NewConstraints 0 0 100 100, NewConstraints 0 0 100 75,
        NewConstraints 0 0 100 75] := by
  have hbox : ∀ (c : Constraints) (p : Position), walkConstraints scenarioBox c p = [c, c] := by
    intro c p
    have hw : scenarioBox.Props.GetFloat "width" 0 = 0 := rfl
    have hch : scenarioBox.Children = [scenarioText] := rfl
    have ht : scenarioBox.Type_ = BoxNodeType := rfl
    have hn : ¬ (BoxNodeType = TextNodeType) := by decide
    rw [walkConstraints_eq, ht, hw, hch, firstConstraints_cons,
      walkConstraints_text scenarioText c p rfl]
    simp [hn]
  have hs : scenarioRoot.Props.GetFloat "spacing" 0 = 1 := rfl
  have hc : scenarioRoot.Children = [scenarioTitle, scenarioBox] := rfl
  have ht : scenarioRoot.Type_ = ColumnNodeType := rfl
  have hn1 : ¬ (ColumnNodeType = TextNodeType) := by decide
  have hn2 : ¬ (ColumnNodeType = BoxNodeType) := by decide
  have hn3 : ¬ (ColumnNodeType = RowNodeType) := by decide
  rw [walkConstraints_eq, ht, hs, hc]
  simp only [hn1, hn2, hn3, if_false, if_true, columnConstraints_cons, hbox,
    walkConstraints_text scenarioTitle _ _ rfl, scenarioTitle_layout, columnConstraints]
  norm_num [Constraints.Constrain, NewConstraints, columnChildConstraints]

/-- The title of main.go has intrinsic size (288,24). -/
theorem buildUI_title_size (c : Constraints) (p : Position) (l : Layout) :
    (calculateNodeLayout buildUI.title c p l).1 =
      c.Constrain { Width := 288, Height := 24 } := by
  have hlen : ("カウンターアプリ" : String).utf8ByteSize = 24 := by decide
  have h1 : buildUI.title.Props.GetString "text" "" = "カウンターアプリ" := rfl
  have h2 : buildUI.title.Props.GetFloat "fontSize" 16 = 20 := rfl
  rw [calculateNodeLayout_size, intrinsicLayout_text buildUI.title c p l rfl, h1, h2, hlen]
  norm_num

/-- The tree of main.go overruns its budget: under maximum (80,20) the title
(24 high, clamped to 20) and the spacing 1 move the cursor to 21, the counter
box gets maximum height -1 and height -1, and the row of buttons is recorded at
(0,21) with height -1, whatever the counter value. -/
theorem buildUI_buttons_negative_height (counterValue : ℤ) :
    ∃ r : Rect, (CalculateLayout (buildUI counterValue) (NewConstraints 0 0 80 20)).get
        "buttons" = some r ∧
      r.Position = { X := 0, Y := 21 } ∧ r.Size.Height = -1 := by
  have hch : (buildUI counterValue).Children =
      [buildUI.title, buildUI.counterBox counterValue, buildUI.buttons] := rfl
  have hs : (buildUI counterValue).Props.GetFloat "spacing" 0 = 1 := rfl
  have hstep : ∀ (a : Node) (rest : List Node) (s : ℚ) (c : Constraints) (p : Position)
      (y : ℚ) (l : Layout),
      columnCalls (a :: rest) s c p y l =
        { constraints := columnChildConstraints c p y, position := { X := p.X, Y := y },
          size := (calculateNodeLayout a (columnChildConstraints c p y)
            { X := p.X, Y := y } l).1 } ::
          columnCalls rest s c p
            (y + ((calculateNodeLayout a (columnChildConstraints c p y)
              { X := p.X, Y := y } l).1.Height + s))
            (calculateNodeLayout a (columnChildConstraints c p y) { X := p.X, Y := y } l).2 :=
    fun _ _ _ _ _ _ _ => rfl
  have hc0 : columnChildConstraints (NewConstraints 0 0 80 20) { X := 0, Y := 0 } 0 =
      NewConstraints 0 0 80 20 := by
    norm_num [columnChildConstraints, NewConstraints]
  have e0 : (NewConstraints 0 0 80 20).Constrain { Width := 288, Height := 24 } =
      { Width := 80, Height := 20 } := by
    norm_num [Constraints.Constrain, NewConstraints]
  have hc1 : columnChildConstraints (NewConstraints 0 0 80 20) { X := 0, Y := 0 }
      (0 + (20 + 1)) = NewConstraints 0 0 80 (-1) := by
    norm_num [columnChildConstraints, NewConstraints]
  have hbox : ∀ (p : Position) (l : Layout),
      (calculateNodeLayout (buildUI.counterBox counterValue) (NewConstraints 0 0 80 (-1))
        p l).1.Height = -1 := by
    intro p l
    rw [calculateNodeLayout_size]
    exact Constrain_height_eq_max (NewConstraints 0 0 80 (-1)) _
      (by norm_num [NewConstraints])
  have hc2 : columnChildConstraints (NewConstraints 0 0 80 20) { X := 0, Y := 0 }
      (0 + (20 + 1) + (-1 + 1)) = NewConstraints 0 0 80 (-1) := by
    norm_num [columnChildConstraints, NewConstraints]
  have hrow : ∀ (p : Position) (l : Layout),
      (calculateNodeLayout buildUI.buttons (NewConstraints 0 0 80 (-1)) p l).1.Height = -1 := by
    intro p l
    rw [calculateNodeLayout_size]
    exact Constrain_height_eq_max (NewConstraints 0 0 80 (-1)) _
      (by norm_num [NewConstraints])
  obtain ⟨call, hcall, hpos, hh⟩ : ∃ call : ChildCall,
      (columnCalls (buildUI counterValue).Children
        ((buildUI counterValue).Props.GetFloat "spacing" 0) (NewConstraints 0 0 80 20)
        { X := 0, Y := 0 } ({ X := 0, Y := 0 } : Position).Y [])[2]? = some call ∧
      call.position = { X := 0, Y := 21 } ∧ call.size.Height = -1 := by
    rw [hch, hs]
    show ∃ call : ChildCall,
      (columnCalls [buildUI.title, buildUI.counterBox counterValue, buildUI.buttons] 1
        (NewConstraints 0 0 80 20) { X := 0, Y := 0 } 0 [])[2]? = some call ∧
      call.position = { X := 0, Y := 21 } ∧ call.size.Height = -1
    rw [hstep, hc0, buildUI_title_size, e0, hstep, hc1, hbox, hstep, hc2]
    simp only [List.getElem?_cons_succ, List.getElem?_cons_zero]
    refine ⟨_, rfl, ?_, ?_⟩
    · norm_num
    · exact hrow _ _
  have hkey : buildUI.buttons.Key = "buttons" := rfl
  rw [← hkey]
  refine ⟨_, column_child_entry (buildUI counterValue) (NewConstraints 0 0 80 20)
    { X := 0, Y := 0 } [] rfl 2 buildUI.buttons call (by rw [hch]; rfl) hcall ?_
    (by rw [hkey]; show "root" ≠ "buttons"; decide), hpos, hh⟩
  intro b hb
  rw [hch] at hb
  simp at hb

/-- The constraint of every call of the row loop is among the constraints
`rowConstraints` lists. -/
theorem rowCalls_constraints_mem (cs : List Node) (s : ℚ) (c : Constraints) (p : Position) :
    ∀ (x : ℚ) (l : Layout), ∀ call ∈ rowCalls cs s c p x l,
      call.constraints ∈ rowConstraints cs s c p x := by
  induction cs with
  | nil => intro x l call h; simp [rowCalls] at h
  | cons a as ih =>
    intro x l call h
    rw [rowConstraints_cons]
    have hstep : rowCalls (a :: as) s c p x l =
        { constraints := rowChildConstraints c p x, position := { X := x, Y := p.Y },
          size := (calculateNodeLayout a (rowChildConstraints c p x)
            { X := x, Y := p.Y } l).1 } ::
          rowCalls as s c p
            (x + ((calculateNodeLayout a (rowChildConstraints c p x)
              { X := x, Y := p.Y } l).1.Width + s))
            (calculateNodeLayout a (rowChildConstraints c p x) { X := x, Y := p.Y } l).2 :=
      rfl
    rw [hstep] at h
    rcases List.mem_cons.mp h with h | h
    · rw [h]
      apply List.mem_append_left
      rw [walkConstraints_eq]
      exact List.mem_cons_self _ _
    · apply List.mem_append_right
      have := ih _ _ call h
      rw [calculateNodeLayout_size_indep a _ _ l []] at this
      exact this

/-- The constraint of every call of the column loop is among the constraints
`columnConstraints` lists. -/
theorem columnCalls_constraints_mem (cs : List Node) (s : ℚ) (c : Constraints)
    (p : Position) :
    ∀ (y : ℚ) (l : Layout), ∀ call ∈ columnCalls cs s c p y l,
      call.constraints ∈ columnConstraints cs s c p y := by
  induction cs with
  | nil => intro y l call h; simp [columnCalls] at h
  | cons a as ih =>
    intro y l call h
    rw [columnConstraints_cons]
    have hstep : columnCalls (a :: as) s c p y l =
        { constraints := columnChildConstraints c p y, position := { X := p.X, Y := y },
          size := (calculateNodeLayout a (columnChildConstraints c p y)
            { X := p.X, Y := y } l).1 } ::
          columnCalls as s c p
            (y + ((calculateNodeLayout a (columnChildConstraints c p y)
              { X := p.X, Y := y } l).1.Height + s))
            (calculateNodeLayout a (columnChildConstraints c p y) { X := p.X, Y := y } l).2 :=
      rfl
    rw [hstep] at h
    rcases List.mem_cons.mp h with h | h
    · rw [h]
      apply List.mem_append_left
      rw [walkConstraints_eq]
      exact List.mem_cons_self _ _
    · apply List.mem_append_right
      have := ih _ _ call h
      rw [calculateNodeLayout_size_indep a _ _ l []] at this
      exact this

/-! ## Claims -/

/-- Claim C3. Under a constraint whose minimum does not exceed its maximum on
either axis, `Constrain` returns a width between the minimum and maximum width
and a height between the minimum and maximum height; the resulting width is a
function of the three widths alone and the resulting height of the three
heights alone. -/
theorem Constrain_within_bounds (c : Constraints) (s : Size)
    (hw : c.MinSize.Width ≤ c.MaxSize.Width) (hh : c.MinSize.Height ≤ c.MaxSize.Height) :
    (c.MinSize.Width ≤ (c.Constrain s).Width ∧ (c.Constrain s).Width ≤ c.MaxSize.Width) ∧
    (c.MinSize.Height ≤ (c.Constrain s).Height ∧ (c.Constrain s).Height ≤ c.MaxSize.Height) ∧
    (∀ (c2 : Constraints) (s2 : Size), c2.MinSize.Width = c.MinSize.Width →
      c2.MaxSize.Width = c.MaxSize.Width → s2.Width = s.Width →
      (c2.Constrain s2).Width = (c.Constrain s).Width) ∧
    (∀ (c2 : Constraints) (s2 : Size), c2.MinSize.Height = c.MinSize.Height →
      c2.MaxSize.Height = c.MaxSize.Height → s2.Height = s.Height →
      (c2.Constrain s2).Height = (c.Constrain s).Height) := by
  refine ⟨Constrain_width_bounds c s hw, Constrain_height_bounds c s hh, ?_, ?_⟩
  · intro c2 s2 h1 h2 h3
    simp only [Constraints.Constrain, h1, h2, h3]
  · intro c2 s2 h1 h2 h3
    simp only [Constraints.Constrain, h1, h2, h3]

theorem Constrain_within_bounds_witness :
    (NewConstraints 0 0 10 10).MinSize.Width ≤ (NewConstraints 0 0 10 10).MaxSize.Width ∧
    (NewConstraints 0 0 10 10).MinSize.Height ≤ (NewConstraints 0 0 10 10).MaxSize.Height ∧
    (NewConstraints 0 0 10 10).MinSize.Width ≤
      ((NewConstraints 0 0 10 10).Constrain { Width := 25, Height := -3 }).Width ∧
    ((NewConstraints 0 0 10 10).Constrain { Width := 25, Height := -3 }).Width ≤
      (NewConstraints 0 0 10 10).MaxSize.Width :=
  ⟨by norm_num [NewConstraints], by norm_num [NewConstraints],
    (Constrain_within_bounds (NewConstraints 0 0 10 10) { Width := 25, Height := -3 }
      (by norm_num [NewConstraints]) (by norm_num [NewConstraints])).1⟩

/-- Claim C4. On an axis where the minimum exceeds the maximum, `Constrain`
returns the maximum of that axis, whatever the size is. -/
theorem Constrain_max_wins (c : Constraints) (s : Size) :
    (c.MinSize.Width > c.MaxSize.Width → (c.Constrain s).Width = c.MaxSize.Width) ∧
    (c.MinSize.Height > c.MaxSize.Height → (c.Constrain s).Height = c.MaxSize.Height) := by
  constructor
  · intro h
    simp only [Constraints.Constrain]
    split_ifs <;> first | rfl | (exfalso; linarith)
  · intro h
    simp only [Constraints.Constrain]
    split_ifs <;> first | rfl | (exfalso; linarith)

theorem Constrain_max_wins_witness :
    (NewConstraints 8 0 5 9).MinSize.Width > (NewConstraints 8 0 5 9).MaxSize.Width ∧
    ((NewConstraints 8 0 5 9).Constrain { Width := 2, Height := 2 }).Width =
      (NewConstraints 8 0 5 9).MaxSize.Width :=
  ⟨by norm_num [NewConstraints],
    (Constrain_max_wins (NewConstraints 8 0 5 9) { Width := 2, Height := 2 }).1
      (by norm_num [NewConstraints])⟩

/-- Claim C5. A Text node whose "text" property is the string `text` and whose
fontSize is F (the stored "fontSize" property when it is the float F or the
integer F, and 16 when the property is absent), laid out under a constraint at
a position, has intrinsic size (len(text) * F * 0.6, F * 1.2), and the
rectangle recorded under its key is the position with the clamp of that
size. -/
theorem text_node_rect (node : Node) (c : Constraints) (p : Position) (l : Layout)
    (text : String) (F : ℚ) (ht : node.Type_ = TextNodeType)
    (htext : node.Props.Get "text" = some (Value.str text))
    (hF : node.Props.Get "fontSize" = some (Value.float F) ∨
      (∃ n : ℤ, node.Props.Get "fontSize" = some (Value.int n) ∧ F = (n : ℚ)) ∨
      (node.Props.Get "fontSize" = none ∧ F = 16)) :
    (intrinsicLayout node c p l).1 =
      { Width := (text.utf8ByteSize : ℚ) * F * (6 / 10), Height := F * (12 / 10) } ∧
    (calculateNodeLayout node c p l).2.get node.Key =
      some { Position := p,
             Size := c.Constrain
              { Width := (text.utf8ByteSize : ℚ) * F * (6 / 10),
                Height := F * (12 / 10) } } := by
  have hg : node.Props.GetFloat "fontSize" 16 = F := by
    rcases hF with h | ⟨n, h, rfl⟩ | ⟨h, rfl⟩
    · simp only [Props.GetFloat, h]
    · simp only [Props.GetFloat, h]
    · simp only [Props.GetFloat, h]
  have hi : (intrinsicLayout node c p l).1 =
      { Width := (text.utf8ByteSize : ℚ) * F * (6 / 10), Height := F * (12 / 10) } := by
    simp only [intrinsicLayout, ht, if_true, Props.GetString, htext, hg]
  refine ⟨hi, ?_⟩
  rw [calculateNodeLayout_records, calculateNodeLayout_size, hi]

theorem text_node_rect_witness :
    textAB.Type_ = TextNodeType ∧ textAB.Props.Get "text" = some (Value.str "AB") ∧
    textAB.Props.Get "fontSize" = some (Value.float 10) ∧
    ("AB" : String).utf8ByteSize = 2 ∧
    (calculateNodeLayout textAB (NewConstraints 0 0 100 100) { X := 3, Y := 4 } []).2.get "t" =
      some { Position := { X := 3, Y := 4 }, Size := { Width := 12, Height := 12 } } ∧
    (calculateNodeLayout textAB (NewConstraints 0 0 5 100) { X := 3, Y := 4 } []).2.get "t" =
      some { Position := { X := 3, Y := 4 }, Size := { Width := 5, Height := 12 } } ∧
    textC.Type_ = TextNodeType ∧ textC.Props.Get "text" = some (Value.str "C") ∧
    textC.Props.Get "fontSize" = none ∧
    (calculateNodeLayout textC (NewConstraints 0 0 100 100) { X := 3, Y := 4 } []).2.get "u" =
      some { Position := { X := 3, Y := 4 },
             Size := { Width := 48 / 5, Height := 96 / 5 } } := by
  have h2 : ("AB" : String).utf8ByteSize = 2 := by decide
  have h1 : ("C" : String).utf8ByteSize = 1 := by decide
  have hk : textAB.Key = "t" := rfl
  have hu : textC.Key = "u" := rfl
  refine ⟨rfl, rfl, rfl, h2, ?_, ?_, rfl, rfl, rfl, ?_⟩
  · have h := (text_node_rect textAB (NewConstraints 0 0 100 100) { X := 3, Y := 4 } [] "AB" 10
      rfl rfl (Or.inl rfl)).2
    rw [h2, hk] at h
    rw [h]
    norm_num [Constraints.Constrain, NewConstraints]
  · have h := (text_node_rect textAB (NewConstraints 0 0 5 100) { X := 3, Y := 4 } [] "AB" 10
      rfl rfl (Or.inl rfl)).2
    rw [h2, hk] at h
    rw [h]
    norm_num [Constraints.Constrain, NewConstraints]
  · have h := (text_node_rect textC (NewConstraints 0 0 100 100) { X := 3, Y := 4 } [] "C" 16
      rfl rfl (Or.inr (Or.inr ⟨rfl, rfl⟩))).2
    rw [h1, hu] at h
    rw [h]
    norm_num [Constraints.Constrain, NewConstraints]

/-- Claim C8. A Row, Column or Container node without children has intrinsic
size (0,0) whatever its spacing property is (the row and column functions
return (0,0) before reading the spacing), and under a constraint with minimum
(0,0) and non-negative maximum the returned and recorded size is (0,0). -/
theorem empty_node_zero_size (node : Node) (c : Constraints) (p : Position) (l : Layout)
    (ht : node.Type_ = RowNodeType ∨ node.Type_ = ColumnNodeType ∨
      node.Type_ = ContainerNodeType)
    (hc : node.Children = []) :
    (intrinsicLayout node c p l).1 = { Width := 0, Height := 0 } ∧
    calculateRowLayout node c p l = ({ Width := 0, Height := 0 }, l) ∧
    calculateColumnLayout node c p l = ({ Width := 0, Height := 0 }, l) ∧
    (c.MinSize = { Width := 0, Height := 0 } → 0 ≤ c.MaxSize.Width → 0 ≤ c.MaxSize.Height →
      (calculateNodeLayout node c p l).1 = { Width := 0, Height := 0 } ∧
      (calculateNodeLayout node c p l).2.get node.Key =
        some { Position := p, Size := { Width := 0, Height := 0 } }) := by
  have hr : calculateRowLayout node c p l = ({ Width := 0, Height := 0 }, l) := by
    simp [calculateRowLayout, hc]
  have hcol : calculateColumnLayout node c p l = ({ Width := 0, Height := 0 }, l) := by
    simp [calculateColumnLayout, hc]
  have hi : (intrinsicLayout node c p l).1 = { Width := 0, Height := 0 } := by
    rcases ht with h | h | h
    · simp [intrinsicLayout, h, hr, TextNodeType, BoxNodeType, RowNodeType]
    · simp [intrinsicLayout, h, hcol, TextNodeType, BoxNodeType, RowNodeType, ColumnNodeType]
    · simp [intrinsicLayout, h, hc, TextNodeType, BoxNodeType, RowNodeType, ColumnNodeType,
        ContainerNodeType]
  refine ⟨hi, hr, hcol, ?_⟩
  intro hmin hw hh
  have hs : (calculateNodeLayout node c p l).1 = { Width := 0, Height := 0 } := by
    rw [calculateNodeLayout_size, hi]
    have h1 : c.MinSize.Width = 0 := by rw [hmin]
    have h2 : c.MinSize.Height = 0 := by rw [hmin]
    simp only [Constraints.Constrain, h1, h2, lt_irrefl, if_false]
    congr 1 <;> split_ifs <;> first | rfl | (exfalso; linarith)
  refine ⟨hs, ?_⟩
  rw [calculateNodeLayout_records, hs]

theorem empty_node_zero_size_witness :
    (emptyRow.Type_ = RowNodeType ∨ emptyRow.Type_ = ColumnNodeType ∨
      emptyRow.Type_ = ContainerNodeType) ∧ emptyRow.Children = [] ∧
    emptyRow.Props.GetFloat "spacing" 0 = 3 ∧
    (intrinsicLayout emptyRow (NewConstraints 0 0 100 100) { X := 0, Y := 0 } []).1 =
      { Width := 0, Height := 0 } :=
  ⟨Or.inl rfl, rfl, rfl,
    (empty_node_zero_size emptyRow (NewConstraints 0 0 100 100) { X := 0, Y := 0 } []
      (Or.inl rfl) rfl).1⟩

/-- Claim C1, as stated, fails. The text child of a Box with explicit positive
width and height is reachable through `Children` and has no entry in the
result; the second child of a Container is reachable through `Children` and
has no entry in the result. -/
theorem unvisited_children_not_recorded :
    (ReachableThroughChildren sizedBox textAB ∧
      (CalculateLayout sizedBox (NewConstraints 0 0 100 100)).get textAB.Key = none) ∧
    (ReachableThroughChildren containerTwo textC ∧
      (CalculateLayout containerTwo (NewConstraints 0 0 100 100)).get textC.Key = none) := by
  refine ⟨⟨?_, ?_⟩, ?_, ?_⟩
  · exact ReachableThroughChildren.child _ textAB _ (by simp [sizedBox, Node.Children])
      (ReachableThroughChildren.self _)
  · have hw : sizedBox.Props.GetFloat "width" 0 = 50 := rfl
    have hh : sizedBox.Props.GetFloat "height" 0 = 30 := rfl
    have hk : textAB.Key ≠ sizedBox.Key := by decide
    rw [CalculateLayout, calculateNodeLayout_eq, Layout.get_set_of_ne _ _ _ _ hk,
      intrinsicLayout_box sizedBox _ _ _ rfl, hw, hh]
    norm_num
    rfl
  · exact ReachableThroughChildren.child _ textC _ (by simp [containerTwo, Node.Children])
      (ReachableThroughChildren.self _)
  · have hk : textC.Key ≠ containerTwo.Key := by decide
    have hk2 : textC.Key ≠ textAB.Key := by decide
    have hch : containerTwo.Children = [textAB, textC] := rfl
    rw [CalculateLayout, calculateNodeLayout_eq, Layout.get_set_of_ne _ _ _ _ hk,
      intrinsicLayout_container containerTwo _ _ _ rfl, hch]
    simp only []
    rw [calculateNodeLayout_eq, Layout.get_set_of_ne _ _ _ _ hk2]
    rfl

/-- Claim C1, amended. Every node the layout walk visits from the root (see
`Visits`) has an entry under its own key in the result of `CalculateLayout`,
for every constraint. -/
theorem visited_nodes_recorded (root n : Node) (c : Constraints) (h : Visits root n) :
    ∃ rect : Rect, (CalculateLayout root c).get n.Key = some rect := by
  have h2 := calculateNodeLayout_visits root n h c { X := 0, Y := 0 } []
  exact Option.isSome_iff_exists.mp h2

theorem visited_nodes_recorded_witness :
    Visits containerTwo textAB ∧
    ∃ rect : Rect,
      (CalculateLayout containerTwo (NewConstraints 0 0 100 100)).get textAB.Key = some rect :=
  ⟨Visits.container _ textAB _ [textC] rfl rfl (Visits.start _),
    visited_nodes_recorded containerTwo textAB (NewConstraints 0 0 100 100)
      (Visits.container _ textAB _ [textC] rfl rfl (Visits.start _))⟩

/-- Claim C9. A Box whose width and height properties are both positive, with
padding p, laid out under a constraint at a position, has the rectangle at
that position with size Constrain(C, (w + 2p, h + 2p)) recorded under its key,
whatever its children are, and the map is otherwise the one it was given; with
w = 50, h = 30, p = 5, minimum (0,0) and maximum at least (60,40) the recorded
size is (60,40). -/
theorem box_explicit_size (node : Node) (c : Constraints) (p : Position) (l : Layout)
    (ht : node.Type_ = BoxNodeType) (hw : node.Props.GetFloat "width" 0 > 0)
    (hh : node.Props.GetFloat "height" 0 > 0) :
    (calculateNodeLayout node c p l).2.get node.Key =
      some { Position := p,
             Size := c.Constrain
              { Width := node.Props.GetFloat "width" 0 + node.Props.GetFloat "padding" 0 * 2,
                Height := node.Props.GetFloat "height" 0 +
                  node.Props.GetFloat "padding" 0 * 2 } } ∧
    (intrinsicLayout node c p l).2 = l ∧
    (node.Props.GetFloat "width" 0 = 50 → node.Props.GetFloat "height" 0 = 30 →
      node.Props.GetFloat "padding" 0 = 5 → c.MinSize = { Width := 0, Height := 0 } →
      60 ≤ c.MaxSize.Width → 40 ≤ c.MaxSize.Height →
      (calculateNodeLayout node c p l).2.get node.Key =
        some { Position := p, Size := { Width := 60, Height := 40 } }) := by
  have hi : intrinsicLayout node c p l =
      ({ Width := node.Props.GetFloat "width" 0 + node.Props.GetFloat "padding" 0 * 2,
         Height := node.Props.GetFloat "height" 0 + node.Props.GetFloat "padding" 0 * 2 },
        l) := by
    rw [intrinsicLayout_box node c p l ht]
    simp only [hw, hh, and_self, if_true]
  have hrec : (calculateNodeLayout node c p l).2.get node.Key =
      some { Position := p,
             Size := c.Constrain
              { Width := node.Props.GetFloat "width" 0 + node.Props.GetFloat "padding" 0 * 2,
                Height := node.Props.GetFloat "height" 0 +
                  node.Props.GetFloat "padding" 0 * 2 } } := by
    rw [calculateNodeLayout_records, calculateNodeLayout_size, hi]
  refine ⟨hrec, by rw [hi], ?_⟩
  intro h1 h2 h3 hmin hmw hmh
  rw [hrec, h1, h2, h3]
  have hm1 : c.MinSize.Width = 0 := by rw [hmin]
  have hm2 : c.MinSize.Height = 0 := by rw [hmin]
  have e1 : ¬ ((50 : ℚ) + 5 * 2 < 0) := by norm_num
  have e2 : ¬ ((50 : ℚ) + 5 * 2 > c.MaxSize.Width) := by
    intro h; linarith
  have e3 : ¬ ((30 : ℚ) + 5 * 2 < 0) := by norm_num
  have e4 : ¬ ((30 : ℚ) + 5 * 2 > c.MaxSize.Height) := by
    intro h; linarith
  simp only [Constraints.Constrain, hm1, hm2, e1, e2, e3, e4, if_false]
  norm_num

theorem box_explicit_size_witness :
    sizedBox.Type_ = BoxNodeType ∧ sizedBox.Props.GetFloat "width" 0 > 0 ∧
    sizedBox.Props.GetFloat "height" 0 > 0 ∧
    (calculateNodeLayout sizedBox (NewConstraints 0 0 100 100) { X := 1, Y := 2 } []).2.get
        sizedBox.Key =
      some { Position := { X := 1, Y := 2 }, Size := { Width := 60, Height := 40 } } :=
  ⟨rfl, by show (0 : ℚ) < 50; norm_num, by show (0 : ℚ) < 30; norm_num,
    (box_explicit_size sizedBox (NewConstraints 0 0 100 100) { X := 1, Y := 2 } [] rfl
      (by show (0 : ℚ) < 50; norm_num) (by show (0 : ℚ) < 30; norm_num)).2.2
      rfl rfl rfl rfl (by norm_num [NewConstraints]) (by norm_num [NewConstraints])⟩

/-- Claim C10. A Container with exactly one child whose key differs from the
Container's, laid out under any constraint at any position into any map: the
map returned holds under the Container's key and under the child's key
rectangles with the same size, the one the child's layout returned, and the
same position, the one the Container was given. -/
theorem container_single_child (node child : Node) (c : Constraints) (p : Position)
    (l : Layout) (ht : node.Type_ = ContainerNodeType) (hc : node.Children = [child])
    (hk : child.Key ≠ node.Key) :
    (calculateNodeLayout node c p l).2.get node.Key =
      some { Position := p, Size := (calculateNodeLayout child c p l).1 } ∧
    (calculateNodeLayout node c p l).2.get child.Key =
      some { Position := p, Size := (calculateNodeLayout child c p l).1 } ∧
    (calculateNodeLayout node c p l).1 = (calculateNodeLayout child c p l).1 := by
  have hi : intrinsicLayout node c p l = calculateNodeLayout child c p l := by
    rw [intrinsicLayout_container node c p l ht, hc]
  have hs : (calculateNodeLayout node c p l).1 = (calculateNodeLayout child c p l).1 := by
    rw [calculateNodeLayout_size node, hi, calculateNodeLayout_size child, Constrain_idem]
  refine ⟨?_, ?_, hs⟩
  · rw [calculateNodeLayout_records, hs]
  · rw [calculateNodeLayout_eq node, Layout.get_set_of_ne _ _ _ _ hk, hi]
    exact calculateNodeLayout_records child c p l

theorem container_single_child_witness :
    containerAB.Type_ = ContainerNodeType ∧ containerAB.Children = [textAB] ∧
    textAB.Key ≠ containerAB.Key ∧
    (calculateNodeLayout containerAB (NewConstraints 5 5 2 2) { X := 1, Y := 2 } []).2.get
        containerAB.Key =
      some { Position := { X := 1, Y := 2 },
             Size := (calculateNodeLayout textAB (NewConstraints 5 5 2 2)
              { X := 1, Y := 2 } []).1 } :=
  ⟨rfl, rfl, by decide,
    (container_single_child containerAB textAB (NewConstraints 5 5 2 2) { X := 1, Y := 2 } []
      rfl rfl (by decide)).1⟩

/-- Claim C6, as stated, fails. A row with one text child, laid out under a
maximum height of -5, gets height -5 from the child and returns height 0, which
is not the maximum child height; that constraint is the one the second child of
a column with spacing 5 receives under the root maximum (100,10). -/
theorem row_height_not_child_maximum :
    rowAB.Children = [textAB] ∧
    (rowCalls rowAB.Children (rowAB.Props.GetFloat "spacing" 0) (NewConstraints 0 0 100 (-5))
      { X := 0, Y := 0 } 0 []).map (fun e => e.size.Height) = [-5] ∧
    (calculateRowLayout rowAB (NewConstraints 0 0 100 (-5)) { X := 0, Y := 0 } []).1.Height
      = 0 ∧
    (columnCalls columnOverRow.Children (columnOverRow.Props.GetFloat "spacing" 0)
      (NewConstraints 0 0 100 10) { X := 0, Y := 0 } 0 []).map (fun e => e.constraints) =
      [NewConstraints 0 0 100 10, NewConstraints 0 0 100 (-5)] := by
  have hcalls : (rowCalls rowAB.Children (rowAB.Props.GetFloat "spacing" 0)
      (NewConstraints 0 0 100 (-5)) { X := 0, Y := 0 } 0 []).map (fun e => e.size.Height)
      = [-5] := by
    have hch : rowAB.Children = [textAB] := rfl
    rw [hch]
    simp only [rowCalls, List.map_cons, List.map_nil, textAB_size]
    norm_num [Constraints.Constrain, NewConstraints]
  refine ⟨rfl, hcalls, ?_, ?_⟩
  · have h := (calculateRowLayout_size rowAB (NewConstraints 0 0 100 (-5)) { X := 0, Y := 0 } []
      (by simp [rowAB, Node.Children])).2
    rw [h, hcalls]
    norm_num
  · have hch : columnOverRow.Children = [textD, rowAB] := rfl
    have hs : columnOverRow.Props.GetFloat "spacing" 0 = 5 := rfl
    rw [hch, hs]
    simp only [columnCalls, List.map_cons, List.map_nil, textD_size]
    norm_num [Constraints.Constrain, NewConstraints]

/-- Claim C6, amended. For a Row with at least one child and spacing s, the
size `calculateRowLayout` returns has width w_1 + ... + w_N + s*(N-1), where w_i
is the width returned by laying out the i-th child, and height the running
maximum, started at 0, of the heights the children return; when the row's
maximum height is non-negative that height is the maximum child height. -/
theorem row_layout_size (node : Node) (c : Constraints) (p : Position) (l : Layout)
    (hn : node.Children ≠ []) :
    (calculateRowLayout node c p l).1.Width =
      ((rowCalls node.Children (node.Props.GetFloat "spacing" 0) c p p.X l).map
        (fun e => e.size.Width)).sum +
        node.Props.GetFloat "spacing" 0 * ((node.Children.length : ℚ) - 1) ∧
    (calculateRowLayout node c p l).1.Height =
      ((rowCalls node.Children (node.Props.GetFloat "spacing" 0) c p p.X l).map
        (fun e => e.size.Height)).foldl max 0 ∧
    (0 ≤ c.MaxSize.Height →
      (calculateRowLayout node c p l).1.Height ∈
        (rowCalls node.Children (node.Props.GetFloat "spacing" 0) c p p.X l).map
          (fun e => e.size.Height) ∧
      ∀ h ∈ (rowCalls node.Children (node.Props.GetFloat "spacing" 0) c p p.X l).map
          (fun e => e.size.Height), h ≤ (calculateRowLayout node c p l).1.Height) ∧
    List.Forall₂ (fun (child : Node) (call : ChildCall) =>
        ∀ l2 : Layout, call.size =
          (calculateNodeLayout child call.constraints call.position l2).1)
      node.Children (rowCalls node.Children (node.Props.GetFloat "spacing" 0) c p p.X l) := by
  obtain ⟨hw, hh⟩ := calculateRowLayout_size node c p l hn
  refine ⟨hw, hh, ?_, rowCalls_sizes _ _ _ _ _ _⟩
  intro hc
  rw [hh]
  apply foldl_max_zero_is_max
  · intro h0
    have hlen := rowCalls_length node.Children (node.Props.GetFloat "spacing" 0) c p p.X l
    rw [List.map_eq_nil_iff] at h0
    rw [h0] at hlen
    exact hn (List.length_eq_zero.mp hlen.symm)
  · intro h hmem
    obtain ⟨e, he, rfl⟩ := List.mem_map.mp hmem
    exact rowCalls_height_nonneg _ _ _ _ hc _ _ e he

theorem row_layout_size_witness :
    rowTwo.Children ≠ [] ∧
    (calculateRowLayout rowTwo (NewConstraints 0 0 100 100) { X := 0, Y := 0 } []).1.Width =
      ((rowCalls rowTwo.Children (rowTwo.Props.GetFloat "spacing" 0)
        (NewConstraints 0 0 100 100) { X := 0, Y := 0 } 0 []).map
        (fun e => e.size.Width)).sum +
        rowTwo.Props.GetFloat "spacing" 0 * ((rowTwo.Children.length : ℚ) - 1) :=
  ⟨by simp [rowTwo, Node.Children],
    (row_layout_size rowTwo (NewConstraints 0 0 100 100) { X := 0, Y := 0 } []
      (by simp [rowTwo, Node.Children])).1⟩

/-- Claim C7, as stated, fails. A column with one text child, laid out under a
maximum width of -5, gets width -5 from the child and returns width 0, which is
not the maximum child width; that constraint is the one the second child of a
row with spacing 5 receives under the root maximum (10,100). -/
theorem column_width_not_child_maximum :
    columnAB.Children = [textAB] ∧
    (columnCalls columnAB.Children (columnAB.Props.GetFloat "spacing" 0)
      (NewConstraints 0 0 (-5) 100) { X := 0, Y := 0 } 0 []).map (fun e => e.size.Width)
      = [-5] ∧
    (calculateColumnLayout columnAB (NewConstraints 0 0 (-5) 100) { X := 0, Y := 0 }
      []).1.Width = 0 ∧
    (rowCalls rowOverColumn.Children (rowOverColumn.Props.GetFloat "spacing" 0)
      (NewConstraints 0 0 10 100) { X := 0, Y := 0 } 0 []).map (fun e => e.constraints) =
      [NewConstraints 0 0 10 100, NewConstraints 0 0 (-5) 100] := by
  have hcalls : (columnCalls columnAB.Children (columnAB.Props.GetFloat "spacing" 0)
      (NewConstraints 0 0 (-5) 100) { X := 0, Y := 0 } 0 []).map (fun e => e.size.Width)
      = [-5] := by
    have hch : columnAB.Children = [textAB] := rfl
    rw [hch]
    simp only [columnCalls, List.map_cons, List.map_nil, textAB_size]
    norm_num [Constraints.Constrain, NewConstraints]
  refine ⟨rfl, hcalls, ?_, ?_⟩
  · have h := (calculateColumnLayout_size columnAB (NewConstraints 0 0 (-5) 100)
      { X := 0, Y := 0 } [] (by simp [columnAB, Node.Children])).2
    rw [h, hcalls]
    norm_num
  · have hch : rowOverColumn.Children = [textD, columnAB] := rfl
    have hs : rowOverColumn.Props.GetFloat "spacing" 0 = 5 := rfl
    rw [hch, hs]
    simp only [rowCalls, List.map_cons, List.map_nil, textD_size]
    norm_num [Constraints.Constrain, NewConstraints]

/-- Claim C7, amended. For a Column with at least one child and spacing s, the
size `calculateColumnLayout` returns has height h_1 + ... + h_N + s*(N-1), where
h_i is the height returned by laying out the i-th child, and width the running
maximum, started at 0, of the widths the children return; when the column's
maximum width is non-negative that width is the maximum child width.  The i-th
child is laid out under minimum (0,0), the column's maximum width, and the
column's maximum height less the heights and spacings of the children before
it. -/
theorem column_layout_size (node : Node) (c : Constraints) (p : Position) (l : Layout)
    (hn : node.Children ≠ []) :
    (calculateColumnLayout node c p l).1.Height =
      ((columnCalls node.Children (node.Props.GetFloat "spacing" 0) c p p.Y l).map
        (fun e => e.size.Height)).sum +
        node.Props.GetFloat "spacing" 0 * ((node.Children.length : ℚ) - 1) ∧
    (calculateColumnLayout node c p l).1.Width =
      ((columnCalls node.Children (node.Props.GetFloat "spacing" 0) c p p.Y l).map
        (fun e => e.size.Width)).foldl max 0 ∧
    (0 ≤ c.MaxSize.Width →
      (calculateColumnLayout node c p l).1.Width ∈
        (columnCalls node.Children (node.Props.GetFloat "spacing" 0) c p p.Y l).map
          (fun e => e.size.Width) ∧
      ∀ w ∈ (columnCalls node.Children (node.Props.GetFloat "spacing" 0) c p p.Y l).map
          (fun e => e.size.Width), w ≤ (calculateColumnLayout node c p l).1.Width) ∧
    List.Forall₂ (fun (child : Node) (call : ChildCall) =>
        ∀ l2 : Layout, call.size =
          (calculateNodeLayout child call.constraints call.position l2).1)
      node.Children
      (columnCalls node.Children (node.Props.GetFloat "spacing" 0) c p p.Y l) ∧
    (∀ (i : ℕ) (call : ChildCall),
      (columnCalls node.Children (node.Props.GetFloat "spacing" 0) c p p.Y l)[i]? =
        some call →
      call.constraints.MinSize = { Width := 0, Height := 0 } ∧
      call.constraints.MaxSize.Width = c.MaxSize.Width ∧
      call.constraints.MaxSize.Height = c.MaxSize.Height -
        (((columnCalls node.Children (node.Props.GetFloat "spacing" 0) c p p.Y l).take i).map
          (fun e => e.size.Height + node.Props.GetFloat "spacing" 0)).sum) := by
  obtain ⟨hh, hw⟩ := calculateColumnLayout_size node c p l hn
  refine ⟨hh, hw, ?_, columnCalls_sizes _ _ _ _ _ _, ?_⟩
  · intro hc
    rw [hw]
    apply foldl_max_zero_is_max
    · intro h0
      have hlen := columnCalls_length node.Children (node.Props.GetFloat "spacing" 0) c p p.Y l
      rw [List.map_eq_nil_iff] at h0
      rw [h0] at hlen
      exact hn (List.length_eq_zero.mp hlen.symm)
    · intro w hmem
      obtain ⟨e, he, rfl⟩ := List.mem_map.mp hmem
      exact columnCalls_width_nonneg _ _ _ _ hc _ _ e he
  · intro i call hcall
    obtain ⟨h1, h2, h3, _, _⟩ := columnCalls_inputs _ _ _ _ _ _ i call hcall
    refine ⟨h1, h2, ?_⟩
    rw [h3, sub_self, zero_add]

theorem column_layout_size_witness :
    columnTwo.Children ≠ [] ∧
    (calculateColumnLayout columnTwo (NewConstraints 0 0 100 100) { X := 0, Y := 0 }
      []).1.Height =
      ((columnCalls columnTwo.Children (columnTwo.Props.GetFloat "spacing" 0)
        (NewConstraints 0 0 100 100) { X := 0, Y := 0 } 0 []).map
        (fun e => e.size.Height)).sum +
        columnTwo.Props.GetFloat "spacing" 0 * ((columnTwo.Children.length : ℚ) - 1) :=
  ⟨by simp [columnTwo, Node.Children],
    (column_layout_size columnTwo (NewConstraints 0 0 100 100) { X := 0, Y := 0 } []
      (by simp [columnTwo, Node.Children])).1⟩

/-- Claim C19. `Constrain` is idempotent under every constraint, and under
`Tight(T)` it returns `T` for every size. -/
theorem Constrain_idempotent_and_tight (c : Constraints) (s t : Size) :
    c.Constrain (c.Constrain s) = c.Constrain s ∧ (Tight t).Constrain s = t := by
  refine ⟨Constrain_idem c s, ?_⟩
  cases t with
  | mk w h =>
    simp only [Constraints.Constrain, Tight]
    congr 1 <;> split_ifs <;> first | rfl | (apply le_antisymm <;> linarith)

/-- Claim C15. `GetFloat(k, d)` returns v when the property is the float v, the
conversion of n when it is the int n, and d when the key is absent or holds a
string, a boolean or a function; two Rows that differ only in storing their
spacing as the int 2 and as the float 2.0 have the same layout. -/
theorem GetFloat_cases (p : Props) (k : String) (d : ℚ) :
    (∀ v : ℚ, p.Get k = some (Value.float v) → p.GetFloat k d = v) ∧
    (∀ n : ℤ, p.Get k = some (Value.int n) → p.GetFloat k d = (n : ℚ)) ∧
    (p.Get k = none → p.GetFloat k d = d) ∧
    (∀ s : String, p.Get k = some (Value.str s) → p.GetFloat k d = d) ∧
    (∀ b : Bool, p.Get k = some (Value.bool b) → p.GetFloat k d = d) ∧
    (∀ f : ℕ, p.Get k = some (Value.func f) → p.GetFloat k d = d) ∧
    (∀ (n1 n2 : Node) (c : Constraints) (pos : Position) (l : Layout),
      n1.Type_ = RowNodeType → n2.Type_ = RowNodeType → n1.Key = n2.Key →
      n1.Children = n2.Children → n1.Props.Get "spacing" = some (Value.int 2) →
      n2.Props.Get "spacing" = some (Value.float 2) →
      calculateNodeLayout n1 c pos l = calculateNodeLayout n2 c pos l) := by
  refine ⟨fun v h => GetFloat_of_float p k d v h, fun n h => GetFloat_of_int p k d n h,
    ?_, ?_, ?_, ?_, ?_⟩
  · intro h; simp only [Props.GetFloat, h]
  · intro s h; simp only [Props.GetFloat, h]
  · intro b h; simp only [Props.GetFloat, h]
  · intro f h; simp only [Props.GetFloat, h]
  · intro n1 n2 c pos l h1 h2 hk hc hs1 hs2
    apply row_layout_congr n1 n2 c pos l h1 h2 hk hc
    rw [GetFloat_of_int _ _ _ 2 hs1, GetFloat_of_float _ _ _ 2 hs2]
    norm_num

theorem GetFloat_cases_witness :
    rowIntSpacing.Props.Get "spacing" = some (Value.int 2) ∧
    rowTwo.Props.Get "spacing" = some (Value.float 2) ∧
    calculateNodeLayout rowIntSpacing (NewConstraints 0 0 100 100) { X := 0, Y := 0 } [] =
      calculateNodeLayout rowTwo (NewConstraints 0 0 100 100) { X := 0, Y := 0 } [] :=
  ⟨rfl, rfl,
    (GetFloat_cases rowIntSpacing.Props "spacing" 0).2.2.2.2.2.2 rowIntSpacing rowTwo
      (NewConstraints 0 0 100 100) { X := 0, Y := 0 } [] rfl rfl rfl rfl rfl rfl⟩

/-- Claim C20. A Box lacking explicit positive width and height, with at least
one child and padding p (the stored "padding" property when it is the float p
or the integer p, and 0 when the property is absent), laid out at a position
under a constraint: the switch lays out the first child at that same position
under that same constraint (the map after the switch is the map of that call),
the Box's intrinsic size is the size that call returns plus 2p on each axis,
the rectangle recorded for the Box has the clamp of it, and the child's
rectangle (key different from the Box's) is at the Box's position. -/
theorem box_padding_not_offset (node child : Node) (rest : List Node) (c : Constraints)
    (p : Position) (l : Layout) (pad : ℚ) (ht : node.Type_ = BoxNodeType)
    (hsz : ¬ (node.Props.GetFloat "width" 0 > 0 ∧ node.Props.GetFloat "height" 0 > 0))
    (hc : node.Children = child :: rest)
    (hpad : node.Props.Get "padding" = some (Value.float pad) ∨
      (∃ n : ℤ, node.Props.Get "padding" = some (Value.int n) ∧ pad = (n : ℚ)) ∨
      (node.Props.Get "padding" = none ∧ pad = 0)) :
    intrinsicLayout node c p l =
      ({ Width := (calculateNodeLayout child c p l).1.Width + pad * 2,
         Height := (calculateNodeLayout child c p l).1.Height + pad * 2 },
        (calculateNodeLayout child c p l).2) ∧
    (calculateNodeLayout node c p l).2.get node.Key =
      some { Position := p,
             Size := c.Constrain
              { Width := (calculateNodeLayout child c p l).1.Width + pad * 2,
                Height := (calculateNodeLayout child c p l).1.Height + pad * 2 } } ∧
    (child.Key ≠ node.Key →
      (calculateNodeLayout node c p l).2.get child.Key =
        some { Position := p, Size := (calculateNodeLayout child c p l).1 }) := by
  have hg : node.Props.GetFloat "padding" 0 = pad := by
    rcases hpad with h | ⟨n, h, rfl⟩ | ⟨h, rfl⟩
    · simp only [Props.GetFloat, h]
    · simp only [Props.GetFloat, h]
    · simp only [Props.GetFloat, h]
  have hch : calculateChildrenLayout node c p l = calculateNodeLayout child c p l := by
    rw [← childrenLayout_eq, hc]
    rfl
  have hi : intrinsicLayout node c p l =
      ({ Width := (calculateNodeLayout child c p l).1.Width + pad * 2,
         Height := (calculateNodeLayout child c p l).1.Height + pad * 2 },
        (calculateNodeLayout child c p l).2) := by
    rw [intrinsicLayout_box node c p l ht]
    simp only [hsz, if_false, hch, hg]
  refine ⟨hi, ?_, ?_⟩
  · rw [calculateNodeLayout_records, calculateNodeLayout_size, hi]
  · intro hk
    rw [calculateNodeLayout_eq node, Layout.get_set_of_ne _ _ _ _ hk, hi]
    exact calculateNodeLayout_records child c p l

theorem box_padding_not_offset_witness :
    paddedBox.Type_ = BoxNodeType ∧
    paddedBox.Props.Get "width" = none ∧ paddedBox.Props.Get "height" = none ∧
    ¬ (paddedBox.Props.GetFloat "width" 0 > 0 ∧ paddedBox.Props.GetFloat "height" 0 > 0) ∧
    paddedBox.Children = textAB :: [] ∧
    paddedBox.Props.Get "padding" = some (Value.float 2) ∧
    (calculateNodeLayout paddedBox (NewConstraints 0 0 100 100) { X := 3, Y := 4 } []).2.get
        "b" =
      some { Position := { X := 3, Y := 4 }, Size := { Width := 16, Height := 16 } } ∧
    (calculateNodeLayout paddedBox (NewConstraints 0 0 100 100) { X := 3, Y := 4 } []).2.get
        "t" =
      some { Position := { X := 3, Y := 4 }, Size := { Width := 12, Height := 12 } } := by
  have hsz : ¬ (paddedBox.Props.GetFloat "width" 0 > 0 ∧
      paddedBox.Props.GetFloat "height" 0 > 0) := by
    have h : paddedBox.Props.GetFloat "width" 0 = 0 := rfl
    rw [h]; norm_num
  have h := box_padding_not_offset paddedBox textAB [] (NewConstraints 0 0 100 100)
    { X := 3, Y := 4 } [] 2 rfl hsz rfl (Or.inl rfl)
  have hkb : paddedBox.Key = "b" := rfl
  have hkt : textAB.Key = "t" := rfl
  rw [hkb, hkt, textAB_size] at h
  refine ⟨rfl, rfl, rfl, hsz, rfl, rfl, ?_, ?_⟩
  · rw [h.2.1]
    norm_num [Constraints.Constrain, NewConstraints]
  · rw [h.2.2 (by decide)]
    norm_num [Constraints.Constrain, NewConstraints]

/-- Claim C11. Laying out the scenario tree (a column with spacing 1 over the
text "ABC" at font size 20 and a box with padding 2 around the text "X" at font
size 18) under minimum (0,0) and maximum (100,100) records: title at (0,0) with
size (36,24); t at (0,25) with size (10.8,21.6); b at (0,25) with size
(14.8,25.6); the root column at (0,0) with size (36,50.6). -/
theorem scenario_layout :
    (CalculateLayout scenarioRoot (NewConstraints 0 0 100 100)).get "title" =
      some { Position := { X := 0, Y := 0 }, Size := { Width := 36, Height := 24 } } ∧
    (CalculateLayout scenarioRoot (NewConstraints 0 0 100 100)).get "t" =
      some { Position := { X := 0, Y := 25 },
             Size := { Width := 54 / 5, Height := 108 / 5 } } ∧
    (CalculateLayout scenarioRoot (NewConstraints 0 0 100 100)).get "b" =
      some { Position := { X := 0, Y := 25 },
             Size := { Width := 74 / 5, Height := 128 / 5 } } ∧
    (CalculateLayout scenarioRoot (NewConstraints 0 0 100 100)).get scenarioRoot.Key =
      some { Position := { X := 0, Y := 0 },
             Size := { Width := 36, Height := 253 / 5 } } := by
  have hs : scenarioRoot.Props.GetFloat "spacing" 0 = 1 := rfl
  have hc : scenarioRoot.Children = [scenarioTitle, scenarioBox] := rfl
  have hk : scenarioRoot.Key = "root" := rfl
  have hlen : ¬ ([scenarioTitle, scenarioBox].length = 0) := by decide
  have hmain : CalculateLayout scenarioRoot (NewConstraints 0 0 100 100) =
      Layout.set (Layout.set (Layout.set (Layout.set [] "title"
          { Position := { X := 0, Y := 0 }, Size := { Width := 36, Height := 24 } }) "t"
          { Position := { X := 0, Y := 25 },
            Size := { Width := 54 / 5, Height := 108 / 5 } }) "b"
          { Position := { X := 0, Y := 25 },
            Size := { Width := 74 / 5, Height := 128 / 5 } }) "root"
          { Position := { X := 0, Y := 0 }, Size := { Width := 36, Height := 253 / 5 } } := by
    unfold CalculateLayout
    rw [calculateNodeLayout_eq, intrinsicLayout_column scenarioRoot _ _ _ rfl]
    unfold calculateColumnLayout
    rw [hs, hc, hk]
    simp only [hlen, if_false, columnLoop_cons, columnLoop_nil, scenarioTitle_layout,
      scenarioBox_layout]
    norm_num [Constraints.Constrain, NewConstraints]
  rw [hmain, hk]
  simp only [Layout.get_set]
  refine ⟨?_, ?_, ?_, ?_⟩ <;> simp

/-- Claim C12, as stated, fails. The image node is a Custom node keyed "img"
whose component returns a Box keyed "img-box"; the result of `CalculateLayout`
holds an entry under "img" as well as under "img-box". -/
theorem custom_key_is_recorded :
    customImage.Type_ = CustomNodeType ∧ customImage.Key = "img" ∧
    (∃ render, customImage.Component = some render ∧
      (render customImage.Props).Type_ = BoxNodeType ∧
      (render customImage.Props).Key = "img-box") ∧
    (CalculateLayout customImage (NewConstraints 0 0 100 100)).get "img" =
      some { Position := { X := 0, Y := 0 }, Size := { Width := 10, Height := 5 } } ∧
    (CalculateLayout customImage (NewConstraints 0 0 100 100)).get "img-box" =
      some { Position := { X := 0, Y := 0 }, Size := { Width := 10, Height := 5 } } := by
  refine ⟨rfl, rfl, ⟨_, rfl, rfl, rfl⟩, ?_, ?_⟩
  all_goals
    unfold CalculateLayout
    have h := custom_layout customImage _ (NewConstraints 0 0 100 100) { X := 0, Y := 0 } []
      rfl rfl
    have hb : (calculateNodeLayout
        (Node.mk BoxNodeType "img-box" customImage.Props [] none)
        (NewConstraints 0 0 100 100) { X := 0, Y := 0 } []).1 =
        { Width := 10, Height := 5 } := by
      have hw : customImage.Props.GetFloat "width" 0 = 10 := rfl
      have hh : customImage.Props.GetFloat "height" 0 = 5 := rfl
      have hp : customImage.Props.GetFloat "padding" 0 = 0 := rfl
      rw [calculateNodeLayout_size,
        intrinsicLayout_box (Node.mk BoxNodeType "img-box" customImage.Props [] none) _ _ _ rfl]
      simp only [Node.Props] at hw hh hp ⊢
      rw [hw, hh, hp]
      norm_num [Constraints.Constrain, NewConstraints]
  · rw [← hb]
    exact h.2.2.1
  · rw [← hb]
    exact h.2.2.2 (by decide)

/-- Claim C12, amended. For a Custom node with key k whose component returns a
node with a key k2 different from k, the result of `CalculateLayout` on that
node holds an entry under k2 and also an entry under k, both at (0,0) and with
the size the layout of the returned node yields. -/
theorem custom_node_entries (node : Node) (render : Props → Node) (c : Constraints)
    (ht : node.Type_ = CustomNodeType) (hcomp : node.Component = some render)
    (hk : (render node.Props).Key ≠ node.Key) :
    (CalculateLayout node c).get (render node.Props).Key =
      some { Position := { X := 0, Y := 0 },
             Size := (calculateNodeLayout (render node.Props) c { X := 0, Y := 0 } []).1 } ∧
    (CalculateLayout node c).get node.Key =
      some { Position := { X := 0, Y := 0 },
             Size := (calculateNodeLayout (render node.Props) c { X := 0, Y := 0 } []).1 } := by
  have h := custom_layout node render c { X := 0, Y := 0 } [] ht hcomp
  exact ⟨h.2.2.2 hk, h.2.2.1⟩

theorem custom_node_entries_witness :
    customImage.Type_ = CustomNodeType ∧
    customImage.Component =
      some (fun props => Node.mk BoxNodeType "img-box" props [] none) ∧
    (Node.mk BoxNodeType "img-box" customImage.Props [] none).Key ≠ customImage.Key ∧
    (CalculateLayout customImage (NewConstraints 0 0 100 100)).get customImage.Key =
      some { Position := { X := 0, Y := 0 },
             Size := (calculateNodeLayout (Node.mk BoxNodeType "img-box" customImage.Props []
              none) (NewConstraints 0 0 100 100) { X := 0, Y := 0 } []).1 } :=
  ⟨rfl, rfl, by decide,
    (custom_node_entries customImage (fun props => Node.mk BoxNodeType "img-box" props [] none)
      (NewConstraints 0 0 100 100) rfl rfl (by decide)).2⟩

/-- Claim C13. For a root that is a Custom node whose component returns a Box,
the calls `Render` makes on its target are: `Clear`, then `DrawRect` with the
rectangle the result of `CalculateLayout` holds under the Box's key and with the
Box's properties, then the calls for the Box's children (draw calls only), then
`Flush`. -/
theorem render_custom_box (root : Node) (render : Props → Node) (c : Constraints)
    (ht : root.Type_ = CustomNodeType) (hcomp : root.Component = some render)
    (hbox : (render root.Props).Type_ = BoxNodeType) :
    ∃ (rect : Rect) (rest : List TargetCall),
      (CalculateLayout root c).get (render root.Props).Key = some rect ∧
      Render root c =
        TargetCall.Clear :: TargetCall.DrawRect rect (render root.Props).Props ::
          (rest ++ [TargetCall.Flush]) ∧
      rest = renderChildren (render root.Props).Children (CalculateLayout root c) ∧
      ∀ call ∈ rest, call ≠ TargetCall.Clear ∧ call ≠ TargetCall.Flush := by
  have hroot : (CalculateLayout root c).get root.Key =
      some { Position := { X := 0, Y := 0 },
             Size := (calculateNodeLayout root c { X := 0, Y := 0 } []).1 } :=
    calculateNodeLayout_records root c _ _
  have hvis : Visits root (render root.Props) :=
    Visits.rendered root _ render (by rw [ht]; decide) (by rw [ht]; decide)
      (by rw [ht]; decide) (by rw [ht]; decide) (by rw [ht]; decide) hcomp (Visits.start _)
  obtain ⟨rect, hrect⟩ := Option.isSome_iff_exists.mp
    (calculateNodeLayout_visits root _ hvis c { X := 0, Y := 0 } [])
  have hrect2 : (CalculateLayout root c).get (render root.Props).Key = some rect := hrect
  refine ⟨rect, renderChildren (render root.Props).Children (CalculateLayout root c),
    hrect2, ?_, rfl, ?_⟩
  · have h1 : renderNode root (CalculateLayout root c) =
        renderNode (render root.Props) (CalculateLayout root c) := by
      rw [renderNode_eq root, hroot]
      simp only [ht, hcomp]
      rfl
    have h2 : renderNode (render root.Props) (CalculateLayout root c) =
        TargetCall.DrawRect rect (render root.Props).Props ::
          renderChildren (render root.Props).Children (CalculateLayout root c) := by
      rw [renderNode_eq (render root.Props), hrect2]
      simp only [hbox]
      rfl
    unfold Render
    simp only [h1, h2]
    rfl
  · intro call hcall
    exact renderChildren_draws _ _ (fun a _ => renderNode_draws _ a) call hcall

theorem render_custom_box_witness :
    customImage.Type_ = CustomNodeType ∧
    customImage.Component =
      some (fun props => Node.mk BoxNodeType "img-box" props [] none) ∧
    (Node.mk BoxNodeType "img-box" customImage.Props [] none).Type_ = BoxNodeType ∧
    ∃ (rect : Rect) (rest : List TargetCall),
      (CalculateLayout customImage (NewConstraints 0 0 100 100)).get
        (Node.mk BoxNodeType "img-box" customImage.Props [] none).Key = some rect ∧
      Render customImage (NewConstraints 0 0 100 100) =
        TargetCall.Clear ::
          TargetCall.DrawRect rect (Node.mk BoxNodeType "img-box" customImage.Props []
            none).Props :: (rest ++ [TargetCall.Flush]) ∧
      rest = renderChildren (Node.mk BoxNodeType "img-box" customImage.Props [] none).Children
        (CalculateLayout customImage (NewConstraints 0 0 100 100)) ∧
      ∀ call ∈ rest, call ≠ TargetCall.Clear ∧ call ≠ TargetCall.Flush :=
  ⟨rfl, rfl, rfl,
    render_custom_box customImage (fun props => Node.mk BoxNodeType "img-box" props [] none)
      (NewConstraints 0 0 100 100) rfl rfl rfl⟩

/-- Claim C16. For a Row laid out at position (px, py) with spacing s whose
children do not share keys with one another, with nodes visited from later
children or with the Row, the rectangle recorded under the key of the k-th
child has position (px + sum over j<k of (w_j + s), py) and the size its layout
returned, w_j being the width recorded for the j-th child; the k-th child was
laid out under minimum (0,0), maximum width = the Row's maximum width minus
(its x minus px), maximum height = the Row's maximum height. -/
theorem row_child_rectangles (node : Node) (c : Constraints) (p : Position) (l : Layout)
    (ht : node.Type_ = RowNodeType)
    (hkeys : node.Children.Pairwise (fun a b => ∀ n, Visits b n → n.Key ≠ a.Key))
    (hself : ∀ a ∈ node.Children, node.Key ≠ a.Key) :
    ∀ (k : ℕ) (child : Node) (call : ChildCall),
      node.Children[k]? = some child →
      (rowCalls node.Children (node.Props.GetFloat "spacing" 0) c p p.X l)[k]? = some call →
      (calculateNodeLayout node c p l).2.get child.Key =
        some { Position := call.position, Size := call.size } ∧
      call.position.X = p.X +
        (((rowCalls node.Children (node.Props.GetFloat "spacing" 0) c p p.X l).take k).map
          (fun e => e.size.Width + node.Props.GetFloat "spacing" 0)).sum ∧
      call.position.Y = p.Y ∧
      call.constraints.MinSize = { Width := 0, Height := 0 } ∧
      call.constraints.MaxSize.Width = c.MaxSize.Width - (call.position.X - p.X) ∧
      call.constraints.MaxSize.Height = c.MaxSize.Height ∧
      (∀ l2 : Layout, call.size =
        (calculateNodeLayout child call.constraints call.position l2).1) := by
  intro k child call hchild hcall
  obtain ⟨h1, h2, h3, h4, h5⟩ := rowCalls_inputs _ _ _ _ _ _ k call hcall
  refine ⟨?_, h4, h5, h1, h2, h3, rowCalls_size_at _ _ _ _ _ _ k child call hchild hcall⟩
  exact row_child_entry node c p l ht k child call hchild hcall
    (later_of_pairwise _ hkeys k child hchild)
    (hself child (List.getElem?_mem hchild))

theorem row_child_rectangles_witness :
    rowThree.Type_ = RowNodeType ∧
    rowThree.Children.Pairwise (fun a b => ∀ n, Visits b n → n.Key ≠ a.Key) ∧
    (∀ a ∈ rowThree.Children, rowThree.Key ≠ a.Key) ∧
    rowThree.Children[1]? = some textC ∧
    (calculateNodeLayout rowThree (NewConstraints 0 0 100 100) { X := 0, Y := 0 } []).2.get
        textC.Key =
      some { Position := { X := 14, Y := 0 }, Size := { Width := 48 / 5, Height := 96 / 5 } }
    := by
  have hch : rowThree.Children = [textAB, textC, textD] := rfl
  have hkeys : rowThree.Children.Pairwise (fun a b => ∀ n, Visits b n → n.Key ≠ a.Key) := by
    rw [hch]
    simp only [List.pairwise_cons, List.mem_cons, List.mem_singleton, List.not_mem_nil,
      forall_eq_or_imp, forall_eq, List.Pairwise.nil, and_true, IsEmpty.forall_iff,
      implies_true]
    refine ⟨⟨?_, ?_⟩, ?_⟩
    · intro n hn; rw [visits_text textC n rfl hn]; decide
    · intro n hn; rw [visits_text textD n rfl hn]; decide
    · intro n hn; rw [visits_text textD n rfl hn]; decide
  have hself : ∀ a ∈ rowThree.Children, rowThree.Key ≠ a.Key := by
    rw [hch]
    intro a ha
    simp only [List.mem_cons, List.mem_singleton, List.not_mem_nil, or_false] at ha
    rcases ha with rfl | rfl | rfl <;> decide
  have hs : rowThree.Props.GetFloat "spacing" 0 = 2 := rfl
  have hcall : (rowCalls rowThree.Children (rowThree.Props.GetFloat "spacing" 0)
      (NewConstraints 0 0 100 100) { X := 0, Y := 0 } ({ X := 0, Y := 0 } : Position).X [])[1]? =
      some { constraints := NewConstraints 0 0 86 100, position := { X := 14, Y := 0 },
             size := { Width := 48 / 5, Height := 96 / 5 } } := by
    rw [hch, hs]
    simp only [rowCalls, List.getElem?_cons_succ, List.getElem?_cons_zero, textAB_size,
      textC_size]
    norm_num [Constraints.Constrain, NewConstraints]
  exact ⟨rfl, hkeys, hself, rfl,
    (row_child_rectangles rowThree (NewConstraints 0 0 100 100) { X := 0, Y := 0 } [] rfl
      hkeys hself 1 textC _ rfl hcall).1⟩

/-- Claim C17. The result map has one entry per key and the last-visited node
wins: for a Row or a Column with two children that share a key k, where no node
visited from a later child and not the Row or Column itself carries k, the map
the layout returns holds under k the position and size of the later child —
so not the earlier child's rectangle when the two differ — and its keys
are pairwise distinct (the walk is total: there is no error result). -/
theorem duplicate_key_last_wins (node : Node) (c : Constraints) (p : Position) (l : Layout)
    (i j : ℕ) (a b : Node)
    (_ht : node.Type_ = RowNodeType ∨ node.Type_ = ColumnNodeType) (_hij : i < j)
    (_ha : node.Children[i]? = some a) (hb : node.Children[j]? = some b)
    (hkey : a.Key = b.Key)
    (hlater : ∀ d ∈ node.Children.drop (j + 1), ∀ n, Visits d n → n.Key ≠ b.Key)
    (hself : node.Key ≠ b.Key) :
    (node.Type_ = RowNodeType → ∀ callA callB : ChildCall,
      (rowCalls node.Children (node.Props.GetFloat "spacing" 0) c p p.X l)[i]? = some callA →
      (rowCalls node.Children (node.Props.GetFloat "spacing" 0) c p p.X l)[j]? = some callB →
      (calculateNodeLayout node c p l).2.get a.Key =
        some { Position := callB.position, Size := callB.size } ∧
      (({ Position := callA.position, Size := callA.size } : Rect) ≠
          { Position := callB.position, Size := callB.size } →
        (calculateNodeLayout node c p l).2.get a.Key ≠
          some { Position := callA.position, Size := callA.size })) ∧
    (node.Type_ = ColumnNodeType → ∀ callA callB : ChildCall,
      (columnCalls node.Children (node.Props.GetFloat "spacing" 0) c p p.Y l)[i]? =
        some callA →
      (columnCalls node.Children (node.Props.GetFloat "spacing" 0) c p p.Y l)[j]? =
        some callB →
      (calculateNodeLayout node c p l).2.get a.Key =
        some { Position := callB.position, Size := callB.size } ∧
      (({ Position := callA.position, Size := callA.size } : Rect) ≠
          { Position := callB.position, Size := callB.size } →
        (calculateNodeLayout node c p l).2.get a.Key ≠
          some { Position := callA.position, Size := callA.size })) ∧
    ((l.map Prod.fst).Nodup → ((calculateNodeLayout node c p l).2.map Prod.fst).Nodup) := by
  refine ⟨?_, ?_, ?_⟩
  · intro hrow callA callB _ hcb
    have h := row_child_entry node c p l hrow j b callB hb hcb hlater hself
    rw [hkey]
    refine ⟨h, ?_⟩
    intro hne heq
    rw [h] at heq
    exact hne (Option.some.inj heq).symm
  · intro hcol callA callB _ hcb
    have h := column_child_entry node c p l hcol j b callB hb hcb hlater hself
    rw [hkey]
    refine ⟨h, ?_⟩
    intro hne heq
    rw [h] at heq
    exact hne (Option.some.inj heq).symm
  · exact calculateNodeLayout_preserves (fun m => (m.map Prod.fst).Nodup)
      (fun m k r hm => Layout.set_keys_nodup m k r hm) node c p l

theorem duplicate_key_last_wins_witness :
    (rowDup.Type_ = RowNodeType ∨ rowDup.Type_ = ColumnNodeType) ∧ 0 < 1 ∧
    rowDup.Children[0]? = some textAB ∧ rowDup.Children[1]? = some textT2 ∧
    textAB.Key = textT2.Key ∧
    (∀ d ∈ rowDup.Children.drop (1 + 1), ∀ n, Visits d n → n.Key ≠ textT2.Key) ∧
    rowDup.Key ≠ textT2.Key ∧
    (calculateNodeLayout rowDup (NewConstraints 0 0 100 100) { X := 0, Y := 0 } []).2.get
        textAB.Key =
      some { Position := { X := 14, Y := 0 }, Size := { Width := 48 / 5, Height := 96 / 5 } }
    := by
  have hch : rowDup.Children = [textAB, textT2] := rfl
  have hs : rowDup.Props.GetFloat "spacing" 0 = 2 := rfl
  have hlater : ∀ d ∈ rowDup.Children.drop (1 + 1), ∀ n, Visits d n → n.Key ≠ textT2.Key := by
    intro d hd
    rw [hch] at hd
    simp at hd
  have hcallA : (rowCalls rowDup.Children (rowDup.Props.GetFloat "spacing" 0)
      (NewConstraints 0 0 100 100) { X := 0, Y := 0 } ({ X := 0, Y := 0 } : Position).X [])[0]? =
      some { constraints := NewConstraints 0 0 100 100, position := { X := 0, Y := 0 },
             size := { Width := 12, Height := 12 } } := by
    rw [hch, hs]
    simp only [rowCalls, List.getElem?_cons_zero, textAB_size]
    norm_num [Constraints.Constrain, NewConstraints]
  have hcallB : (rowCalls rowDup.Children (rowDup.Props.GetFloat "spacing" 0)
      (NewConstraints 0 0 100 100) { X := 0, Y := 0 } ({ X := 0, Y := 0 } : Position).X [])[1]? =
      some { constraints := NewConstraints 0 0 86 100, position := { X := 14, Y := 0 },
             size := { Width := 48 / 5, Height := 96 / 5 } } := by
    rw [hch, hs]
    simp only [rowCalls, List.getElem?_cons_succ, List.getElem?_cons_zero, textAB_size,
      textT2_size]
    norm_num [Constraints.Constrain, NewConstraints]
  exact ⟨Or.inl rfl, by decide, rfl, rfl, rfl, hlater, by decide,
    ((duplicate_key_last_wins rowDup (NewConstraints 0 0 100 100) { X := 0, Y := 0 } [] 0 1
      textAB textT2 (Or.inl rfl) (by decide) rfl rfl rfl hlater (by decide)).1 rfl _ _
      hcallA hcallB).1⟩

/-- Claim C14, as stated, fails. A row with spacing 5 over two texts of font
size 10, laid out under minimum (0,0) and maximum (10,100): the first text takes
the whole width 10, the cursor moves to 15, and the second text is recorded at
(15,0) with width -5. -/
theorem negative_width_with_spacing :
    rowOverflow.Props.GetFloat "spacing" 0 = 5 ∧
    rowOverflow.Children = [textD, textAB] ∧
    (CalculateLayout rowOverflow (NewConstraints 0 0 10 100)).get "t" =
      some { Position := { X := 15, Y := 0 }, Size := { Width := -5, Height := 12 } } := by
  refine ⟨rfl, rfl, ?_⟩
  have hch : rowOverflow.Children = [textD, textAB] := rfl
  have hs : rowOverflow.Props.GetFloat "spacing" 0 = 5 := rfl
  have hcall : (rowCalls rowOverflow.Children (rowOverflow.Props.GetFloat "spacing" 0)
      (NewConstraints 0 0 10 100) { X := 0, Y := 0 } ({ X := 0, Y := 0 } : Position).X [])[1]? =
      some { constraints := NewConstraints 0 0 (-5) 100, position := { X := 15, Y := 0 },
             size := { Width := -5, Height := 12 } } := by
    rw [hch, hs]
    simp only [rowCalls, List.getElem?_cons_succ, List.getElem?_cons_zero, textAB_size,
      textD_size]
    norm_num [Constraints.Constrain, NewConstraints]
  have hlater : ∀ b ∈ rowOverflow.Children.drop (1 + 1), ∀ n, Visits b n → n.Key ≠ textAB.Key
      := by
    intro b hb
    rw [hch] at hb
    simp at hb
  exact row_child_entry rowOverflow (NewConstraints 0 0 10 100) { X := 0, Y := 0 } [] rfl 1
    textAB _ rfl hcall hlater (by decide)

/-- Claim C14, amended. For a node tree and a root constraint with non-negative
minimum such that no budget is overrun in the walk (every constraint handed to
a node, the root's included, has maximum width and height at least 0; for a
child of a Row this is max.width - (x - position.x) >= 0, for a child of a
Column max.height - (y - position.y) >= 0), every rectangle in the result of
`CalculateLayout` has width and height at least 0, whatever the spacing,
padding, width, height and fontSize properties are. -/
theorem sizes_nonneg_without_overrun (root : Node) (c : Constraints)
    (h1 : 0 ≤ c.MinSize.Width) (h2 : 0 ≤ c.MinSize.Height)
    (hb : ∀ cc ∈ walkConstraints root c { X := 0, Y := 0 },
      0 ≤ cc.MaxSize.Width ∧ 0 ≤ cc.MaxSize.Height) :
    ∀ (k : String) (r : Rect), (CalculateLayout root c).get k = some r →
      0 ≤ r.Size.Width ∧ 0 ≤ r.Size.Height := by
  intro k r h
  exact calculateNodeLayout_nonneg root c { X := 0, Y := 0 } [] hb h1 h2
    (fun k2 r2 h2 => by simp [Layout.get] at h2) k r h

theorem sizes_nonneg_without_overrun_witness :
    scenarioRoot.Props.GetFloat "spacing" 0 = 1 ∧
    0 ≤ (NewConstraints 0 0 100 100).MinSize.Width ∧
    0 ≤ (NewConstraints 0 0 100 100).MinSize.Height ∧
    (∀ cc ∈ walkConstraints scenarioRoot (NewConstraints 0 0 100 100) { X := 0, Y := 0 },
      0 ≤ cc.MaxSize.Width ∧ 0 ≤ cc.MaxSize.Height) ∧
    ∀ (k : String) (r : Rect),
      (CalculateLayout scenarioRoot (NewConstraints 0 0 100 100)).get k = some r →
      0 ≤ r.Size.Width ∧ 0 ≤ r.Size.Height := by
  have hb : ∀ cc ∈ walkConstraints scenarioRoot (NewConstraints 0 0 100 100)
      { X := 0, Y := 0 }, 0 ≤ cc.MaxSize.Width ∧ 0 ≤ cc.MaxSize.Height := by
    intro cc hcc
    rw [scenario_walkConstraints] at hcc
    simp only [List.mem_cons, List.mem_singleton, List.not_mem_nil, or_false] at hcc
    rcases hcc with h | h | h | h <;> rw [h] <;> norm_num [NewConstraints]
  exact ⟨rfl, by norm_num [NewConstraints], by norm_num [NewConstraints], hb,
    sizes_nonneg_without_overrun scenarioRoot (NewConstraints 0 0 100 100)
      (by norm_num [NewConstraints]) (by norm_num [NewConstraints]) hb⟩

/-- Claim C23 fails on the code. `ShouldUpdate` is the negation of `Equal`; on
two equal property maps, here the empty maps and the maps with the one entry
"label" = "OK", it returns false. -/
theorem ShouldUpdate_false_on_equal_props :
    (∀ (fc : FunctionComponent) (oldProps newProps : Props),
      fc.ShouldUpdate oldProps newProps = !oldProps.Equal newProps) ∧
    boxComponent.ShouldUpdate [] [] = false ∧
    boxComponent.ShouldUpdate [("label", Value.str "OK")] [("label", Value.str "OK")] = false
    := by
  refine ⟨fun _ _ _ => rfl, by decide, by decide⟩

/-- Claim C21. On a board with width W >= 0, height H >= 0 and H rows of W
cells, `DrawRect` with any rectangle returns a board (no assignment indexes
outside the board: an out-of-range index would make the result `none`), and
the board returned has the same width, the same height and again H rows of W
cells. -/
theorem DrawRect_in_bounds (c : ConsoleRenderTarget) (rect : Rect) (props : Props)
    (_hw : 0 ≤ c.width) (_hh : 0 ≤ c.height) (hwf : BufferWF c.buffer c.width c.height) :
    ∃ c2, c.DrawRect rect props = some c2 ∧ c2.width = c.width ∧ c2.height = c.height ∧
      BufferWF c2.buffer c.width c.height ∧
      (∀ (buffer : List (List Char)) (y x : ℤ) (ch : Char),
        ¬ (0 ≤ y ∧ y < c.height ∧ 0 ≤ x ∧ x < c.width) →
        BufferWF buffer c.width c.height → writeCell buffer y x ch = none) := by
  obtain ⟨c2, h1, h2, h3, h4⟩ := DrawRect_ok c rect props hwf
  refine ⟨c2, h1, h2, h3, h4, ?_⟩
  intro buffer y x ch hout hb
  unfold writeCell
  by_cases hy : 0 ≤ y ∧ y < (buffer.length : ℤ)
  · rw [if_pos hy]
    have hyn : y.toNat < buffer.length := by
      have : (y.toNat : ℤ) = y := Int.toNat_of_nonneg hy.1
      omega
    have hrow : buffer.getD y.toNat [] ∈ buffer := by
      rw [List.getD_eq_getElem _ _ hyn]
      exact List.getElem_mem _
    have hrowlen := hb.2 _ hrow
    have hlen := hb.1
    rw [if_neg]
    intro hx
    exact hout ⟨hy.1, by omega, hx.1, by omega⟩
  · rw [if_neg hy]

theorem DrawRect_in_bounds_witness :
    0 ≤ (NewConsoleRenderTarget 3 2).width ∧ 0 ≤ (NewConsoleRenderTarget 3 2).height ∧
    BufferWF (NewConsoleRenderTarget 3 2).buffer (NewConsoleRenderTarget 3 2).width
      (NewConsoleRenderTarget 3 2).height ∧
    ∃ c2, (NewConsoleRenderTarget 3 2).DrawRect
        { Position := { X := -4, Y := 1 }, Size := { Width := 20, Height := -3 } } [] =
        some c2 ∧
      c2.width = (NewConsoleRenderTarget 3 2).width ∧
      c2.height = (NewConsoleRenderTarget 3 2).height :=
  ⟨by decide, by decide, NewConsoleRenderTarget_wf 3 2 (by decide) (by decide),
    (DrawRect_in_bounds (NewConsoleRenderTarget 3 2)
      { Position := { X := -4, Y := 1 }, Size := { Width := 20, Height := -3 } } []
      (by decide) (by decide) (NewConsoleRenderTarget_wf 3 2 (by decide) (by decide))).imp
      (fun _ h => ⟨h.1, h.2.1, h.2.2.1⟩)⟩

theorem truncInt_zero : truncInt 0 = 0 := by
  simp [truncInt]

/-- Claim C22 fails on the code. The text "éa" has the characters c_0 = 'é'
(two bytes) and c_1 = 'a'; `range text` pairs 'a' with the byte offset 2, and
`DrawText` at (0,0) on a blank board of width 4 writes 'a' into column 2 and
leaves column 1 blank. -/
theorem DrawText_multibyte_gap :
    rangeString "éa" = [(0, 'é'), (2, 'a')] ∧
    (NewConsoleRenderTarget 4 1).DrawText "éa"
        { Position := { X := 0, Y := 0 }, Size := { Width := 4, Height := 1 } } [] =
      some { width := 4, height := 1, buffer := [['é', ' ', 'a', ' ']] } := by
  constructor
  · decide
  · unfold ConsoleRenderTarget.DrawText
    simp only [truncInt_zero]
    decide

/-- Claim C24, as stated, fails. The tree is the single Custom node `selfNode`
without children; its component returns that node again. For every bound on
the call depth the walk exceeds it: `CalculateLayout` never returns. -/
theorem self_rendering_component_never_returns :
    selfNode = RefNode.mk CustomNodeType "loop" [] [] (some ()) ∧
    selfRender () [] = selfNode ∧
    ∀ fuel : ℕ, CalculateLayoutFuel selfRender fuel selfNode (NewConstraints 0 0 100 100) =
      none := by
  refine ⟨rfl, rfl, ?_⟩
  intro fuel
  unfold CalculateLayoutFuel
  rw [selfNode_no_result]
  rfl

/-- Claim C24, amended. On every node tree that is well-founded together with
the nodes its components return (every `Node`), `CalculateLayout` runs to
completion: the walk with bounded call depth returns the result of
`CalculateLayout` for every bound from the number of nodes visited on; each
call goes only into children of the node or into the node its component
returns; and the result has at most as many entries as nodes were visited. -/
theorem layout_completes_and_is_bounded (root : Node) (c : Constraints) (extra : ℕ) :
    CalculateLayoutFuel renderRef (visitCount root + extra) root.toRef c =
      some (CalculateLayout root c) ∧
    (CalculateLayout root c).length ≤ visitCount root := by
  constructor
  · unfold CalculateLayoutFuel
    rw [calculateNodeLayout_completes root (visitCount root + extra) (Nat.le_add_right _ _)]
    rfl
  · have h := calculateNodeLayout_length root c { X := 0, Y := 0 } []
    simpa using h

end Gompose
